import Mathlib

/-!
# Grant reconciliation of the MySQL provider

A shallow embedding of `mysql/resource_grant.go`, `mysql/resource_user.go` and
`mysql/resource_user_password.go`, with the helpers they use from `mysql/provider.go`.

* The server, the secret store and the version library are reached through `Env`: the parsed
  server version, the answers of `db.Exec` and `db.Query`, and `getValueFromSecret`.

* Go strings are lists of characters (`Str`); `fmt.Sprintf` with `%s` verbs is concatenation.
* A `*schema.Set` of strings is the duplicate-free list its `List()` method returns.
  `Difference` keeps the elements of the receiver that are absent from the argument, and
  `List()` orders by key, so the listing of a difference is the receiver's listing filtered.
* `db.Exec` is an oracle from statement text to the server's answer; every operation returns
  the statements it executed, in order, next to its result.
-/

namespace MySQL

/-- Go `string`. -/
abbrev Str := List Char

/-- Go `error` values are represented by their message. -/
abbrev Error := Str

/-- The answer of `db.Exec` to a statement: `none` on success, `some msg` on failure. -/
abbrev ExecOracle := Str → Option Error

/-- The backtick character. -/
def backtick : Char := Char.ofNat 96

/-! ## Library functions of Go used by the source -/

/-- Go `strings.Join`. -/
def stringsJoin (sep : Str) : List Str → Str
  | [] => []
  | [a] => a
  | a :: b :: rest => a ++ sep ++ stringsJoin sep (b :: rest)

/-- Go `strings.HasSuffix`. -/
def hasSuffix (s suffix : Str) : Bool :=
  suffix.reverse.isPrefixOf s.reverse

/-- The method `Difference` of `schema.Set`, on listings: the elements of `s` not in `other`. -/
def setDifference (s other : List Str) : List Str :=
  s.filter (fun k => !other.contains k)

/-! ## updatePrivileges -/

/-- The value of `grantIfs` in `updatePrivileges`: `newPrivs.Difference(oldPrivs).List()`. -/
def grantIfs (oldPrivs newPrivs : List Str) : List Str :=
  setDifference newPrivs oldPrivs

/-- The value of `revokeIfs` in `updatePrivileges`: `oldPrivs.Difference(newPrivs).List()`. -/
def revokeIfs (oldPrivs newPrivs : List Str) : List Str :=
  setDifference oldPrivs newPrivs

/-- The GRANT statement rendered by `updatePrivileges`. -/
def updateGrantSQL (grants : List Str) (user database table : Str) : Str :=
  "GRANT ".toList ++ stringsJoin ",".toList grants ++ " ON ".toList ++ database ++
    ".".toList ++ table ++ " TO ".toList ++ user

/-- The REVOKE statement rendered by `updatePrivileges`. -/
def updateRevokeSQL (revokes : List Str) (user database table : Str) : Str :=
  "REVOKE ".toList ++ stringsJoin ",".toList revokes ++ " ON ".toList ++ database ++
    ".".toList ++ table ++ " FROM ".toList ++ user

/-- What an operation did: the statements passed to `db.Exec`, in order, and the error
returned (`none` for a `nil` error). -/
structure Run where
  executed : List Str
  err : Option Error
deriving DecidableEq, Repr

/-- The function `updatePrivileges`; `oldPrivs` and `newPrivs` are the two sets returned by
`d.GetChange("privileges")`. -/
def updatePrivileges (exec : ExecOracle) (oldPrivs newPrivs : List Str)
    (user database table : Str) : Run :=
  let grantIfs := grantIfs oldPrivs newPrivs
  let revokeIfs := revokeIfs oldPrivs newPrivs
  let afterGrant : Run :=
    if grantIfs.length > 0 then
      let sql := updateGrantSQL grantIfs user database table
      match exec sql with
      | some err => ⟨[sql], some err⟩
      | none => ⟨[sql], none⟩
    else ⟨[], none⟩
  match afterGrant.err with
  | some err => ⟨afterGrant.executed, some err⟩
  | none =>
    if revokeIfs.length > 0 then
      let sql := updateRevokeSQL revokeIfs user database table
      match exec sql with
      | some err => ⟨afterGrant.executed ++ [sql], some err⟩
      | none => ⟨afterGrant.executed ++ [sql], none⟩
    else ⟨afterGrant.executed, none⟩

/-! ## The grant listing: regular expressions and showGrants -/

/-- Go `strings.Split` with a one-character separator. -/
def stringsSplit (sep : Char) : Str → List Str
  | [] => [[]]
  | c :: cs =>
    if c = sep then [] :: stringsSplit sep cs
    else
      match stringsSplit sep cs with
      | [] => [[c]]
      | h :: t => (c :: h) :: t

/-- Go `unicode.IsSpace`: the characters of the Unicode property White_Space. -/
def isSpace (c : Char) : Bool :=
  let n := c.toNat
  (9 ≤ n && n ≤ 13) || n = 32 || n = 133 || n = 160 || n = 5760 ||
    (8192 ≤ n && n ≤ 8202) || n = 8232 || n = 8233 || n = 8239 || n = 8287 || n = 12288

/-- Go `strings.TrimFunc`: drop the leading and the trailing characters that satisfy `f`. -/
def trimFunc (f : Char → Bool) (s : Str) : Str :=
  ((s.dropWhile f).reverse.dropWhile f).reverse

/-- Go `strings.TrimSpace`. -/
def trimSpace (s : Str) : Str := trimFunc isSpace s

/-- Go `strings.Trim` with a one-character cutset. -/
def stringsTrim (s : Str) (cut : Char) : Str := trimFunc (fun c => c == cut) s

/-- Go `strings.ReplaceAll(s, old, "")` for a one-character `old`. -/
def removeAll (s : Str) (old : Char) : Str := s.filter (fun c => c != old)

/-- Regular expression: a literal at the start of the input; the remaining input on success. -/
def literal : Str → Str → Option Str
  | [], s => some s
  | _ :: _, [] => none
  | a :: l, c :: s => if a = c then literal l s else none

/-- Regular expression `.+` followed by the continuation `k`, as a backtracking search finds
it (Go's leftmost-first rule): `.` is any character but a newline, and a longer repetition is
preferred to a shorter one. Returns the text of the repetition and the result of `k`. -/
def greedyPlus {α : Type} (k : Str → Option α) : Str → Option (Str × α)
  | [] => none
  | c :: cs =>
    if c = '\n' then none
    else
      match greedyPlus k cs with
      | some (g, r) => some (c :: g, r)
      | none =>
        match k cs with
        | some r => some ([c], r)
        | none => none

/-- Regular expression `.+?` followed by the continuation `k`: a shorter repetition is
preferred to a longer one. -/
def lazyPlus {α : Type} (k : Str → Option α) : Str → Option (Str × α)
  | [] => none
  | c :: cs =>
    if c = '\n' then none
    else
      match k cs with
      | some r => some ([c], r)
      | none =>
        match lazyPlus k cs with
        | some (g, r) => some (c :: g, r)
        | none => none

/-- The tail `(.+?) TO` of `re`: the text of the third group. -/
def reTable (s : Str) : Option Str :=
  (lazyPlus (literal " TO".toList) s).map (fun x => x.1)

/-- The tail `(.+?)\.(.+?) TO` of `re`: the texts of the second and third groups. -/
def reDatabase (s : Str) : Option (Str × Str) :=
  lazyPlus (fun r => (literal ".".toList r).bind reTable) s

/-- The tail `(.+) ON (.+?)\.(.+?) TO` of `re`: the texts of the three groups. -/
def rePrivileges (s : Str) : Option (Str × Str × Str) :=
  greedyPlus (fun r => (literal " ON ".toList r).bind reDatabase) s

/-- The call `re.FindStringSubmatch(rawGrant)` for `re` the expression
`^GRANT (.+) ON (.+?)\.(.+?) TO`: the whole match followed by the three groups, or the empty
slice when the line does not match. -/
def reFindStringSubmatch (rawGrant : Str) : List Str :=
  match literal "GRANT ".toList rawGrant with
  | none => []
  | some r =>
    match rePrivileges r with
    | none => []
    | some (m1, m2, m3) =>
      ["GRANT ".toList ++ m1 ++ " ON ".toList ++ m2 ++ ".".toList ++ m3 ++ " TO".toList,
        m1, m2, m3]

/-- The class `\w` of Go regular expressions: `[0-9A-Za-z_]`. -/
def isWordChar (c : Char) : Bool :=
  ('0' ≤ c && c ≤ '9') || ('A' ≤ c && c ≤ 'Z') || ('a' ≤ c && c ≤ 'z') || c = '_'

/-- Whether the character next to a position, if any, is a word character. -/
def isWordAt : Option Char → Bool
  | none => false
  | some c => isWordChar c

/-- The assertion `\b` between the previous and the next character: exactly one of the two
is a word character (the ends of the text count as non-word). -/
def wordBoundary (prev next : Option Char) : Bool :=
  isWordAt prev != isWordAt next

/-- Whether `\bGRANT OPTION\b` matches at the current position, `prev` being the character
before it. -/
def reGrantAt (prev : Option Char) (s : Str) : Bool :=
  wordBoundary prev s.head? &&
    match literal "GRANT OPTION".toList s with
    | none => false
    | some rest => wordBoundary (some 'N') rest.head?

/-- Whether `\bGRANT OPTION\b` matches at some position of `s`. -/
def reGrantFrom : Option Char → Str → Bool
  | prev, [] => reGrantAt prev []
  | prev, c :: cs => reGrantAt prev (c :: cs) || reGrantFrom (some c) cs

/-- The call `reGrant.MatchString(rawGrant)` for `reGrant` the expression
`\bGRANT OPTION\b`. -/
def reGrantMatchString (rawGrant : Str) : Bool := reGrantFrom none rawGrant

/-- The struct `MySQLGrant`. -/
structure MySQLGrant where
  Database : Str
  Table : Str
  Privileges : List Str
  Grant : Bool
deriving DecidableEq, Repr

/-- A Go function result `(value, error)`. -/
inductive Result (α : Type) where
  | ok (value : α)
  | error (err : Error)
deriving DecidableEq, Repr

/-- The body of the loop of `showGrants` for one scanned row. -/
def parseGrantLine (rawGrant : Str) : Result MySQLGrant :=
  match reFindStringSubmatch rawGrant with
  | [_, m1, m2, m3] =>
    .ok {
      Database := removeAll m2 backtick
      Table := stringsTrim m3 backtick
      Privileges := (stringsSplit ',' m1).map trimSpace
      Grant := reGrantMatchString rawGrant }
  | _ => .error ("failed to parse grant statement: ".toList ++ rawGrant)

/-- The loop of `showGrants` over the remaining rows, `grants` being the records so far. -/
def showGrantsLoop : List Str → List MySQLGrant → Result (List MySQLGrant)
  | [], grants => .ok grants
  | rawGrant :: rows, grants =>
    match parseGrantLine rawGrant with
    | .error err => .error err
    | .ok grant => showGrantsLoop rows (grants ++ [grant])

/-- The function `showGrants`; `query` is the outcome of `db.Query("SHOW GRANTS FOR ...")`,
the rows of the listing or the error of the query. -/
def showGrants (query : Result (List Str)) : Result (List MySQLGrant) :=
  match query with
  | .error err => .error err
  | .ok rows => showGrantsLoop rows []

/-- The property the specification words as: the line contains the standalone token sequence
GRANT OPTION, bounded by word boundaries. -/
def ContainsStandaloneGrantOption (line : Str) : Prop :=
  ∃ pre post : Str, line = pre ++ "GRANT OPTION".toList ++ post ∧
    isWordAt pre.getLast? = false ∧ isWordAt post.head? = false

/-- The text a group `.+` or `.+?` can match: non-empty and free of newlines. -/
def DotPlus (g : Str) : Prop := g ≠ [] ∧ '\n' ∉ g

/-- The grammar of a grant line as the specification words it:
`GRANT <privilege-list> ON <database>.<table> TO ...`. -/
def MatchesGrantGrammar (line : Str) : Prop :=
  ∃ privs db tbl rest : Str,
    line = "GRANT ".toList ++ privs ++ " ON ".toList ++ db ++ ".".toList ++ tbl ++
      " TO".toList ++ rest ∧ DotPlus privs ∧ DotPlus db ∧ DotPlus tbl

/-! ## Versions, principals and identifiers -/

/-- A version as `version.NewVersion` of hashicorp/go-version parses it: the numeric
segments (major, minor, patch, possibly more) and the prerelease text, empty for a release. -/
structure Version where
  segments : List Nat
  pre : Str
deriving DecidableEq, Repr

/-- The helper `allZero` of go-version. -/
def allZero (segs : List Nat) : Bool := segs.all (fun n => n == 0)

/-- The segment loop of `Version.Compare`: the first differing segment decides, and a version
with fewer segments equals a longer one whose further segments are all zero. -/
def compareSegments : List Nat → List Nat → Int
  | [], [] => 0
  | [], b :: other => if allZero (b :: other) then 0 else -1
  | a :: self, [] => if allZero (a :: self) then 0 else 1
  | a :: self, b :: other =>
    if a = b then compareSegments self other else if a < b then -1 else 1

/-- The method `Version.Compare` of go-version; `comparePrereleases` is the library's
comparison of two non-empty prerelease texts. The library first returns 0 when the two
versions print the same, which the branches below return as well. -/
def Version.Compare (comparePrereleases : Str → Str → Int) (v other : Version) : Int :=
  if v.segments = other.segments then
    if v.pre = [] ∧ other.pre = [] then 0
    else if v.pre = [] then 1
    else if other.pre = [] then -1
    else comparePrereleases v.pre other.pre
  else compareSegments v.segments other.segments

/-- The method `Version.GreaterThan` of go-version. -/
def Version.GreaterThan (comparePrereleases : Str → Str → Int) (v other : Version) : Bool :=
  decide (Version.Compare comparePrereleases v other > 0)

/-- What the operations reach outside the process: the server behind `db`, the secret store
and the library comparison of prereleases. -/
structure Env where
  /-- The outcome of `serverVersion(db)`. -/
  serverVersion : Result Version
  /-- The function `comparePrereleases` of go-version. -/
  comparePrereleases : Str → Str → Int
  /-- The function `getValueFromSecret(secretId, region, key)`. -/
  getValueFromSecret : Str → Str → Str → Result Str
  /-- The field `AWSRegion` of the provider configuration. -/
  AWSRegion : Str
  /-- The answer of `db.Exec` to a statement. -/
  exec : ExecOracle
  /-- The rows `db.Query` returns for a statement, or its error. -/
  query : Str → Result (List Str)

/-- The function `supportsRoles`; `requiredVersion` is the parse of `"8.0.0"`. -/
def supportsRoles (env : Env) : Result Bool :=
  match env.serverVersion with
  | .error err => .error err
  | .ok currentVersion =>
    let requiredVersion : Version := { segments := [8, 0, 0], pre := [] }
    let hasRoles := currentVersion.GreaterThan env.comparePrereleases requiredVersion
    .ok hasRoles

/-- The function `userOrRole`: the rendered principal and whether it is a role. -/
def userOrRole (user host role : Str) (hasRoles : Bool) : Result (Str × Bool) :=
  if user.length > 0 ∧ host.length > 0 then
    .ok ("'".toList ++ user ++ "'@'".toList ++ host ++ "'".toList, false)
  else if role.length > 0 then
    if !hasRoles then
      .error "Roles are only supported on MySQL 8 and above".toList
    else
      .ok ("'".toList ++ role ++ "'".toList, true)
  else
    .error "user with host or a role is required".toList

/-- The function `formatDatabaseName`. -/
def formatDatabaseName (database : Str) : Str :=
  if database ≠ "*".toList ∧ !hasSuffix database [backtick] then
    [backtick] ++ database ++ [backtick]
  else database

/-- The function `formatTableName`. -/
def formatTableName (table : Str) : Str :=
  if table = [] ∨ table = "*".toList then "*".toList
  else [backtick] ++ table ++ [backtick]

/-- The replacer `identQuoteReplacer`: every backtick becomes two. -/
def identQuoteReplacer (s : Str) : Str :=
  s.flatMap (fun c => if c = backtick then [backtick, backtick] else [c])

/-- The function `quoteIdentifier`. -/
def quoteIdentifier (s : Str) : Str :=
  [backtick] ++ identQuoteReplacer s ++ [backtick]

/-- The call `fmt.Sprintf(template, v)` for a template with one `%s` verb. -/
def sprintf1 : Str → Str → Str
  | [], _ => []
  | [c], _ => [c]
  | c :: d :: rest, v =>
    if c = '%' ∧ d = 's' then v ++ rest else c :: sprintf1 (d :: rest) v

/-- The function `flattenList`. -/
def flattenList (list : List Str) (template : Str) : Str :=
  stringsJoin ", ".toList (list.map (sprintf1 template))

/-! ## CreateGrant and ReadGrant -/

/-- The `schema.ResourceData` of a `mysql_grant` resource: its id and attributes. A set
attribute is its listing; `GetOk` on it succeeds exactly when it is non-empty. -/
structure GrantData where
  id : Str
  secret_name : Str
  username_key : Str
  role : Str
  host : Str
  database : Str
  table : Str
  privileges : List Str
  roles : List Str
  grant : Bool
  procedure : Bool
  tls_option : Str
deriving DecidableEq, Repr

/-- What a grant operation did: the statements passed to `db.Exec`, the error returned and
the resource data it leaves. -/
structure GrantRun where
  executed : List Str
  err : Option Error
  data : GrantData
deriving DecidableEq, Repr

/-- The loop of `ReadGrant` over the observed grants: the privileges of the last record for
the managed database and table, and whether any record carries the grant option. -/
def readGrantLoop (database table : Str) :
    List MySQLGrant → List Str × Bool → List Str × Bool
  | [], acc => acc
  | grant :: grants, (privileges, grantOption) =>
    readGrantLoop database table grants
      (if grant.Database = database ∧ grant.Table = table then grant.Privileges
        else privileges,
       if grant.Grant then true else grantOption)

/-- The function `ReadGrant`: the error returned and the resource data afterwards. -/
def ReadGrant (env : Env) (d : GrantData) : Option Error × GrantData :=
  match supportsRoles env with
  | .error err => (some err, d)
  | .ok hasRoles =>
    match env.getValueFromSecret d.secret_name env.AWSRegion d.username_key with
    | .error err => (some err, d)
    | .ok user =>
      match userOrRole user d.host d.role hasRoles with
      | .error err => (some err, d)
      | .ok (userOrRole, _) =>
        match showGrants (env.query ("SHOW GRANTS FOR ".toList ++ userOrRole)) with
        | .error _ => (none, { d with id := [] })
        | .ok grants =>
          let (privileges, grantOption) := readGrantLoop d.database d.table grants ([], false)
          (none, { d with privileges := privileges.eraseDups, grant := grantOption })

/-- The first branch of `CreateGrant`: the text `privilegesOrRoles`, the flag `hasPrivs` and
the count `rolesGranted`, or the error of the branch. -/
def createGrantTarget (d : GrantData) (hasRoles : Bool) : Result (Str × Bool × Nat) :=
  if d.privileges ≠ [] then
    .ok (flattenList d.privileges "%s".toList, true, 0)
  else if d.roles ≠ [] then
    if !hasRoles then
      .error "Roles are only supported on MySQL 8 and above".toList
    else
      .ok (flattenList d.roles "'%s'".toList, false, d.roles.length)
  else
    .error "One of privileges or roles is required".toList

/-- The text `grantOn` of `CreateGrant`. -/
def createGrantOn (d : GrantData) (isRole hasPrivs : Bool) (rolesGranted : Nat) : Str :=
  if (!isRole || hasPrivs) && rolesGranted == 0 && d.procedure == false then
    " ON ".toList ++ formatDatabaseName d.database ++ ".".toList ++ formatTableName d.table
  else if (!isRole || hasPrivs) && rolesGranted == 0 && d.procedure == true then
    " ON PROCEDURE ".toList ++ d.database
  else []

/-- The statement `stmtSQL` of `CreateGrant` as it is passed to `db.Exec`. -/
def createGrantSQL (d : GrantData) (hasRoles isRole : Bool) (privilegesOrRoles grantOn
    userOrRole : Str) : Str :=
  let stmtSQL := "GRANT ".toList ++ privilegesOrRoles ++ grantOn ++ " TO ".toList ++ userOrRole
  let stmtSQL :=
    if !hasRoles && d.tls_option != [] then stmtSQL ++ (" REQUIRE ".toList ++ d.tls_option)
    else stmtSQL
  let stmtSQL :=
    if !hasRoles && !isRole && d.grant then stmtSQL ++ " WITH GRANT OPTION".toList
    else stmtSQL
  stmtSQL

/-- The function `CreateGrant`. -/
def CreateGrant (env : Env) (d : GrantData) : GrantRun :=
  match supportsRoles env with
  | .error err => ⟨[], some err, d⟩
  | .ok hasRoles =>
    match createGrantTarget d hasRoles with
    | .error err => ⟨[], some err, d⟩
    | .ok (privilegesOrRoles, hasPrivs, rolesGranted) =>
      match env.getValueFromSecret d.secret_name env.AWSRegion d.username_key with
      | .error err => ⟨[], some err, d⟩
      | .ok user =>
        match userOrRole user d.host d.role hasRoles with
        | .error err => ⟨[], some err, d⟩
        | .ok (userOrRole, isRole) =>
          let database := formatDatabaseName d.database
          let grantOn := createGrantOn d isRole hasPrivs rolesGranted
          let stmtSQL := createGrantSQL d hasRoles isRole privilegesOrRoles grantOn userOrRole
          match env.exec stmtSQL with
          | some err =>
            ⟨[stmtSQL], some ("Error running SQL (".toList ++ stmtSQL ++ "): ".toList ++ err), d⟩
          | none =>
            let id :=
              if isRole then d.role ++ ":".toList ++ database
              else user ++ "@".toList ++ d.host ++ ":".toList ++ database
            let read := ReadGrant env { d with id := id }
            ⟨[stmtSQL], read.1, read.2⟩

/-! ## DeleteGrant -/

/-- The text `whatToRevoke` of `DeleteGrant`; `database` and `table` are the formatted
names. -/
def deleteWhatToRevoke (d : GrantData) (database table : Str) : Str :=
  if d.roles.length > 0 then
    flattenList d.roles "'%s'".toList
  else if d.privileges.length > 0 ∧ d.procedure = false then
    flattenList d.privileges "%s".toList ++ " ON ".toList ++ database ++ ".".toList ++ table
  else if d.procedure = true then
    "EXECUTE ON PROCEDURE ".toList ++ d.database
  else
    "ALL ON ".toList ++ database ++ ".".toList ++ table

/-- The function `DeleteGrant`. -/
def DeleteGrant (env : Env) (d : GrantData) : GrantRun :=
  let database := formatDatabaseName d.database
  let table := formatTableName d.table
  match supportsRoles env with
  | .error err => ⟨[], some err, d⟩
  | .ok hasRoles =>
    match env.getValueFromSecret d.secret_name env.AWSRegion d.username_key with
    | .error err => ⟨[], some err, d⟩
    | .ok user =>
      match userOrRole user d.host d.role hasRoles with
      | .error err => ⟨[], some err, d⟩
      | .ok (userOrRole, isRole) =>
        let first : Run :=
          if !isRole && d.roles.length == 0 && d.procedure == false then
            let sql := "REVOKE GRANT OPTION ON ".toList ++ database ++ ".".toList ++ table ++
              " FROM ".toList ++ userOrRole
            match env.exec sql with
            | some err =>
              ⟨[sql], some ("error revoking GRANT (".toList ++ sql ++ "): ".toList ++ err)⟩
            | none => ⟨[sql], none⟩
          else ⟨[], none⟩
        match first.err with
        | some err => ⟨first.executed, some err, d⟩
        | none =>
          let whatToRevoke := deleteWhatToRevoke d database table
          let sql := "REVOKE ".toList ++ whatToRevoke ++ " FROM ".toList ++ userOrRole
          match env.exec sql with
          | some err =>
            ⟨first.executed ++ [sql],
              some ("error revoking ALL (".toList ++ sql ++ "): ".toList ++ err), d⟩
          | none => ⟨first.executed ++ [sql], none, d⟩

/-! ## Users -/

/-- The method `Version.LessThan` of go-version. -/
def Version.LessThan (comparePrereleases : Str → Str → Int) (v other : Version) : Bool :=
  decide (Version.Compare comparePrereleases v other < 0)

/-- The `schema.ResourceData` of a `mysql_user` resource: its id and attributes. -/
structure UserData where
  id : Str
  secret_name : Str
  username_key : Str
  host : Str
  password_key : Str
  tls_option : Str
deriving DecidableEq, Repr

/-- What a user operation did: the statements passed to `db.Exec`, the error returned and
the resource data it leaves. -/
structure UserRun where
  executed : List Str
  err : Option Error
  data : UserData
deriving DecidableEq, Repr

/-- The function `CreateUser`; `requiredVersion` is the parse of `"5.7.0"`. -/
def CreateUser (env : Env) (d : UserData) : UserRun :=
  match env.getValueFromSecret d.secret_name env.AWSRegion d.username_key with
  | .error err => ⟨[], some err, d⟩
  | .ok username =>
    match env.getValueFromSecret d.secret_name env.AWSRegion d.password_key with
    | .error err => ⟨[], some err, d⟩
    | .ok password =>
      let stmtSQL := "CREATE USER '".toList ++ username ++ "'@'".toList ++ d.host ++ "'".toList
      let stmtSQL := stmtSQL ++ (" IDENTIFIED BY '".toList ++ password ++ "'".toList)
      let requiredVersion : Version := { segments := [5, 7, 0], pre := [] }
      match env.serverVersion with
      | .error err => ⟨[], some err, d⟩
      | .ok currentVersion =>
        let stmtSQL :=
          if currentVersion.GreaterThan env.comparePrereleases requiredVersion
              && d.tls_option != [] then
            stmtSQL ++ (" REQUIRE ".toList ++ d.tls_option)
          else stmtSQL
        match env.exec stmtSQL with
        | some err => ⟨[stmtSQL], some err, d⟩
        | none =>
          let userId := d.secret_name ++ "@".toList ++ d.username_key ++ "@".toList ++
            d.password_key ++ "@".toList ++ d.host
          ⟨[stmtSQL], none, { d with id := userId }⟩

/-- The password part of `UpdateUser`, run when `newpw` is non-empty: the statement that
changes the password; `ver` is the parse of `"5.7.6"`. -/
def updateUserPassword (env : Env) (d : UserData) (username newpw : Str) : Run :=
  match env.serverVersion with
  | .error err => ⟨[], some ("Could not determine server version: ".toList ++ err)⟩
  | .ok serverVersion =>
    let ver : Version := { segments := [5, 7, 6], pre := [] }
    let stmtSQL :=
      if serverVersion.LessThan env.comparePrereleases ver then
        "SET PASSWORD FOR '".toList ++ username ++ "'@'".toList ++ d.host ++
          "' = PASSWORD('".toList ++ newpw ++ "')".toList
      else
        "ALTER USER '".toList ++ username ++ "'@'".toList ++ d.host ++
          "' IDENTIFIED BY '".toList ++ newpw ++ "'".toList
    match env.exec stmtSQL with
    | some err => ⟨[stmtSQL], some err⟩
    | none => ⟨[stmtSQL], none⟩

/-- The statement of `UpdateUser` that alters the TLS requirement: the format
`ALTER USER '%s'@'%s'  REQUIRE %s` filled with the user, the host and the text
`fmt.Sprintf(" REQUIRE %s", tls_option)`. -/
def updateUserTLSSQL (username host tls_option : Str) : Str :=
  "ALTER USER '".toList ++ username ++ "'@'".toList ++ host ++ "'  REQUIRE ".toList ++
    (" REQUIRE ".toList ++ tls_option)

/-- The function `UpdateUser`; the two flags are `d.HasChange("password_key")` and
`d.HasChange("tls_option")`, and `requiredVersion` is the parse of `"5.7.0"`. -/
def UpdateUser (env : Env) (d : UserData) (passwordKeyChanged tlsOptionChanged : Bool) :
    UserRun :=
  match env.getValueFromSecret d.secret_name env.AWSRegion d.username_key with
  | .error err => ⟨[], some err, d⟩
  | .ok username =>
    let newpw : Result Str :=
      if passwordKeyChanged then
        env.getValueFromSecret d.secret_name env.AWSRegion d.password_key
      else .ok []
    match newpw with
    | .error err => ⟨[], some err, d⟩
    | .ok newpw =>
      let first : Run :=
        if newpw ≠ [] then updateUserPassword env d username newpw else ⟨[], none⟩
      match first.err with
      | some err => ⟨first.executed, some err, d⟩
      | none =>
        let requiredVersion : Version := { segments := [5, 7, 0], pre := [] }
        match env.serverVersion with
        | .error err => ⟨first.executed, some err, d⟩
        | .ok currentVersion =>
          if tlsOptionChanged
              && currentVersion.GreaterThan env.comparePrereleases requiredVersion then
            let stmtSQL := updateUserTLSSQL username d.host d.tls_option
            match env.exec stmtSQL with
            | some err => ⟨first.executed ++ [stmtSQL], some err, d⟩
            | none => ⟨first.executed ++ [stmtSQL], none, d⟩
          else ⟨first.executed, none, d⟩

/-- The function `DeleteUser`. -/
def DeleteUser (env : Env) (d : UserData) : UserRun :=
  match env.getValueFromSecret d.secret_name env.AWSRegion d.username_key with
  | .error err => ⟨[], some err, d⟩
  | .ok username =>
    let stmtSQL := "DROP USER '".toList ++ username ++ "'@'".toList ++ d.host ++ "'".toList
    match env.exec stmtSQL with
    | some err => ⟨[stmtSQL], some err, d⟩
    | none => ⟨[stmtSQL], none, { d with id := [] }⟩

/-- Go `strings.SplitN` with a one-character separator and a non-negative limit `n`: at most
`n` fields, the last one being the unsplit remainder. -/
def stringsSplitN (sep : Char) : Nat → Str → List Str
  | 0, _ => []
  | 1, s => [s]
  | _ + 2, [] => [[]]
  | n + 2, c :: cs =>
    if c = sep then [] :: stringsSplitN sep (n + 1) cs
    else
      match stringsSplitN sep (n + 2) cs with
      | [] => [[c]]
      | h :: t => (c :: h) :: t

/-- What `ImportUser` did: the keys passed to `getValueFromSecret` and the (user, host) pairs
passed to the count query, in order, and the value returned. -/
structure ImportRun where
  lookups : List Str
  counted : List (Str × Str)
  result : Result (List UserData)
deriving DecidableEq, Repr

/-- The function `ImportUser`; `countUsers user host` is the outcome of scanning the count
query on `mysql.user` into an integer. -/
def ImportUser (env : Env) (countUsers : Str → Str → Result Int) (d : UserData) : ImportRun :=
  match stringsSplitN '@' 4 d.id with
  | [secretName, usernameKey, passwordKey, host] =>
    match env.getValueFromSecret secretName env.AWSRegion usernameKey with
    | .error err => ⟨[usernameKey], [], .error err⟩
    | .ok username =>
      match env.getValueFromSecret secretName env.AWSRegion passwordKey with
      | .error err => ⟨[usernameKey, passwordKey], [], .error err⟩
      | .ok _ =>
        match countUsers username host with
        | .error err => ⟨[usernameKey, passwordKey], [(username, host)], .error err⟩
        | .ok count =>
          if count = 0 then
            ⟨[usernameKey, passwordKey], [(username, host)],
              .error ("user from key '".toList ++ usernameKey ++ "' in the secret ".toList ++
                secretName ++ " not found".toList)⟩
          else
            ⟨[usernameKey, passwordKey], [(username, host)],
              .ok [{ d with
                secret_name := secretName
                username_key := usernameKey
                password_key := passwordKey
                host := host
                tls_option := "NONE".toList }]⟩
  | _ =>
    ⟨[], [], .error ("wrong ID format ".toList ++ d.id ++
      " (expected SECRET_NAME@USER_KEY@PASSWORD_KEY@HOST)".toList)⟩

/-! ## SetUserPassword -/

/-- The constant `requiredPasswordLength`. -/
def requiredPasswordLength : Int := 32

/-- One block of the set attribute `password_policy`, with the schema defaults filled in by
the framework for the attributes the configuration leaves out. -/
structure PasswordPolicy where
  length : Int
  allow_repeat : Bool
  num_symbols : Int
  num_digits : Int
deriving DecidableEq, Repr

/-- The `ValidateFunc` of `password_policy.length`: the errors it reports for a value. -/
def validateLength (value : Int) : List Error :=
  if value < requiredPasswordLength then
    ["password_policy_length must be at least 32".toList]
  else []

/-- The `schema.ResourceData` of a `mysql_user_password` resource. -/
structure UserPasswordData where
  id : Str
  user : Str
  host : Str
  pgp_key : Str
  key_fingerprint : Str
  encrypted_password : Str
  password_policy : List PasswordPolicy
deriving DecidableEq, Repr

/-- Whether the schema validation accepts the configuration: every `password_policy` block
given passes the `ValidateFunc` of its length. -/
def acceptedBySchema (d : UserPasswordData) : Bool :=
  d.password_policy.all (fun p => validateLength p.length == [])

/-- The four variables `passwordPolicyLength`, `passwordPolicyNumDigits`,
`passwordPolicyNumSymbols` and `passwordPolicyAllowRepeat` of `SetUserPassword`. -/
structure PolicyVars where
  passwordPolicyLength : Int
  passwordPolicyNumDigits : Int
  passwordPolicyNumSymbols : Int
  passwordPolicyAllowRepeat : Bool
deriving DecidableEq, Repr

/-- The first part of `SetUserPassword`: the four variables start at their zero values and
every block of `password_policy` overwrites them. -/
def passwordPolicyVars (policy : List PasswordPolicy) : PolicyVars :=
  policy.foldl
    (fun _ tfMap => {
      passwordPolicyLength := tfMap.length
      passwordPolicyNumDigits := tfMap.num_digits
      passwordPolicyNumSymbols := tfMap.num_symbols
      passwordPolicyAllowRepeat := tfMap.allow_repeat })
    { passwordPolicyLength := 0
      passwordPolicyNumDigits := 0
      passwordPolicyNumSymbols := 0
      passwordPolicyAllowRepeat := false }

/-- The collaborators of `SetUserPassword` besides the server and its version. -/
structure PasswordEnv where
  /-- The function `password.Generate(length, numDigits, numSymbols, noUpper, allowRepeat)`. -/
  generate : Int → Int → Int → Bool → Bool → Result Str
  /-- The function `encryption.RetrieveGPGKey`. -/
  retrieveGPGKey : Str → Result Str
  /-- The function `encryption.EncryptValue`: the fingerprint and the encrypted value. -/
  encryptValue : Str → Str → Str → Result (Str × Str)
  /-- The outcome of `checkIfMariaDB(db)`. -/
  checkIfMariaDB : Result Bool

/-- What `SetUserPassword` did: the arguments of its call of `password.Generate`, the
statements passed to `db.Exec`, the error returned and the resource data it leaves. -/
structure PasswordRun where
  generated : PolicyVars
  executed : List Str
  err : Option Error
  data : UserPasswordData

/-- The function `SetUserPassword`; `requiredVersion` is the parse of `"8.0.0"`. -/
def SetUserPassword (env : Env) (penv : PasswordEnv) (d : UserPasswordData) : PasswordRun :=
  let vars := passwordPolicyVars d.password_policy
  match penv.generate vars.passwordPolicyLength vars.passwordPolicyNumDigits
      vars.passwordPolicyNumSymbols false vars.passwordPolicyAllowRepeat with
  | .error err => ⟨vars, [], some err, d⟩
  | .ok password =>
    match penv.retrieveGPGKey d.pgp_key with
    | .error err => ⟨vars, [], some err, d⟩
    | .ok encryptionKey =>
      match penv.encryptValue encryptionKey password "MySQL Password".toList with
      | .error err => ⟨vars, [], some err, d⟩
      | .ok (fingerprint, encrypted) =>
        let d := { d with key_fingerprint := fingerprint, encrypted_password := encrypted }
        let requiredVersion : Version := { segments := [8, 0, 0], pre := [] }
        match env.serverVersion with
        | .error err => ⟨vars, [], some err, d⟩
        | .ok currentVersion =>
          match penv.checkIfMariaDB with
          | .error err => ⟨vars, [], some err, d⟩
          | .ok isMaria =>
            let passSQL := "'".toList ++ password ++ "'".toList
            let passSQL :=
              if currentVersion.LessThan env.comparePrereleases requiredVersion
                  || isMaria == true then
                "PASSWORD(".toList ++ passSQL ++ ")".toList
              else passSQL
            let sql := "SET PASSWORD FOR '".toList ++ d.user ++ "'@'".toList ++ d.host ++
              "' = ".toList ++ passSQL
            match env.exec sql with
            | some err => ⟨vars, [sql], some err, d⟩
            | none => ⟨vars, [sql], none, { d with id := d.user ++ "@".toList ++ d.host }⟩

/-! ## Occurrences of the keyword ON -/

/-- One step of the matcher for the text ` ON ` (space, O, N, space): the state is the length
of the longest beginning of that text which ends the input read so far, and 4 once the text
has occurred. -/
def onStep (q : Nat) (c : Char) : Nat :=
  match q with
  | 0 => if c = ' ' then 1 else 0
  | 1 => if c = 'O' then 2 else if c = ' ' then 1 else 0
  | 2 => if c = 'N' then 3 else if c = ' ' then 1 else 0
  | 3 => if c = ' ' then 4 else 0
  | _ => 4

/-- The state of the matcher for ` ON ` after reading `s` from the state `q`. -/
def onRun (q : Nat) (s : Str) : Nat := s.foldl onStep q

/-! ## Changes of a user -/

/-- Whether a change from the prior data of a `mysql_user` to the new data touches an
attribute that its schema marks `ForceNew`: `secret_name`, `username_key`, `host` and
`tls_option` are, `password_key` is not. -/
def userForceNewChanged (prior d : UserData) : Bool :=
  prior.secret_name != d.secret_name || prior.username_key != d.username_key ||
    prior.host != d.host || prior.tls_option != d.tls_option

/-- The way the plugin framework (terraform-plugin-sdk with Terraform, outside this
repository) applies a change of a `mysql_user`: a change of a `ForceNew` attribute replaces
the resource, `DeleteUser` on the prior data and then `CreateUser` on the new data; any other
change calls `UpdateUser`, in which `d.HasChange(k)` tells whether the prior and the new value
of `k` differ. The statements executed, in order. -/
def applyUserChange (env : Env) (prior d : UserData) : List Str :=
  if userForceNewChanged prior d then
    match (DeleteUser env prior).err with
    | some _ => (DeleteUser env prior).executed
    | none => (DeleteUser env prior).executed ++ (CreateUser env d).executed
  else
    (UpdateUser env d (prior.password_key != d.password_key)
      (prior.tls_option != d.tls_option)).executed

/-- The number of positions of `s` at which the text `pat` starts. -/
def occurrences (pat : Str) : Str → Nat
  | [] => 0
  | c :: s => (if pat.isPrefixOf (c :: s) then 1 else 0) + occurrences pat s

/-! ## Sample inputs -/

/-- A server of version 5.7.30 whose secret store holds no user name, and which accepts
every statement and lists no grants. -/
def legacyEnv : Env where
  serverVersion := .ok { segments := [5, 7, 30], pre := [] }
  comparePrereleases := fun _ _ => 0
  getValueFromSecret := fun _ _ _ => .ok []
  AWSRegion := "eu-west-1".toList
  exec := fun _ => none
  query := fun _ => .ok []

/-- A server of version 5.7.30 whose secret store answers every key with the user `app`. -/
def legacyUserEnv : Env where
  serverVersion := .ok { segments := [5, 7, 30], pre := [] }
  comparePrereleases := fun _ _ => 0
  getValueFromSecret := fun _ _ _ => .ok "app".toList
  AWSRegion := "eu-west-1".toList
  exec := fun _ => none
  query := fun _ => .ok []

/-- A grant of SELECT on `db`.* to the role `reader`. -/
def roleGrant : GrantData where
  id := []
  secret_name := "db-secret".toList
  username_key := []
  role := "reader".toList
  host := "localhost".toList
  database := "db".toList
  table := "*".toList
  privileges := ["SELECT".toList]
  roles := []
  grant := false
  procedure := false
  tls_option := "NONE".toList

/-- A grant of SELECT and INSERT on `db`.`tbl` to a user at localhost, with grant option. -/
def userGrant : GrantData where
  id := []
  secret_name := "db-secret".toList
  username_key := "username".toList
  role := []
  host := "localhost".toList
  database := "db".toList
  table := "tbl".toList
  privileges := ["SELECT".toList, "INSERT".toList]
  roles := []
  grant := true
  procedure := false
  tls_option := "NONE".toList

/-- The server of `legacyUserEnv` listing two grant lines for the scope `db`.*. -/
def splitScopeEnv : Env where
  serverVersion := .ok { segments := [5, 7, 30], pre := [] }
  comparePrereleases := fun _ _ => 0
  getValueFromSecret := fun _ _ _ => .ok "app".toList
  AWSRegion := "eu-west-1".toList
  exec := fun _ => none
  query := fun _ => .ok [
    "GRANT SELECT ON `db`.* TO 'app'@'localhost'".toList,
    "GRANT INSERT ON `db`.* TO 'app'@'localhost'".toList]

/-- A grant of SELECT and INSERT on `db`.* to a user at localhost. -/
def scopeGrant : GrantData where
  id := []
  secret_name := "db-secret".toList
  username_key := "username".toList
  role := []
  host := "localhost".toList
  database := "db".toList
  table := "*".toList
  privileges := ["SELECT".toList, "INSERT".toList]
  roles := []
  grant := false
  procedure := false
  tls_option := "NONE".toList

/-- A server that rejects every statement with the message `denied`. -/
def denyingEnv : Env where
  serverVersion := .ok { segments := [5, 7, 30], pre := [] }
  comparePrereleases := fun _ _ => 0
  getValueFromSecret := fun _ _ _ => .ok "app".toList
  AWSRegion := "eu-west-1".toList
  exec := fun _ => some "denied".toList
  query := fun _ => .ok []

/-- A user `app` at localhost, with the TLS option SSL. -/
def sslUser : UserData where
  id := []
  secret_name := "db-secret".toList
  username_key := "username".toList
  host := "localhost".toList
  password_key := "password".toList
  tls_option := "SSL".toList

/-- A `mysql_user_password` configuration without a `password_policy` block. -/
def basicUserPassword : UserPasswordData where
  id := []
  user := "jdoe".toList
  host := "localhost".toList
  pgp_key := "keybase:joestump".toList
  key_fingerprint := []
  encrypted_password := []
  password_policy := []

/-- Collaborators of `SetUserPassword` that generate a password of the requested length and
leave it unencrypted. -/
def plainPasswordEnv : PasswordEnv where
  generate := fun length _ _ _ _ => .ok (List.replicate length.toNat 'x')
  retrieveGPGKey := fun key => .ok key
  encryptValue := fun _ value _ => .ok ("fingerprint".toList, value)
  checkIfMariaDB := .ok false

/-- The resource data handed to `ImportUser` for the identity
`secret@userKey@extra@pwKey@localhost`. -/
def fiveFieldImport : UserData where
  id := "secret@userKey@extra@pwKey@localhost".toList
  secret_name := []
  username_key := []
  host := []
  password_key := []
  tls_option := []

/-- A server of version 5.7.30 whose secret holds the user `app` under every key but the
empty one, for which the lookup fails as `getValueFromSecret` does for a missing key. -/
def keyedSecretEnv : Env where
  serverVersion := .ok { segments := [5, 7, 30], pre := [] }
  comparePrereleases := fun _ _ => 0
  getValueFromSecret := fun _ _ key =>
    if key = [] then .error "Key \"\" not found in the secret \"db-secret\"".toList
    else .ok "app".toList
  AWSRegion := "eu-west-1".toList
  exec := fun _ => none
  query := fun _ => .ok []

/-- A grant to the role `reader` that names neither privileges nor roles. -/
def bareRoleGrant : GrantData where
  id := []
  secret_name := "db-secret".toList
  username_key := []
  role := "reader".toList
  host := "localhost".toList
  database := "db".toList
  table := "*".toList
  privileges := []
  roles := []
  grant := false
  procedure := false
  tls_option := "NONE".toList

/-- A grant of the role `writer` to the role `reader`. -/
def rolesOnlyGrant : GrantData where
  id := []
  secret_name := "db-secret".toList
  username_key := []
  role := "reader".toList
  host := "localhost".toList
  database := "db".toList
  table := "*".toList
  privileges := []
  roles := ["writer".toList]
  grant := false
  procedure := false
  tls_option := "NONE".toList

/-- A server of version 5.6.40 whose secret store answers every key with `app`. -/
def mysql56Env : Env where
  serverVersion := .ok { segments := [5, 6, 40], pre := [] }
  comparePrereleases := fun _ _ => 0
  getValueFromSecret := fun _ _ _ => .ok "app".toList
  AWSRegion := "eu-west-1".toList
  exec := fun _ => none
  query := fun _ => .ok []

/-- The user `app` at localhost as created, with the TLS option NONE. -/
def plainUser : UserData where
  id := "db-secret@username@password@localhost".toList
  secret_name := "db-secret".toList
  username_key := "username".toList
  host := "localhost".toList
  password_key := "password".toList
  tls_option := "NONE".toList

/-! ## Facts about the diff -/

theorem mem_setDifference (s other : List Str) (x : Str) :
    x ∈ setDifference s other ↔ x ∈ s ∧ x ∉ other := by
  simp [setDifference]

theorem setDifference_self_of_subset (s other : List Str) (h : ∀ x, x ∈ s → x ∈ other) :
    setDifference s other = [] := by
  simp only [setDifference, List.filter_eq_nil_iff]
  intro a ha
  simpa using h a ha

theorem updateGrantSQL_ne_updateRevokeSQL (g r : List Str) (user database table : Str) :
    updateGrantSQL g user database table ≠ updateRevokeSQL r user database table := by
  intro h
  have h0 := congrArg List.head? h
  simp [updateGrantSQL, updateRevokeSQL] at h0

/-! ## Facts about the regular expressions -/

theorem literal_eq_some (l s r : Str) : literal l s = some r ↔ s = l ++ r := by
  induction l generalizing s with
  | nil => simp [literal, eq_comm]
  | cons a l ih =>
    cases s with
    | nil => simp [literal]
    | cons c s =>
      by_cases h : a = c
      · simp [literal, h, ih]
      · simp [literal, h]
        intro hc
        exact absurd hc.symm h

theorem literal_append (l r : Str) : literal l (l ++ r) = some r :=
  (literal_eq_some l (l ++ r) r).2 rfl

theorem greedyPlus_sound {α : Type} (k : Str → Option α) (s g : Str) (r : α)
    (h : greedyPlus k s = some (g, r)) :
    ∃ rest, s = g ++ rest ∧ DotPlus g ∧ k rest = some r := by
  induction s generalizing g r with
  | nil => simp [greedyPlus] at h
  | cons c cs ih =>
    unfold greedyPlus at h
    split at h
    · exact absurd h (by simp)
    · rename_i hc
      split at h
      · rename_i g1 r1 hg
        obtain ⟨rest, h1, h2, h3⟩ := ih g1 r1 hg
        simp only [Option.some.injEq, Prod.mk.injEq] at h
        obtain ⟨rfl, rfl⟩ := h
        refine ⟨rest, by simp [h1], ⟨by simp, ?_⟩, h3⟩
        simp only [List.mem_cons, not_or]
        exact ⟨fun e => hc e.symm, h2.2⟩
      · split at h
        · rename_i r1 hk
          simp only [Option.some.injEq, Prod.mk.injEq] at h
          obtain ⟨rfl, rfl⟩ := h
          refine ⟨cs, by simp, ⟨by simp, ?_⟩, hk⟩
          simp only [List.mem_singleton]
          exact fun e => hc e.symm
        · exact absurd h (by simp)

theorem lazyPlus_sound {α : Type} (k : Str → Option α) (s g : Str) (r : α)
    (h : lazyPlus k s = some (g, r)) :
    ∃ rest, s = g ++ rest ∧ DotPlus g ∧ k rest = some r := by
  induction s generalizing g r with
  | nil => simp [lazyPlus] at h
  | cons c cs ih =>
    unfold lazyPlus at h
    split at h
    · exact absurd h (by simp)
    · rename_i hc
      split at h
      · rename_i r1 hk
        simp only [Option.some.injEq, Prod.mk.injEq] at h
        obtain ⟨rfl, rfl⟩ := h
        refine ⟨cs, by simp, ⟨by simp, ?_⟩, hk⟩
        simp only [List.mem_singleton]
        exact fun e => hc e.symm
      · split at h
        · rename_i g1 r1 hg
          obtain ⟨rest, h1, h2, h3⟩ := ih g1 r1 hg
          simp only [Option.some.injEq, Prod.mk.injEq] at h
          obtain ⟨rfl, rfl⟩ := h
          refine ⟨rest, by simp [h1], ⟨by simp, ?_⟩, h3⟩
          simp only [List.mem_cons, not_or]
          exact ⟨fun e => hc e.symm, h2.2⟩
        · exact absurd h (by simp)

theorem greedyPlus_complete {α : Type} (k : Str → Option α) (g rest : Str)
    (hg : DotPlus g) (hk : (k rest).isSome) : (greedyPlus k (g ++ rest)).isSome := by
  induction g with
  | nil => exact absurd rfl hg.1
  | cons c g ih =>
    have hc : ¬ c = '\n' := fun e => hg.2 (by simp [e])
    simp only [List.cons_append]
    unfold greedyPlus
    rw [if_neg hc]
    by_cases hnil : g = []
    · subst hnil
      cases h1 : greedyPlus k ([] ++ rest) with
      | some x => simp
      | none =>
        simp only [List.nil_append] at h1 ⊢
        cases h2 : k rest with
        | some y => simp [h1]
        | none => simp [h2] at hk
    · have := ih ⟨hnil, fun hm => hg.2 (List.mem_cons_of_mem _ hm)⟩
      cases h1 : greedyPlus k (g ++ rest) with
      | some x => simp
      | none => simp [h1] at this

theorem lazyPlus_complete {α : Type} (k : Str → Option α) (g rest : Str)
    (hg : DotPlus g) (hk : (k rest).isSome) : (lazyPlus k (g ++ rest)).isSome := by
  induction g with
  | nil => exact absurd rfl hg.1
  | cons c g ih =>
    have hc : ¬ c = '\n' := fun e => hg.2 (by simp [e])
    simp only [List.cons_append]
    unfold lazyPlus
    rw [if_neg hc]
    cases h2 : k (g ++ rest) with
    | some y => simp
    | none =>
      by_cases hnil : g = []
      · subst hnil
        simp only [List.nil_append] at h2
        simp [h2] at hk
      · have := ih ⟨hnil, fun hm => hg.2 (List.mem_cons_of_mem _ hm)⟩
        cases h1 : lazyPlus k (g ++ rest) with
        | some x => simp
        | none => simp [h1] at this

theorem reTable_sound (s m3 : Str) (h : reTable s = some m3) :
    ∃ rest, s = m3 ++ " TO".toList ++ rest ∧ DotPlus m3 := by
  unfold reTable at h
  cases hl : lazyPlus (literal " TO".toList) s with
  | none =>
    rw [hl] at h
    exact absurd h (by simp)
  | some x =>
    obtain ⟨g, r⟩ := x
    rw [hl] at h
    simp only [Option.map_some', Option.some.injEq] at h
    subst h
    obtain ⟨rest, h1, h2, h3⟩ := lazyPlus_sound _ _ _ _ hl
    rw [literal_eq_some] at h3
    exact ⟨r, by rw [h1, h3, List.append_assoc], h2⟩

theorem reTable_complete (m3 rest : Str) (h : DotPlus m3) :
    (reTable (m3 ++ " TO".toList ++ rest)).isSome := by
  unfold reTable
  rw [List.append_assoc, Option.isSome_map']
  exact lazyPlus_complete _ _ _ h (by rw [literal_append]; rfl)

theorem reDatabase_sound (s m2 m3 : Str) (h : reDatabase s = some (m2, m3)) :
    ∃ rest, s = m2 ++ ".".toList ++ m3 ++ " TO".toList ++ rest ∧ DotPlus m2 ∧ DotPlus m3 := by
  obtain ⟨r1, h1, h2, h3⟩ := lazyPlus_sound _ _ _ _ h
  cases hl : literal ".".toList r1 with
  | none =>
    rw [hl] at h3
    exact absurd h3 (by simp)
  | some r2 =>
    rw [hl] at h3
    simp only [Option.some_bind] at h3
    obtain ⟨rest, h4, h5⟩ := reTable_sound _ _ h3
    rw [literal_eq_some] at hl
    exact ⟨rest, by rw [h1, hl, h4]; simp only [List.append_assoc], h2, h5⟩

theorem reDatabase_complete (m2 m3 rest : Str) (h2 : DotPlus m2) (h3 : DotPlus m3) :
    (reDatabase (m2 ++ ".".toList ++ m3 ++ " TO".toList ++ rest)).isSome := by
  unfold reDatabase
  have e : m2 ++ ".".toList ++ m3 ++ " TO".toList ++ rest =
      m2 ++ (".".toList ++ (m3 ++ " TO".toList ++ rest)) := by
    simp only [List.append_assoc]
  rw [e]
  refine lazyPlus_complete _ _ _ h2 ?_
  rw [literal_append, Option.some_bind]
  exact reTable_complete _ _ h3

theorem rePrivileges_sound (s m1 m2 m3 : Str) (h : rePrivileges s = some (m1, m2, m3)) :
    ∃ rest, s = m1 ++ " ON ".toList ++ m2 ++ ".".toList ++ m3 ++ " TO".toList ++ rest ∧
      DotPlus m1 ∧ DotPlus m2 ∧ DotPlus m3 := by
  obtain ⟨r1, h1, h2, h3⟩ := greedyPlus_sound _ _ _ _ h
  cases hl : literal " ON ".toList r1 with
  | none =>
    rw [hl] at h3
    exact absurd h3 (by simp)
  | some r2 =>
    rw [hl] at h3
    simp only [Option.some_bind] at h3
    obtain ⟨rest, h4, h5, h6⟩ := reDatabase_sound _ _ _ h3
    rw [literal_eq_some] at hl
    exact ⟨rest, by rw [h1, hl, h4]; simp only [List.append_assoc], h2, h5, h6⟩

theorem rePrivileges_complete (m1 m2 m3 rest : Str) (h1 : DotPlus m1) (h2 : DotPlus m2)
    (h3 : DotPlus m3) :
    (rePrivileges (m1 ++ " ON ".toList ++ m2 ++ ".".toList ++ m3 ++ " TO".toList ++
      rest)).isSome := by
  unfold rePrivileges
  have e : m1 ++ " ON ".toList ++ m2 ++ ".".toList ++ m3 ++ " TO".toList ++ rest =
      m1 ++ (" ON ".toList ++ (m2 ++ ".".toList ++ m3 ++ " TO".toList ++ rest)) := by
    simp only [List.append_assoc]
  rw [e]
  refine greedyPlus_complete _ _ _ h1 ?_
  rw [literal_append, Option.some_bind]
  exact reDatabase_complete _ _ _ h2 h3

/-- The result of `FindStringSubmatch` is empty or has the four entries of a match, and a
match decomposes the line along the grammar. -/
theorem reFindStringSubmatch_cases (line : Str) :
    reFindStringSubmatch line = [] ∨
    ∃ m1 m2 m3 rest : Str,
      reFindStringSubmatch line =
        ["GRANT ".toList ++ m1 ++ " ON ".toList ++ m2 ++ ".".toList ++ m3 ++ " TO".toList,
          m1, m2, m3] ∧
      line = "GRANT ".toList ++ m1 ++ " ON ".toList ++ m2 ++ ".".toList ++ m3 ++
        " TO".toList ++ rest ∧ DotPlus m1 ∧ DotPlus m2 ∧ DotPlus m3 := by
  unfold reFindStringSubmatch
  cases hl : literal "GRANT ".toList line with
  | none => exact Or.inl rfl
  | some r =>
    dsimp only
    cases hp : rePrivileges r with
    | none => exact Or.inl rfl
    | some x =>
      obtain ⟨m1, m2, m3⟩ := x
      obtain ⟨rest, h1, h2⟩ := rePrivileges_sound _ _ _ _ hp
      rw [literal_eq_some] at hl
      exact Or.inr ⟨m1, m2, m3, rest, rfl, by rw [hl, h1]; simp only [List.append_assoc], h2⟩

/-- The line matches `re` exactly when it follows the grammar. -/
theorem reFindStringSubmatch_length (line : Str) :
    (reFindStringSubmatch line).length = 4 ↔ MatchesGrantGrammar line := by
  constructor
  · intro h
    rcases reFindStringSubmatch_cases line with h0 | ⟨m1, m2, m3, rest, _, h2, h3⟩
    · rw [h0] at h
      exact absurd h (by decide)
    · exact ⟨m1, m2, m3, rest, h2, h3⟩
  · rintro ⟨m1, m2, m3, rest, h1, h2, h3, h4⟩
    have hc := rePrivileges_complete m1 m2 m3 rest h2 h3 h4
    have e : line = "GRANT ".toList ++
        (m1 ++ " ON ".toList ++ m2 ++ ".".toList ++ m3 ++ " TO".toList ++ rest) := by
      rw [h1]
      simp only [List.append_assoc]
    unfold reFindStringSubmatch
    rw [e, literal_append]
    dsimp only
    cases hp : rePrivileges
        (m1 ++ " ON ".toList ++ m2 ++ ".".toList ++ m3 ++ " TO".toList ++ rest) with
    | none =>
      rw [hp] at hc
      exact absurd hc (by simp)
    | some x => rfl

/-! ## Facts about showGrants -/

theorem parseGrantLine_of_match (line whole m1 m2 m3 : Str)
    (h : reFindStringSubmatch line = [whole, m1, m2, m3]) :
    parseGrantLine line = .ok {
      Database := removeAll m2 backtick
      Table := stringsTrim m3 backtick
      Privileges := (stringsSplit ',' m1).map trimSpace
      Grant := reGrantMatchString line } := by
  unfold parseGrantLine
  rw [h]

theorem parseGrantLine_of_no_match (line : Str) (h : ¬ MatchesGrantGrammar line) :
    parseGrantLine line = .error ("failed to parse grant statement: ".toList ++ line) := by
  rcases reFindStringSubmatch_cases line with h0 | ⟨m1, m2, m3, rest, _, h2, h3⟩
  · unfold parseGrantLine
    rw [h0]
  · exact absurd ⟨m1, m2, m3, rest, h2, h3⟩ h

theorem parseGrantLine_ok_iff (line : Str) :
    (∃ g, parseGrantLine line = .ok g) ↔ MatchesGrantGrammar line := by
  constructor
  · rintro ⟨g, hg⟩
    by_contra hn
    rw [parseGrantLine_of_no_match line hn] at hg
    exact Result.noConfusion hg
  · intro h
    rcases reFindStringSubmatch_cases line with h0 | ⟨m1, m2, m3, rest, h1, _, _⟩
    · have := (reFindStringSubmatch_length line).2 h
      rw [h0] at this
      exact absurd this (by decide)
    · exact ⟨_, parseGrantLine_of_match _ _ _ _ _ h1⟩

theorem showGrantsLoop_ok (rows : List Str) (acc gs : List MySQLGrant)
    (h : List.Forall₂ (fun l g => parseGrantLine l = .ok g) rows gs) :
    showGrantsLoop rows acc = .ok (acc ++ gs) := by
  induction h generalizing acc with
  | nil => simp [showGrantsLoop]
  | cons hl _ ih =>
    unfold showGrantsLoop
    rw [hl]
    dsimp only
    rw [ih]
    simp

theorem showGrantsLoop_error (pre : List Str) (bad : Str) (post : List Str)
    (acc : List MySQLGrant) (e : Error)
    (hpre : ∀ l ∈ pre, ∃ g, parseGrantLine l = .ok g) (hbad : parseGrantLine bad = .error e) :
    showGrantsLoop (pre ++ bad :: post) acc = .error e := by
  induction pre generalizing acc with
  | nil =>
    simp only [List.nil_append]
    unfold showGrantsLoop
    rw [hbad]
  | cons l pre ih =>
    obtain ⟨g, hg⟩ := hpre l (by simp)
    simp only [List.cons_append]
    unfold showGrantsLoop
    rw [hg]
    exact ih _ (fun x hx => hpre x (List.mem_cons_of_mem _ hx))

/-- A listing with a line outside the grammar splits at the first such line. -/
theorem exists_first_malformed (rows : List Str) (h : ∃ l ∈ rows, ¬ MatchesGrantGrammar l) :
    ∃ pre bad post, rows = pre ++ bad :: post ∧ (∀ l ∈ pre, MatchesGrantGrammar l) ∧
      ¬ MatchesGrantGrammar bad := by
  induction rows with
  | nil =>
    obtain ⟨l, hl, _⟩ := h
    exact absurd hl (by simp)
  | cons r rows ih =>
    by_cases hr : MatchesGrantGrammar r
    · obtain ⟨l, hl, hn⟩ := h
      have hl2 : l ∈ rows := by
        rcases List.mem_cons.1 hl with e | e
        · exact absurd (e ▸ hr) hn
        · exact e
      obtain ⟨pre, bad, post, e, h1, h2⟩ := ih ⟨l, hl2, hn⟩
      refine ⟨r :: pre, bad, post, by rw [e]; rfl, ?_, h2⟩
      intro x hx
      rcases List.mem_cons.1 hx with e | e
      · exact e ▸ hr
      · exact h1 x e
    · exact ⟨[], r, rows, rfl, by simp, hr⟩

theorem not_matches_of_no_on (line : Str) (h : ¬ (" ON ".toList <:+: line)) :
    ¬ MatchesGrantGrammar line := by
  rintro ⟨m1, m2, m3, rest, e, _⟩
  apply h
  refine ⟨"GRANT ".toList ++ m1, m2 ++ ".".toList ++ m3 ++ " TO".toList ++ rest, ?_⟩
  rw [e]
  simp only [List.append_assoc]

theorem getLast?_cons_of_ne_nil (c : Char) (pre : Str) (hp : pre ≠ []) :
    (c :: pre).getLast? = pre.getLast? := by
  cases pre with
  | nil => exact absurd rfl hp
  | cons b l => simp [List.getLast?_cons_cons]

theorem reGrantAt_iff (prev : Option Char) (s : Str) :
    reGrantAt prev s = true ↔
      isWordAt prev = false ∧ ∃ post, s = "GRANT OPTION".toList ++ post ∧
        isWordAt post.head? = false := by
  unfold reGrantAt
  cases hl : literal "GRANT OPTION".toList s with
  | none =>
    simp only [Bool.and_false, Bool.false_eq_true, false_iff, not_and, not_exists]
    intro _ post hp
    rw [hp, literal_append] at hl
    exact absurd hl (by simp)
  | some rest =>
    rw [literal_eq_some] at hl
    subst hl
    have hG : isWordAt (List.head? ("GRANT OPTION".toList ++ rest)) = true := by
      show isWordAt (some 'G') = true
      decide
    have hN : isWordAt (some 'N') = true := by decide
    simp only [wordBoundary, hG, hN, Bool.and_eq_true, bne_iff_ne, ne_eq,
      Bool.not_eq_true]
    constructor
    · rintro ⟨h1, h2⟩
      refine ⟨h1, rest, rfl, ?_⟩
      cases hh : isWordAt rest.head? with
      | false => rfl
      | true => exact absurd hh.symm h2
    · rintro ⟨h1, post, h2, h3⟩
      have : rest = post := List.append_cancel_left h2
      subst this
      refine ⟨h1, ?_⟩
      rw [h3]
      decide

theorem reGrantFrom_iff (prev : Option Char) (s : Str) :
    reGrantFrom prev s = true ↔
      ∃ pre post, s = pre ++ "GRANT OPTION".toList ++ post ∧
        isWordAt (if pre = [] then prev else pre.getLast?) = false ∧
        isWordAt post.head? = false := by
  induction s generalizing prev with
  | nil =>
    unfold reGrantFrom
    rw [reGrantAt_iff]
    constructor
    · rintro ⟨_, post, h, _⟩
      exact absurd h (by simp)
    · rintro ⟨pre, post, h, _⟩
      have := congrArg List.length h
      simp at this
      omega
  | cons c cs ih =>
    unfold reGrantFrom
    rw [Bool.or_eq_true, reGrantAt_iff, ih]
    constructor
    · rintro (⟨h1, post, h2, h3⟩ | ⟨pre, post, h1, h2, h3⟩)
      · exact ⟨[], post, by rw [h2]; rfl, by simpa using h1, h3⟩
      · refine ⟨c :: pre, post, by rw [h1]; rfl, ?_, h3⟩
        by_cases hp : pre = []
        · subst hp
          simpa using h2
        · rw [if_neg hp] at h2
          rw [if_neg (by simp), getLast?_cons_of_ne_nil c pre hp]
          exact h2
    · rintro ⟨pre, post, h1, h2, h3⟩
      cases pre with
      | nil => exact Or.inl ⟨by simpa using h2, post, by simpa using h1, h3⟩
      | cons c2 pre =>
        simp only [List.cons_append, List.cons.injEq] at h1
        obtain ⟨rfl, h1⟩ := h1
        refine Or.inr ⟨pre, post, h1, ?_, h3⟩
        by_cases hp : pre = []
        · subst hp
          simpa using h2
        · rw [if_neg hp]
          rw [if_neg (by simp), getLast?_cons_of_ne_nil c pre hp] at h2
          exact h2

/-- The expression `reGrant` matches exactly the lines that contain GRANT OPTION as a
standalone token sequence. -/
theorem reGrantMatchString_iff (line : Str) :
    reGrantMatchString line = true ↔ ContainsStandaloneGrantOption line := by
  unfold reGrantMatchString ContainsStandaloneGrantOption
  rw [reGrantFrom_iff]
  constructor
  · rintro ⟨pre, post, h1, h2, h3⟩
    refine ⟨pre, post, h1, ?_, h3⟩
    by_cases hp : pre = []
    · subst hp
      rfl
    · rwa [if_neg hp] at h2
  · rintro ⟨pre, post, h1, h2, h3⟩
    refine ⟨pre, post, h1, ?_, h3⟩
    by_cases hp : pre = []
    · subst hp
      rfl
    · rwa [if_neg hp]

theorem showGrantsLoop_ok_inv (rows : List Str) (acc gs : List MySQLGrant)
    (h : showGrantsLoop rows acc = .ok gs) :
    ∃ gs2, gs = acc ++ gs2 ∧ List.Forall₂ (fun l g => parseGrantLine l = .ok g) rows gs2 := by
  induction rows generalizing acc with
  | nil =>
    simp only [showGrantsLoop, Result.ok.injEq] at h
    exact ⟨[], by simp [h], List.Forall₂.nil⟩
  | cons l rows ih =>
    unfold showGrantsLoop at h
    cases hp : parseGrantLine l with
    | error e =>
      rw [hp] at h
      exact Result.noConfusion h
    | ok g =>
      rw [hp] at h
      obtain ⟨gs2, h1, h2⟩ := ih _ h
      exact ⟨g :: gs2, by rw [h1]; simp, List.Forall₂.cons hp h2⟩

theorem showGrants_ok_iff (rows : List Str) (grants : List MySQLGrant) :
    showGrants (.ok rows) = .ok grants ↔
      List.Forall₂ (fun l g => parseGrantLine l = .ok g) rows grants := by
  constructor
  · intro h
    obtain ⟨gs2, h1, h2⟩ := showGrantsLoop_ok_inv rows [] grants h
    rw [List.nil_append] at h1
    exact h1 ▸ h2
  · intro h
    have := showGrantsLoop_ok rows [] grants h
    rwa [List.nil_append] at this

/-! ## Facts about versions -/

theorem allZero_iff (l : List Nat) : allZero l = true ↔ ∀ x ∈ l, x = 0 := by
  simp [allZero]

theorem compareSegments_nil_right (l : List Nat) :
    0 < compareSegments l [] ↔ ∃ x ∈ l, 0 < x := by
  cases l with
  | nil => simp [compareSegments]
  | cons a l =>
    unfold compareSegments
    by_cases h : allZero (a :: l) = true
    · rw [if_pos h]
      rw [allZero_iff] at h
      simp only [lt_self_iff_false, false_iff, not_exists, not_and]
      intro x hx
      rw [h x hx]
      exact lt_irrefl 0
    · rw [if_neg h]
      rw [allZero_iff] at h
      push_neg at h
      obtain ⟨x, hx, hne⟩ := h
      simp only [zero_lt_one, true_iff]
      exact ⟨x, hx, Nat.pos_of_ne_zero hne⟩

theorem compareSegments_cons_zero (a : Nat) (l o : List Nat) :
    0 < compareSegments (a :: l) (0 :: o) ↔ 0 < a ∨ (a = 0 ∧ 0 < compareSegments l o) := by
  rw [compareSegments]
  by_cases h : a = 0
  · simp [h]
  · have : ¬ a < 0 := Nat.not_lt_zero a
    simp [h, this]
    omega

/-- The segment loop against 8.0.0: greater exactly when the major number exceeds 8, or is 8
and a later segment is positive. -/
theorem compareSegments_800 (major : Nat) (rest : List Nat) :
    0 < compareSegments (major :: rest) [8, 0, 0] ↔
      8 < major ∨ (major = 8 ∧ ∃ x ∈ rest, 0 < x) := by
  rw [compareSegments]
  by_cases h : major = 8
  · subst h
    simp only [if_true, lt_self_iff_false, false_or, true_and]
    cases rest with
    | nil => simp [compareSegments, allZero]
    | cons b r =>
      rw [compareSegments_cons_zero]
      cases r with
      | nil =>
        simp [compareSegments, allZero]
      | cons c r2 =>
        rw [compareSegments_cons_zero, compareSegments_nil_right]
        simp only [List.mem_cons, exists_eq_or_imp]
        constructor
        · rintro (h | ⟨rfl, h | ⟨rfl, h⟩⟩)
          · exact Or.inl h
          · exact Or.inr (Or.inl h)
          · exact Or.inr (Or.inr h)
        · rintro (h | h | h)
          · exact Or.inl h
          · by_cases hb : b = 0
            · exact Or.inr ⟨hb, Or.inl h⟩
            · exact Or.inl (Nat.pos_of_ne_zero hb)
          · by_cases hb : b = 0
            · by_cases hc : c = 0
              · exact Or.inr ⟨hb, Or.inr ⟨hc, h⟩⟩
              · exact Or.inr ⟨hb, Or.inl (Nat.pos_of_ne_zero hc)⟩
            · exact Or.inl (Nat.pos_of_ne_zero hb)
  · rw [if_neg h]
    by_cases h2 : major < 8
    · simp [h2]
      omega
    · simp [h2, h]
      omega

theorem greaterThan_800 (cmp : Str → Str → Int) (v : Version) :
    v.GreaterThan cmp { segments := [8, 0, 0], pre := [] } = true ↔
      ∃ major rest, v.segments = major :: rest ∧
        (8 < major ∨ (major = 8 ∧ ∃ x ∈ rest, 0 < x)) := by
  unfold Version.GreaterThan Version.Compare
  rw [decide_eq_true_iff]
  by_cases hs : v.segments = [8, 0, 0]
  · simp only [hs, if_true, and_true, gt_iff_lt]
    by_cases hp : v.pre = []
    · simp [hp]
    · simp [hp]
  · simp only [hs, if_false, gt_iff_lt]
    cases hv : v.segments with
    | nil => simp [compareSegments, allZero]
    | cons major rest =>
      rw [compareSegments_800]
      constructor
      · intro h
        exact ⟨major, rest, rfl, h⟩
      · rintro ⟨m, r, e, h⟩
        simp only [List.cons.injEq] at e
        obtain ⟨rfl, rfl⟩ := e
        exact h

/-- C1: the diff computed by `updatePrivileges` is `toGrant = new − old` and
`toRevoke = old − new` as plain set differences, the two are disjoint, and both are empty
when the new set has the same members as the old one. -/
theorem updatePrivileges_diff (oldPrivs newPrivs : List Str) :
    (∀ p, p ∈ grantIfs oldPrivs newPrivs ↔ p ∈ newPrivs ∧ p ∉ oldPrivs) ∧
    (∀ p, p ∈ revokeIfs oldPrivs newPrivs ↔ p ∈ oldPrivs ∧ p ∉ newPrivs) ∧
    (grantIfs oldPrivs newPrivs).toFinset = newPrivs.toFinset \ oldPrivs.toFinset ∧
    (revokeIfs oldPrivs newPrivs).toFinset = oldPrivs.toFinset \ newPrivs.toFinset ∧
    List.Disjoint (grantIfs oldPrivs newPrivs) (revokeIfs oldPrivs newPrivs) ∧
    ((∀ p, p ∈ newPrivs ↔ p ∈ oldPrivs) →
      grantIfs oldPrivs newPrivs = [] ∧ revokeIfs oldPrivs newPrivs = []) ∧
    (grantIfs oldPrivs oldPrivs = [] ∧ revokeIfs oldPrivs oldPrivs = []) := by
  refine ⟨fun p => mem_setDifference _ _ p, fun p => mem_setDifference _ _ p, ?_, ?_, ?_, ?_, ?_⟩
  · ext p
    simp [grantIfs, mem_setDifference]
  · ext p
    simp [revokeIfs, mem_setDifference]
  · intro p hg hr
    rw [grantIfs, mem_setDifference] at hg
    rw [revokeIfs, mem_setDifference] at hr
    exact hg.2 hr.1
  · intro h
    exact ⟨setDifference_self_of_subset _ _ (fun x hx => (h x).1 hx),
      setDifference_self_of_subset _ _ (fun x hx => (h x).2 hx)⟩
  · exact ⟨setDifference_self_of_subset _ _ (fun _ hx => hx),
      setDifference_self_of_subset _ _ (fun _ hx => hx)⟩

/-- The runs of `updatePrivileges`, case by case, in terms of the two statements it renders. -/
theorem updatePrivileges_cases (exec : ExecOracle) (oldPrivs newPrivs : List Str)
    (user database table : Str) :
    let toGrant := grantIfs oldPrivs newPrivs
    let toRevoke := revokeIfs oldPrivs newPrivs
    let grantSQL := updateGrantSQL toGrant user database table
    let revokeSQL := updateRevokeSQL toRevoke user database table
    let run := updatePrivileges exec oldPrivs newPrivs user database table
    (toGrant = [] ∧ toRevoke = [] → run = ⟨[], none⟩) ∧
    List.Sublist run.executed [grantSQL, revokeSQL] ∧
    (grantSQL ∈ run.executed ↔ toGrant ≠ []) ∧
    (revokeSQL ∈ run.executed ↔ toRevoke ≠ [] ∧ (toGrant = [] ∨ exec grantSQL = none)) ∧
    (∀ e, toGrant ≠ [] → exec grantSQL = some e → run = ⟨[grantSQL], some e⟩) ∧
    (toGrant ≠ [] → exec grantSQL = none → toRevoke ≠ [] →
      run = ⟨[grantSQL, revokeSQL], exec revokeSQL⟩) ∧
    (toGrant ≠ [] → exec grantSQL = none → toRevoke = [] → run = ⟨[grantSQL], none⟩) ∧
    (toGrant = [] → toRevoke ≠ [] → run = ⟨[revokeSQL], exec revokeSQL⟩) ∧
    (∀ s ∈ run.executed, ∃ privs : List Str, privs ≠ [] ∧
      (s = updateGrantSQL privs user database table ∨
        s = updateRevokeSQL privs user database table)) := by
  intro toGrant toRevoke grantSQL revokeSQL run
  have hne : grantSQL ≠ revokeSQL := updateGrantSQL_ne_updateRevokeSQL _ _ _ _ _
  have hne2 : revokeSQL ≠ grantSQL := fun h => hne h.symm
  have hrun : run = updatePrivileges exec oldPrivs newPrivs user database table := rfl
  unfold updatePrivileges at hrun
  simp only [List.length_pos] at hrun
  by_cases hg : toGrant = [] <;> by_cases hr : toRevoke = []
  all_goals
    rcases hG : exec grantSQL with _ | e <;> rcases hR : exec revokeSQL with _ | e2
  all_goals
    simp only [show grantIfs oldPrivs newPrivs = toGrant from rfl,
      show revokeIfs oldPrivs newPrivs = toRevoke from rfl,
      show updateGrantSQL toGrant user database table = grantSQL from rfl,
      show updateRevokeSQL toRevoke user database table = revokeSQL from rfl,
      hg, hr, hG, hR, ne_eq, not_true_eq_false, not_false_eq_true, if_true, if_false,
      List.nil_append, List.singleton_append] at hrun
  all_goals
    rw [hrun]
    simp [hg, hr, hne, hne2, hG, hR]
  all_goals
    first
      | exact ⟨toGrant, hg, Or.inl rfl⟩
      | exact ⟨toRevoke, hr, Or.inr rfl⟩
      | exact ⟨⟨toGrant, hg, Or.inl rfl⟩, ⟨toRevoke, hr, Or.inr rfl⟩⟩

/-- C2: `updatePrivileges` executes nothing when both differences are empty; otherwise it
executes `GRANT <toGrant joined by ","> ON <database>.<table> TO <user>` iff `toGrant` is
non-empty and `REVOKE <toRevoke joined by ","> ON <database>.<table> FROM <user>` iff
`toRevoke` is non-empty and the GRANT, if any, succeeded; GRANT comes before REVOKE, a failed
GRANT is returned without running the REVOKE, and every executed statement lists a non-empty
difference. From the privileges SELECT, UPDATE to SELECT, INSERT, DELETE the statements are
GRANT INSERT,DELETE and REVOKE UPDATE. -/
theorem updatePrivileges_statements (exec : ExecOracle) (oldPrivs newPrivs : List Str)
    (user database table : Str) :
    let toGrant := grantIfs oldPrivs newPrivs
    let toRevoke := revokeIfs oldPrivs newPrivs
    let grantSQL := "GRANT ".toList ++ stringsJoin ",".toList toGrant ++ " ON ".toList ++
      database ++ ".".toList ++ table ++ " TO ".toList ++ user
    let revokeSQL := "REVOKE ".toList ++ stringsJoin ",".toList toRevoke ++ " ON ".toList ++
      database ++ ".".toList ++ table ++ " FROM ".toList ++ user
    let run := updatePrivileges exec oldPrivs newPrivs user database table
    (toGrant = [] ∧ toRevoke = [] → run = ⟨[], none⟩) ∧
    List.Sublist run.executed [grantSQL, revokeSQL] ∧
    (grantSQL ∈ run.executed ↔ toGrant ≠ []) ∧
    (revokeSQL ∈ run.executed ↔ toRevoke ≠ [] ∧ (toGrant = [] ∨ exec grantSQL = none)) ∧
    (∀ e, toGrant ≠ [] → exec grantSQL = some e → run = ⟨[grantSQL], some e⟩) ∧
    (toGrant ≠ [] → exec grantSQL = none → toRevoke ≠ [] →
      run = ⟨[grantSQL, revokeSQL], exec revokeSQL⟩) ∧
    (toGrant ≠ [] → exec grantSQL = none → toRevoke = [] → run = ⟨[grantSQL], none⟩) ∧
    (toGrant = [] → toRevoke ≠ [] → run = ⟨[revokeSQL], exec revokeSQL⟩) ∧
    (∀ s ∈ run.executed, (toGrant ≠ [] ∧ s = grantSQL) ∨ (toRevoke ≠ [] ∧ s = revokeSQL)) ∧
    updatePrivileges (fun _ => none) ["SELECT".toList, "UPDATE".toList]
        ["SELECT".toList, "INSERT".toList, "DELETE".toList]
        "'u'@'h'".toList "db".toList "tbl".toList =
      ⟨["GRANT INSERT,DELETE ON db.tbl TO 'u'@'h'".toList,
        "REVOKE UPDATE ON db.tbl FROM 'u'@'h'".toList], none⟩ := by
  intro toGrant toRevoke grantSQL revokeSQL run
  obtain ⟨h1, h2, h3, h4, h5, h6, h7, h8, _⟩ :=
    updatePrivileges_cases exec oldPrivs newPrivs user database table
  refine ⟨h1, h2, h3, h4, h5, h6, h7, h8, ?_, by decide⟩
  intro s hs
  have hmem : s = grantSQL ∨ s = revokeSQL := by
    have := h2.subset hs
    simpa using this
  rcases hmem with e | e
  · subst e
    exact Or.inl ⟨h3.1 hs, rfl⟩
  · subst e
    exact Or.inr ⟨(h4.1 hs).1, rfl⟩

/-- The diff from SELECT, UPDATE to SELECT, INSERT, DELETE on a server that accepts both
statements. -/
theorem updatePrivileges_statements_witness :
    updatePrivileges (fun _ => none) ["SELECT".toList, "UPDATE".toList]
        ["SELECT".toList, "INSERT".toList, "DELETE".toList]
        "'u'@'h'".toList "db".toList "tbl".toList =
      ⟨["GRANT INSERT,DELETE ON db.tbl TO 'u'@'h'".toList,
        "REVOKE UPDATE ON db.tbl FROM 'u'@'h'".toList], none⟩ ∧
    updatePrivileges (fun _ => some "denied".toList) ["SELECT".toList, "UPDATE".toList]
        ["SELECT".toList, "INSERT".toList, "DELETE".toList]
        "'u'@'h'".toList "db".toList "tbl".toList =
      ⟨["GRANT INSERT,DELETE ON db.tbl TO 'u'@'h'".toList], some "denied".toList⟩ :=
  ⟨(updatePrivileges_statements (fun _ => none) ["SELECT".toList, "UPDATE".toList]
      ["SELECT".toList, "INSERT".toList, "DELETE".toList]
      "'u'@'h'".toList "db".toList "tbl".toList).2.2.2.2.2.1
      (by decide) rfl (by decide),
    (updatePrivileges_statements (fun _ => some "denied".toList)
      ["SELECT".toList, "UPDATE".toList] ["SELECT".toList, "INSERT".toList, "DELETE".toList]
      "'u'@'h'".toList "db".toList "tbl".toList).2.2.2.2.1 "denied".toList
      (by decide) rfl⟩

/-- C3: when some line of the listing does not follow the grammar
`GRANT <privilege-list> ON <database>.<table> TO ...`, `showGrants` fails at the first such
line with an error whose message contains that raw line, and returns no records: not those of
the lines before it, and nothing for the line itself. -/
theorem showGrants_malformed_line (rows : List Str)
    (h : ∃ l ∈ rows, ¬ MatchesGrantGrammar l) :
    ∃ pre bad post, rows = pre ++ bad :: post ∧ (∀ l ∈ pre, MatchesGrantGrammar l) ∧
      ¬ MatchesGrantGrammar bad ∧
      showGrants (.ok rows) = .error ("failed to parse grant statement: ".toList ++ bad) ∧
      bad <:+: ("failed to parse grant statement: ".toList ++ bad) ∧
      ∀ grants, showGrants (.ok rows) ≠ .ok grants := by
  obtain ⟨pre, bad, post, e, h1, h2⟩ := exists_first_malformed rows h
  have herr : showGrants (.ok rows) =
      .error ("failed to parse grant statement: ".toList ++ bad) := by
    rw [e]
    exact showGrantsLoop_error pre bad post [] _
      (fun l hl => (parseGrantLine_ok_iff l).2 (h1 l hl)) (parseGrantLine_of_no_match bad h2)
  refine ⟨pre, bad, post, e, h1, h2, herr, ?_, ?_⟩
  · exact ⟨"failed to parse grant statement: ".toList, [], List.append_nil _⟩
  · intro grants hg
    rw [herr] at hg
    exact Result.noConfusion hg

/-- A listing whose second line has no ON clause: the error names that line. -/
theorem showGrants_malformed_line_witness :
    (∃ l ∈ ["GRANT USAGE ON *.* TO 'u'@'h'".toList, "GRANT SELECT TO 'u'@'h'".toList],
      ¬ MatchesGrantGrammar l) ∧
    ∃ pre bad post,
      ["GRANT USAGE ON *.* TO 'u'@'h'".toList, "GRANT SELECT TO 'u'@'h'".toList] =
        pre ++ bad :: post ∧ (∀ l ∈ pre, MatchesGrantGrammar l) ∧
      ¬ MatchesGrantGrammar bad ∧
      showGrants (.ok ["GRANT USAGE ON *.* TO 'u'@'h'".toList,
          "GRANT SELECT TO 'u'@'h'".toList]) =
        .error ("failed to parse grant statement: ".toList ++ bad) ∧
      bad <:+: ("failed to parse grant statement: ".toList ++ bad) ∧
      ∀ grants, showGrants (.ok ["GRANT USAGE ON *.* TO 'u'@'h'".toList,
          "GRANT SELECT TO 'u'@'h'".toList]) ≠ .ok grants :=
  have h0 : ∃ l ∈ ["GRANT USAGE ON *.* TO 'u'@'h'".toList, "GRANT SELECT TO 'u'@'h'".toList],
      ¬ MatchesGrantGrammar l :=
    ⟨"GRANT SELECT TO 'u'@'h'".toList, by simp, not_matches_of_no_on _ (by decide)⟩
  ⟨h0, showGrants_malformed_line _ h0⟩

/-- C4: when every line of the listing matches `^GRANT (.+) ON (.+?)\.(.+?) TO`, `showGrants`
returns one record per line, in line order: the privileges are the first group split at
commas and trimmed of surrounding whitespace, the database is the second group without
backticks, the table the third group without its surrounding backticks. The line
GRANT SELECT, INSERT ON `db`.`tbl` TO 'u'@'h' gives db, tbl, [SELECT, INSERT] and no grant
option. -/
theorem showGrants_records (rows : List Str) (h : ∀ l ∈ rows, MatchesGrantGrammar l) :
    (∃ grants, showGrants (.ok rows) = .ok grants ∧
      List.Forall₂ (fun line g => ∃ whole m1 m2 m3 : Str,
        reFindStringSubmatch line = [whole, m1, m2, m3] ∧
        g.Privileges = (stringsSplit ',' m1).map trimSpace ∧
        g.Database = removeAll m2 backtick ∧
        g.Table = stringsTrim m3 backtick) rows grants) ∧
    showGrants (.ok ["GRANT SELECT, INSERT ON `db`.`tbl` TO 'u'@'h'".toList]) =
      .ok [{ Database := "db".toList, Table := "tbl".toList,
             Privileges := ["SELECT".toList, "INSERT".toList], Grant := false }] := by
  refine ⟨?_, by decide⟩
  induction rows with
  | nil => exact ⟨[], rfl, List.Forall₂.nil⟩
  | cons l rows ih =>
    obtain ⟨grants, hg, hf⟩ := ih (fun x hx => h x (List.mem_cons_of_mem _ hx))
    rcases reFindStringSubmatch_cases l with h0 | ⟨m1, m2, m3, rest, h1, _, _⟩
    · have := (reFindStringSubmatch_length l).2 (h l (by simp))
      rw [h0] at this
      exact absurd this (by decide)
    · have hp := parseGrantLine_of_match _ _ _ _ _ h1
      refine ⟨({
          Database := removeAll m2 backtick
          Table := stringsTrim m3 backtick
          Privileges := (stringsSplit ',' m1).map trimSpace
          Grant := reGrantMatchString l } : MySQLGrant) :: grants, ?_,
        List.Forall₂.cons ⟨_, m1, m2, m3, h1, rfl, rfl, rfl⟩ hf⟩
      rw [showGrants_ok_iff]
      exact List.Forall₂.cons hp ((showGrants_ok_iff _ _).1 hg)

/-- A listing of two matching lines. -/
theorem showGrants_records_witness :
    (∃ grants, showGrants (.ok ["GRANT USAGE ON *.* TO 'u'@'h'".toList,
        "GRANT SELECT, INSERT ON `db`.`tbl` TO 'u'@'h'".toList]) = .ok grants ∧
      List.Forall₂ (fun line g => ∃ whole m1 m2 m3 : Str,
        reFindStringSubmatch line = [whole, m1, m2, m3] ∧
        g.Privileges = (stringsSplit ',' m1).map trimSpace ∧
        g.Database = removeAll m2 backtick ∧
        g.Table = stringsTrim m3 backtick)
        ["GRANT USAGE ON *.* TO 'u'@'h'".toList,
          "GRANT SELECT, INSERT ON `db`.`tbl` TO 'u'@'h'".toList] grants) ∧
    showGrants (.ok ["GRANT SELECT, INSERT ON `db`.`tbl` TO 'u'@'h'".toList]) =
      .ok [{ Database := "db".toList, Table := "tbl".toList,
             Privileges := ["SELECT".toList, "INSERT".toList], Grant := false }] :=
  showGrants_records _ (by
    intro l hl
    simp only [List.mem_cons, List.mem_singleton, List.not_mem_nil, or_false] at hl
    rcases hl with e | e <;> rw [e] <;> exact (reFindStringSubmatch_length _).1 (by decide))

/-- C5: for every line of a listing that parses, the Grant flag of its record is true exactly
when the line contains GRANT OPTION as a standalone token sequence; so a line with the clause
WITH GRANT OPTION (ending the line or followed by a non-word character) has Grant = true, and
a line with no occurrence of GRANT OPTION has Grant = false. -/
theorem showGrants_grant_flag (rows : List Str) (grants : List MySQLGrant)
    (h : showGrants (.ok rows) = .ok grants) :
    List.Forall₂ (fun line g =>
      (g.Grant = true ↔ ContainsStandaloneGrantOption line) ∧
      (∀ pre post : Str, line = pre ++ "WITH GRANT OPTION".toList ++ post →
        isWordAt post.head? = false → g.Grant = true) ∧
      (¬ ("GRANT OPTION".toList <:+: line) → g.Grant = false)) rows grants := by
  rw [showGrants_ok_iff] at h
  refine List.Forall₂.imp ?_ h
  intro line g hp
  have hflag : g.Grant = reGrantMatchString line := by
    rcases reFindStringSubmatch_cases line with h0 | ⟨m1, m2, m3, rest, h1, _, _⟩
    · unfold parseGrantLine at hp
      rw [h0] at hp
      exact Result.noConfusion hp
    · rw [parseGrantLine_of_match _ _ _ _ _ h1] at hp
      injection hp with hp
      rw [← hp]
  have hiff : g.Grant = true ↔ ContainsStandaloneGrantOption line := by
    rw [hflag]
    exact reGrantMatchString_iff line
  refine ⟨hiff, ?_, ?_⟩
  · intro pre post e hpost
    refine hiff.2 ⟨pre ++ "WITH ".toList, post, ?_, ?_, hpost⟩
    · rw [e]
      simp
    · rw [List.getLast?_append]
      show isWordAt (some ' ') = false
      decide
  · intro hn
    cases hgr : g.Grant with
    | false => rfl
    | true =>
      obtain ⟨pre, post, e, _⟩ := hiff.1 hgr
      exact absurd ⟨pre, post, e.symm⟩ hn

/-- A listing with and without the WITH GRANT OPTION clause. -/
theorem showGrants_grant_flag_witness :
    List.Forall₂ (fun line g =>
      (g.Grant = true ↔ ContainsStandaloneGrantOption line) ∧
      (∀ pre post : Str, line = pre ++ "WITH GRANT OPTION".toList ++ post →
        isWordAt post.head? = false → g.Grant = true) ∧
      (¬ ("GRANT OPTION".toList <:+: line) → g.Grant = false))
      ["GRANT ALL PRIVILEGES ON *.* TO 'root'@'localhost' WITH GRANT OPTION".toList,
        "GRANT SELECT ON `db`.* TO 'root'@'localhost'".toList]
      ([{ Database := "*".toList, Table := "*".toList,
          Privileges := ["ALL PRIVILEGES".toList], Grant := true },
        { Database := "db".toList, Table := "*".toList,
          Privileges := ["SELECT".toList], Grant := false }] : List MySQLGrant) :=
  showGrants_grant_flag _ _ (by decide)

/-- C6: `supportsRoles` answers true exactly when the server version is strictly greater
than 8.0.0 in semantic-version order: for a version major.minor.patch, when
(major, minor, patch) is lexicographically above (8, 0, 0), whatever the prerelease; 8.0.0
gives false and 8.0.1 gives true. -/
theorem supportsRoles_strictly_greater (env : Env) :
    (∀ (major minor patch : Nat) (pre : Str),
      (supportsRoles { env with serverVersion := .ok ⟨[major, minor, patch], pre⟩ } =
          .ok true ↔
        8 < major ∨ (major = 8 ∧ (0 < minor ∨ (minor = 0 ∧ 0 < patch))))) ∧
    (∀ v : Version,
      (supportsRoles { env with serverVersion := .ok v } = .ok true ↔
        ∃ major rest, v.segments = major :: rest ∧
          (8 < major ∨ (major = 8 ∧ ∃ x ∈ rest, 0 < x)))) ∧
    (∀ v : Version, ∃ b, supportsRoles { env with serverVersion := .ok v } = .ok b) ∧
    supportsRoles { env with serverVersion := .ok ⟨[8, 0, 0], []⟩ } = .ok false ∧
    supportsRoles { env with serverVersion := .ok ⟨[8, 0, 1], []⟩ } = .ok true := by
  have key : ∀ v : Version,
      (supportsRoles { env with serverVersion := .ok v } = .ok true ↔
        ∃ major rest, v.segments = major :: rest ∧
          (8 < major ∨ (major = 8 ∧ ∃ x ∈ rest, 0 < x))) := by
    intro v
    rw [← greaterThan_800 env.comparePrereleases v]
    simp [supportsRoles]
  refine ⟨?_, key, fun v => ⟨_, rfl⟩, ?_, ?_⟩
  · intro major minor patch pre
    rw [key]
    constructor
    · rintro ⟨m, r, e, h⟩
      simp only [List.cons.injEq] at e
      obtain ⟨rfl, rfl⟩ := e
      rcases h with h | ⟨h1, x, hx, hpos⟩
      · exact Or.inl h
      · refine Or.inr ⟨h1, ?_⟩
        simp only [List.mem_cons, List.mem_singleton, List.not_mem_nil, or_false] at hx
        rcases hx with rfl | rfl
        · exact Or.inl hpos
        · by_cases hm : minor = 0
          · exact Or.inr ⟨hm, hpos⟩
          · exact Or.inl (Nat.pos_of_ne_zero hm)
    · rintro (h | ⟨h1, h2⟩)
      · exact ⟨major, _, rfl, Or.inl h⟩
      · refine ⟨major, _, rfl, Or.inr ⟨h1, ?_⟩⟩
        rcases h2 with h2 | ⟨_, h2⟩
        · exact ⟨minor, by simp, h2⟩
        · exact ⟨patch, by simp, h2⟩
  · simp [supportsRoles, Version.GreaterThan, Version.Compare]
  · simp [supportsRoles, Version.GreaterThan, Version.Compare, compareSegments]

/-- The role target on a server without role support: what `userOrRole` answers and what
`CreateGrant` returns once it reaches the principal or the roles check. -/
theorem createGrant_role_target (env : Env) (d : GrantData)
    (hver : supportsRoles env = .ok false) :
    (∀ user host role : Str, (user = [] ∨ host = []) → role ≠ [] →
      userOrRole user host role false =
        .error "Roles are only supported on MySQL 8 and above".toList) ∧
    "MySQL 8".toList <:+: "Roles are only supported on MySQL 8 and above".toList ∧
    (d.role ≠ [] →
      (∀ user, env.getValueFromSecret d.secret_name env.AWSRegion d.username_key = .ok user →
        user = [] ∨ d.host = []) →
      (CreateGrant env d).executed = [] ∧ (∃ e, (CreateGrant env d).err = some e) ∧
      (∀ user, env.getValueFromSecret d.secret_name env.AWSRegion d.username_key = .ok user →
        d.privileges ≠ [] ∨ d.roles ≠ [] →
        CreateGrant env d =
          ⟨[], some "Roles are only supported on MySQL 8 and above".toList, d⟩)) ∧
    (d.privileges = [] → d.roles ≠ [] →
      CreateGrant env d =
        ⟨[], some "Roles are only supported on MySQL 8 and above".toList, d⟩) := by
  have hU : ∀ user host role : Str, (user = [] ∨ host = []) → role ≠ [] →
      userOrRole user host role false =
        .error "Roles are only supported on MySQL 8 and above".toList := by
    intro user host role hp hr
    unfold userOrRole
    have h1 : ¬ (user.length > 0 ∧ host.length > 0) := by
      rintro ⟨h1, h2⟩
      rcases hp with rfl | rfl
      · exact absurd h1 (by simp)
      · exact absurd h2 (by simp)
    have h2 : role.length > 0 := List.length_pos.2 hr
    rw [if_neg h1, if_pos h2]
    rfl
  have hRoles : d.privileges = [] → d.roles ≠ [] →
      CreateGrant env d =
        ⟨[], some "Roles are only supported on MySQL 8 and above".toList, d⟩ := by
    intro hp hr
    unfold CreateGrant
    rw [hver]
    have : createGrantTarget d false =
        .error "Roles are only supported on MySQL 8 and above".toList := by
      unfold createGrantTarget
      rw [if_neg (by simp [hp]), if_pos hr]
      rfl
    simp only [this]
  refine ⟨hU, by decide, ?_, hRoles⟩
  intro hrole hpair
  have hrun : ∀ t, createGrantTarget d false = .ok t →
      ∀ user, env.getValueFromSecret d.secret_name env.AWSRegion d.username_key = .ok user →
      CreateGrant env d =
        ⟨[], some "Roles are only supported on MySQL 8 and above".toList, d⟩ := by
    intro t ht user hs
    unfold CreateGrant
    rw [hver]
    simp only [ht, hs, hU user d.host d.role (hpair user hs) hrole]
  refine ⟨?_, ?_, ?_⟩
  · cases ht : createGrantTarget d false with
    | error e =>
      unfold CreateGrant
      rw [hver]
      simp only [ht]
    | ok t =>
      cases hs : env.getValueFromSecret d.secret_name env.AWSRegion d.username_key with
      | error e =>
        unfold CreateGrant
        rw [hver]
        simp only [ht, hs]
      | ok user => rw [hrun t ht user hs]
  · cases ht : createGrantTarget d false with
    | error e =>
      unfold CreateGrant
      rw [hver]
      simp only [ht]
      exact ⟨e, rfl⟩
    | ok t =>
      cases hs : env.getValueFromSecret d.secret_name env.AWSRegion d.username_key with
      | error e =>
        unfold CreateGrant
        rw [hver]
        simp only [ht, hs]
        exact ⟨e, rfl⟩
      | ok user =>
        rw [hrun t ht user hs]
        exact ⟨_, rfl⟩
  · intro user hs hpr
    cases ht : createGrantTarget d false with
    | error e =>
      by_cases hp : d.privileges = []
      · exact hRoles hp (hpr.resolve_left (fun h => h hp))
      · unfold createGrantTarget at ht
        rw [if_pos hp] at ht
        exact Result.noConfusion ht
    | ok t => exact hrun t ht user hs

/-- C7, counterexample to the error returned by `CreateGrant`: on the 5.7.30 server a grant to
the role `reader` that names no privileges is refused for the missing privileges, and one
whose secret has no entry for the empty user key is refused with the lookup error; neither
message names MySQL 8. -/
theorem createGrant_role_target_other_errors :
    supportsRoles legacyEnv = .ok false ∧ bareRoleGrant.role ≠ [] ∧
    CreateGrant legacyEnv bareRoleGrant =
      ⟨[], some "One of privileges or roles is required".toList, bareRoleGrant⟩ ∧
    ¬ ("MySQL 8".toList <:+: "One of privileges or roles is required".toList) ∧
    supportsRoles keyedSecretEnv = .ok false ∧ roleGrant.role ≠ [] ∧
    CreateGrant keyedSecretEnv roleGrant =
      ⟨[], some "Key \"\" not found in the secret \"db-secret\"".toList, roleGrant⟩ ∧
    ¬ ("MySQL 8".toList <:+: "Key \"\" not found in the secret \"db-secret\"".toList) := by
  decide

/-- C7, as the code has it: when the server does not support roles, resolving a role target (a
role name and no user-and-host pair) fails with an error naming MySQL 8, and `CreateGrant` on
such a target always returns an error without executing any statement. The error is the one
of the first check that fails, in the order of the code: the missing privileges or roles, the
roles without role support (the message naming MySQL 8), the secret lookup, and last the
principal (the same message naming MySQL 8). `CreateGrant` with roles and no privileges
fails with the message naming MySQL 8 before any statement. -/
theorem createGrant_role_unsupported (env : Env) (d : GrantData)
    (hver : supportsRoles env = .ok false) :
    (∀ user host role : Str, (user = [] ∨ host = []) → role ≠ [] →
      userOrRole user host role false =
        .error "Roles are only supported on MySQL 8 and above".toList) ∧
    "MySQL 8".toList <:+: "Roles are only supported on MySQL 8 and above".toList ∧
    (d.role ≠ [] →
      (∀ user, env.getValueFromSecret d.secret_name env.AWSRegion d.username_key = .ok user →
        user = [] ∨ d.host = []) →
      (CreateGrant env d).executed = [] ∧ (∃ e, (CreateGrant env d).err = some e) ∧
      (d.privileges = [] → d.roles = [] →
        CreateGrant env d =
          ⟨[], some "One of privileges or roles is required".toList, d⟩) ∧
      (∀ e, d.privileges ≠ [] →
        env.getValueFromSecret d.secret_name env.AWSRegion d.username_key = .error e →
        CreateGrant env d = ⟨[], some e, d⟩) ∧
      (∀ user, env.getValueFromSecret d.secret_name env.AWSRegion d.username_key = .ok user →
        d.privileges ≠ [] ∨ d.roles ≠ [] →
        CreateGrant env d =
          ⟨[], some "Roles are only supported on MySQL 8 and above".toList, d⟩)) ∧
    (d.privileges = [] → d.roles ≠ [] →
      CreateGrant env d =
        ⟨[], some "Roles are only supported on MySQL 8 and above".toList, d⟩) := by
  obtain ⟨hA, hB, hC, hD⟩ := createGrant_role_target env d hver
  refine ⟨hA, hB, ?_, hD⟩
  intro hrole hpair
  obtain ⟨h1, h2, h3⟩ := hC hrole hpair
  refine ⟨h1, h2, ?_, ?_, h3⟩
  · intro hp hr
    unfold CreateGrant
    rw [hver]
    have : createGrantTarget d false =
        .error "One of privileges or roles is required".toList := by
      unfold createGrantTarget
      rw [if_neg (by simp [hp]), if_neg (by simp [hr])]
    simp only [this]
  · intro e hp hs
    unfold CreateGrant
    rw [hver]
    have : createGrantTarget d false = .ok (flattenList d.privileges "%s".toList, true, 0) := by
      unfold createGrantTarget
      rw [if_pos hp]
    simp only [this, hs]

/-- On the 5.7.30 server, the grant of SELECT to the role `reader` stops at the lookup of the
empty user key, and the grant of the role `writer` to it at the roles check; when the secret
store answers the empty key with an empty user name, the grant of SELECT to the role stops at
the principal. No statement is executed. -/
theorem createGrant_role_unsupported_witness :
    supportsRoles keyedSecretEnv = .ok false ∧
    CreateGrant keyedSecretEnv roleGrant =
      ⟨[], some "Key \"\" not found in the secret \"db-secret\"".toList, roleGrant⟩ ∧
    CreateGrant keyedSecretEnv rolesOnlyGrant =
      ⟨[], some "Roles are only supported on MySQL 8 and above".toList, rolesOnlyGrant⟩ ∧
    CreateGrant legacyEnv roleGrant =
      ⟨[], some "Roles are only supported on MySQL 8 and above".toList, roleGrant⟩ :=
  ⟨by decide,
    ((createGrant_role_unsupported keyedSecretEnv roleGrant (by decide)).2.2.1
      (by decide) (fun user h => by simp [keyedSecretEnv, roleGrant] at h)).2.2.2.1
      "Key \"\" not found in the secret \"db-secret\"".toList (by decide) rfl,
    (createGrant_role_unsupported keyedSecretEnv rolesOnlyGrant (by decide)).2.2.2
      rfl (by decide),
    ((createGrant_role_unsupported legacyEnv roleGrant (by decide)).2.2.1
      (by decide) (fun user h => Or.inl (Result.ok.inj h).symm)).2.2.2.2
      [] rfl (Or.inl (by decide))⟩

/-- C8, counterexample to the both-supplied case: with a user, a host and a role all supplied, `userOrRole`
returns the user form and no error. -/
theorem userOrRole_both_supplied :
    userOrRole "u".toList "h".toList "r".toList true = .ok ("'u'@'h'".toList, false) ∧
    ¬ ∃ e, userOrRole "u".toList "h".toList "r".toList true = .error e := by
  refine ⟨by decide, ?_⟩
  rintro ⟨e, h⟩
  rw [show userOrRole "u".toList "h".toList "r".toList true =
    .ok ("'u'@'h'".toList, false) by decide] at h
  exact Result.noConfusion h

/-- C8, as the code has it: `userOrRole` gives the user-and-host pair precedence: when the pair is
supplied it renders '<user>'@'<host>' with isRole = false, whether or not a role is supplied
too; without the pair, a role renders '<role>' with isRole = true when roles are supported
and is an error when they are not; with neither, it is an error. -/
theorem userOrRole_forms (user host role : Str) (hasRoles : Bool) :
    (user ≠ [] ∧ host ≠ [] →
      userOrRole user host role hasRoles =
        .ok ("'".toList ++ user ++ "'@'".toList ++ host ++ "'".toList, false)) ∧
    (¬ (user ≠ [] ∧ host ≠ []) → role ≠ [] → hasRoles = true →
      userOrRole user host role hasRoles = .ok ("'".toList ++ role ++ "'".toList, true)) ∧
    (¬ (user ≠ [] ∧ host ≠ []) → role ≠ [] → hasRoles = false →
      userOrRole user host role hasRoles =
        .error "Roles are only supported on MySQL 8 and above".toList) ∧
    (¬ (user ≠ [] ∧ host ≠ []) → role = [] →
      userOrRole user host role hasRoles =
        .error "user with host or a role is required".toList) := by
  have hlen : ∀ s : Str, s.length > 0 ↔ s ≠ [] := fun s => List.length_pos
  refine ⟨?_, ?_, ?_, ?_⟩
  · intro h
    unfold userOrRole
    rw [if_pos (by rw [hlen, hlen]; exact h)]
  · intro h hr hh
    unfold userOrRole
    rw [if_neg (by rw [hlen, hlen]; exact h), if_pos ((hlen role).2 hr), hh]
    rfl
  · intro h hr hh
    unfold userOrRole
    rw [if_neg (by rw [hlen, hlen]; exact h), if_pos ((hlen role).2 hr), hh]
    rfl
  · intro h hr
    unfold userOrRole
    rw [if_neg (by rw [hlen, hlen]; exact h), if_neg (by rw [hlen]; exact fun hn => hn hr)]

/-- C9, counterexample to the doubling of backticks: the database name a`b is rendered with its inner backtick left
single, unlike the text of `quoteIdentifier`. -/
theorem formatDatabaseName_inner_backtick :
    formatDatabaseName "a`b".toList = "`a`b`".toList ∧
    quoteIdentifier "a`b".toList = "`a``b`".toList ∧
    formatDatabaseName "a`b".toList ≠ quoteIdentifier "a`b".toList ∧
    formatTableName "a`b".toList ≠ quoteIdentifier "a`b".toList := by
  decide

theorem identQuoteReplacer_of_no_backtick (s : Str) (h : backtick ∉ s) :
    identQuoteReplacer s = s := by
  induction s with
  | nil => rfl
  | cons c s ih =>
    simp only [List.mem_cons, not_or] at h
    have hc : ¬ c = backtick := fun e => h.1 e.symm
    have := ih h.2
    unfold identQuoteReplacer at this ⊢
    simp only [List.flatMap_cons, if_neg hc, this, List.singleton_append]

theorem hasSuffix_backtick_iff (s : Str) :
    hasSuffix s [backtick] = true ↔ s.getLast? = some backtick := by
  unfold hasSuffix
  rw [List.getLast?_eq_head?_reverse]
  cases s.reverse with
  | nil => simp
  | cons c t =>
    simp only [List.reverse_singleton, List.isPrefixOf, Bool.and_true, beq_iff_eq,
      List.head?_cons, Option.some.injEq]
    exact eq_comm

/-- C9, as the code has it: `formatDatabaseName` wraps a database name in backticks, leaving inner
backticks as they are, unless the name is the wildcard * or already ends in a backtick, in
which case it is rendered unchanged; `formatTableName` renders the wildcard * and the empty
table as * and wraps any other table in backticks, leaving inner backticks as they are. For
an identifier without backticks (other than *, and non-empty for a table) this is the text
`quoteIdentifier` produces. -/
theorem formatNames_quoting (name : Str) :
    formatDatabaseName "*".toList = "*".toList ∧
    formatTableName "*".toList = "*".toList ∧
    formatTableName [] = "*".toList ∧
    (name ≠ "*".toList → name.getLast? ≠ some backtick →
      formatDatabaseName name = [backtick] ++ name ++ [backtick]) ∧
    (name.getLast? = some backtick → formatDatabaseName name = name) ∧
    (name ≠ "*".toList → name ≠ [] →
      formatTableName name = [backtick] ++ name ++ [backtick]) ∧
    (name ≠ "*".toList → backtick ∉ name →
      formatDatabaseName name = quoteIdentifier name) ∧
    (name ≠ "*".toList → name ≠ [] → backtick ∉ name →
      formatTableName name = quoteIdentifier name) := by
  have hdb : name ≠ "*".toList → name.getLast? ≠ some backtick →
      formatDatabaseName name = [backtick] ++ name ++ [backtick] := by
    intro h1 h2
    unfold formatDatabaseName
    have h3 : hasSuffix name [backtick] = false := by
      cases hs : hasSuffix name [backtick] with
      | false => rfl
      | true => exact absurd ((hasSuffix_backtick_iff name).1 hs) h2
    rw [if_pos ⟨h1, by rw [h3]; rfl⟩]
  have htb : name ≠ "*".toList → name ≠ [] →
      formatTableName name = [backtick] ++ name ++ [backtick] := by
    intro h1 h2
    unfold formatTableName
    rw [if_neg (by rintro (h | h) <;> contradiction)]
  refine ⟨by decide, by decide, by decide, hdb, ?_, htb, ?_, ?_⟩
  · intro h
    unfold formatDatabaseName
    have h3 := (hasSuffix_backtick_iff name).2 h
    rw [if_neg (by rw [h3]; simp)]
  · intro h1 h2
    rw [hdb h1 (fun h => h2 (List.mem_of_getLast?_eq_some h)), quoteIdentifier,
      identQuoteReplacer_of_no_backtick name h2]
  · intro h1 h2 h3
    rw [htb h1 h2, quoteIdentifier, identQuoteReplacer_of_no_backtick name h3]

/-- C10: when `CreateGrant` gets past its checks, the one statement it executes is
`GRANT <privileges or roles><scope> TO <principal>` followed by ` REQUIRE <tls_option>`
exactly when roles are not supported and tls_option is non-empty, and then by
` WITH GRANT OPTION` exactly when the grant attribute is true, the target is not a role and
roles are not supported; when roles are supported nothing is appended. -/
theorem createGrant_clauses (env : Env) (d : GrantData) (hasRoles hasPrivs isRole : Bool)
    (privilegesOrRoles user principal : Str) (rolesGranted : Nat)
    (hver : supportsRoles env = .ok hasRoles)
    (htarget : createGrantTarget d hasRoles = .ok (privilegesOrRoles, hasPrivs, rolesGranted))
    (hsecret : env.getValueFromSecret d.secret_name env.AWSRegion d.username_key = .ok user)
    (hprincipal : userOrRole user d.host d.role hasRoles = .ok (principal, isRole)) :
    let base := "GRANT ".toList ++ privilegesOrRoles ++
      createGrantOn d isRole hasPrivs rolesGranted ++ " TO ".toList ++ principal
    let require : Str :=
      if hasRoles = false ∧ d.tls_option ≠ [] then " REQUIRE ".toList ++ d.tls_option else []
    let withGrant : Str :=
      if d.grant = true ∧ isRole = false ∧ hasRoles = false then " WITH GRANT OPTION".toList
      else []
    (CreateGrant env d).executed = [base ++ require ++ withGrant] ∧
    (hasRoles = true → (CreateGrant env d).executed = [base]) := by
  intro base require withGrant
  have hsql : createGrantSQL d hasRoles isRole privilegesOrRoles
      (createGrantOn d isRole hasPrivs rolesGranted) principal =
      base ++ require ++ withGrant := by
    unfold createGrantSQL
    cases hasRoles <;> cases isRole <;> cases hg : d.grant <;>
      by_cases ht : d.tls_option = [] <;>
      simp [base, require, withGrant, hg, ht]
  have hexec : (CreateGrant env d).executed = [base ++ require ++ withGrant] := by
    unfold CreateGrant
    rw [hver]
    simp only [htarget, hsecret, hprincipal, hsql]
    cases env.exec (base ++ require ++ withGrant) <;> rfl
  refine ⟨hexec, ?_⟩
  intro h
  rw [hexec]
  simp [require, withGrant, h]

/-- On the 5.7.30 server, the grant with grant option to the user `app` is rendered with
both clauses. -/
theorem createGrant_clauses_witness :
    (CreateGrant legacyUserEnv userGrant).executed =
      ["GRANT SELECT, INSERT ON `db`.`tbl` TO 'app'@'localhost' REQUIRE NONE WITH GRANT OPTION".toList] :=
  (createGrant_clauses legacyUserEnv userGrant false true false
    "SELECT, INSERT".toList "app".toList "'app'@'localhost'".toList 0
    (by decide) (by decide) (by decide) (by decide)).1

/-! ## Facts about DeleteGrant -/

theorem deleteWhatToRevoke_eq (d : GrantData) (database table : Str) :
    deleteWhatToRevoke d database table =
      if d.roles ≠ [] then flattenList d.roles "'%s'".toList
      else if d.privileges ≠ [] ∧ d.procedure = false then
        flattenList d.privileges "%s".toList ++ " ON ".toList ++ database ++ ".".toList ++ table
      else if d.procedure = true then "EXECUTE ON PROCEDURE ".toList ++ d.database
      else "ALL ON ".toList ++ database ++ ".".toList ++ table := by
  unfold deleteWhatToRevoke
  simp only [List.length_pos]

/-- C11: once the principal resolves, `DeleteGrant` first executes
`REVOKE GRANT OPTION ON <db>.<table> FROM <principal>` exactly when the principal is not a
role, no roles are named and procedure is false, and returns its error without going on when
it fails; then it executes one `REVOKE <what> FROM <principal>`, where <what> is the named
roles when there are any, otherwise the privilege list ON <db>.<table> when privileges are
named and procedure is false, otherwise `EXECUTE ON PROCEDURE <database>` when procedure is
true, otherwise `ALL ON <db>.<table>`. -/
theorem deleteGrant_statements (env : Env) (d : GrantData) (hasRoles isRole : Bool)
    (user principal : Str)
    (hver : supportsRoles env = .ok hasRoles)
    (hsecret : env.getValueFromSecret d.secret_name env.AWSRegion d.username_key = .ok user)
    (hprincipal : userOrRole user d.host d.role hasRoles = .ok (principal, isRole)) :
    let database := formatDatabaseName d.database
    let table := formatTableName d.table
    let first := "REVOKE GRANT OPTION ON ".toList ++ database ++ ".".toList ++ table ++
      " FROM ".toList ++ principal
    let what : Str :=
      if d.roles ≠ [] then flattenList d.roles "'%s'".toList
      else if d.privileges ≠ [] ∧ d.procedure = false then
        flattenList d.privileges "%s".toList ++ " ON ".toList ++ database ++ ".".toList ++ table
      else if d.procedure = true then "EXECUTE ON PROCEDURE ".toList ++ d.database
      else "ALL ON ".toList ++ database ++ ".".toList ++ table
    let second := "REVOKE ".toList ++ what ++ " FROM ".toList ++ principal
    let wrapped : Option Error :=
      (env.exec second).map
        (fun e => "error revoking ALL (".toList ++ second ++ "): ".toList ++ e)
    (isRole = false ∧ d.roles = [] ∧ d.procedure = false →
      (∀ e, env.exec first = some e →
        DeleteGrant env d =
          ⟨[first], some ("error revoking GRANT (".toList ++ first ++ "): ".toList ++ e), d⟩) ∧
      (env.exec first = none → DeleteGrant env d = ⟨[first, second], wrapped, d⟩)) ∧
    (¬ (isRole = false ∧ d.roles = [] ∧ d.procedure = false) →
      DeleteGrant env d = ⟨[second], wrapped, d⟩) := by
  intro database table first what second wrapped
  have hwhat : deleteWhatToRevoke d database table = what := deleteWhatToRevoke_eq d _ _
  have hrun : DeleteGrant env d = DeleteGrant env d := rfl
  conv at hrun => rhs; unfold DeleteGrant
  rw [hver] at hrun
  simp only [hsecret, hprincipal, hwhat] at hrun
  refine ⟨?_, ?_⟩
  · rintro ⟨h1, h2, h3⟩
    have hc : (!isRole && d.roles.length == 0 && d.procedure == false) = true := by
      simp [h1, h2, h3]
    simp only [hc, if_true] at hrun
    refine ⟨?_, ?_⟩
    · intro e he
      rw [hrun]
      simp only [show formatDatabaseName d.database = database from rfl,
        show formatTableName d.table = table from rfl]
      rw [show "REVOKE GRANT OPTION ON ".toList ++ database ++ ".".toList ++ table ++
        " FROM ".toList ++ principal = first from rfl, he]
    · intro he
      rw [hrun]
      simp only [show formatDatabaseName d.database = database from rfl,
        show formatTableName d.table = table from rfl]
      rw [show "REVOKE GRANT OPTION ON ".toList ++ database ++ ".".toList ++ table ++
        " FROM ".toList ++ principal = first from rfl, he]
      simp only [show "REVOKE ".toList ++ what ++ " FROM ".toList ++ principal = second
        from rfl]
      cases hs : env.exec second with
      | none => simp [wrapped, hs]
      | some e2 => simp [wrapped, hs]
  · intro hn
    have hc : (!isRole && d.roles.length == 0 && d.procedure == false) = false := by
      cases isRole <;> cases hp : d.procedure <;> by_cases hr : d.roles = [] <;>
        simp_all
    simp only [hc] at hrun
    rw [hrun]
    simp only [show "REVOKE ".toList ++ what ++ " FROM ".toList ++ principal = second
      from rfl]
    cases hs : env.exec second with
    | none => simp [wrapped, hs]
    | some e2 => simp [wrapped, hs]

/-- On the 5.7.30 server, deleting the grant of the user `app` revokes the grant option and
then the two privileges. -/
theorem deleteGrant_statements_witness :
    DeleteGrant legacyUserEnv userGrant =
      ⟨["REVOKE GRANT OPTION ON `db`.`tbl` FROM 'app'@'localhost'".toList,
        "REVOKE SELECT, INSERT ON `db`.`tbl` FROM 'app'@'localhost'".toList], none,
        userGrant⟩ :=
  ((deleteGrant_statements legacyUserEnv userGrant false false "app".toList
    "'app'@'localhost'".toList (by decide) (by decide) (by decide)).1
      ⟨rfl, by decide, by decide⟩).2 (by decide)

/-! ## Facts about ReadGrant -/

theorem readGrantLoop_eq (database table : Str) (grants : List MySQLGrant)
    (privileges : List Str) (grantOption : Bool) :
    readGrantLoop database table grants (privileges, grantOption) =
      (match (grants.filter
          (fun g => decide (g.Database = database ∧ g.Table = table))).getLast? with
        | some g => g.Privileges
        | none => privileges,
       grantOption || grants.any (fun g => g.Grant)) := by
  induction grants generalizing privileges grantOption with
  | nil => simp [readGrantLoop]
  | cons g grants ih =>
    unfold readGrantLoop
    rw [ih]
    by_cases hm : g.Database = database ∧ g.Table = table
    · simp only [List.filter_cons, hm, and_self, decide_True, if_true]
      refine Prod.ext ?_ ?_
      · cases hl : (grants.filter
            (fun g => decide (g.Database = database ∧ g.Table = table))) with
        | nil => simp
        | cons a l =>
          rw [List.getLast?_cons_cons]
          cases hx : (a :: l).getLast? with
          | none => simp at hx
          | some x => rfl
      · cases hg : g.Grant <;> simp [hg]
    · simp only [List.filter_cons, hm, decide_False, if_false, Bool.false_eq_true]
      refine Prod.ext rfl ?_
      cases hg : g.Grant <;> simp [hg]

/-- C12, counterexample to the merging of lines: for a listing with two lines on the scope
`db`.*, `showGrants` returns two records of that scope and `ReadGrant` records only the
privileges of the second line. -/
theorem readGrant_two_lines_same_scope :
    showGrants (splitScopeEnv.query "SHOW GRANTS FOR 'app'@'localhost'".toList) =
      .ok [{ Database := "db".toList, Table := "*".toList,
             Privileges := ["SELECT".toList], Grant := false },
           { Database := "db".toList, Table := "*".toList,
             Privileges := ["INSERT".toList], Grant := false }] ∧
    (ReadGrant splitScopeEnv scopeGrant).2.privileges = ["INSERT".toList] ∧
    "SELECT".toList ∉ (ReadGrant splitScopeEnv scopeGrant).2.privileges := by
  decide

/-- C12, as the code has it: `showGrants` returns one record per line of the listing, without
merging lines of the same scope, and `ReadGrant` records for the managed scope the
privileges of the last line whose database and table are the managed ones (none when there
is no such line), and the grant option when any line carries it. -/
theorem readGrant_last_line (env : Env) (d : GrantData) (hasRoles isRole : Bool)
    (user principal : Str) (rows : List Str) (grants : List MySQLGrant)
    (hver : supportsRoles env = .ok hasRoles)
    (hsecret : env.getValueFromSecret d.secret_name env.AWSRegion d.username_key = .ok user)
    (hprincipal : userOrRole user d.host d.role hasRoles = .ok (principal, isRole))
    (hrows : env.query ("SHOW GRANTS FOR ".toList ++ principal) = .ok rows)
    (hgrants : showGrants (.ok rows) = .ok grants) :
    grants.length = rows.length ∧
    ReadGrant env d = (none, { d with
      privileges :=
        (match (grants.filter (fun g : MySQLGrant =>
            decide (g.Database = d.database ∧ g.Table = d.table))).getLast? with
          | some g => g.Privileges
          | none => []).eraseDups
      grant := grants.any (fun g : MySQLGrant => g.Grant) }) := by
  refine ⟨?_, ?_⟩
  · exact ((showGrants_ok_iff rows grants).1 hgrants).length_eq.symm
  · unfold ReadGrant
    rw [hver]
    simp only [hsecret, hprincipal, hrows, hgrants, readGrantLoop_eq, Bool.false_or]

/-- The listing with two lines on `db`.*: two records, the privileges of the second kept. -/
theorem readGrant_last_line_witness :
    ([{ Database := "db".toList, Table := "*".toList,
        Privileges := ["SELECT".toList], Grant := false },
      { Database := "db".toList, Table := "*".toList,
        Privileges := ["INSERT".toList], Grant := false }] : List MySQLGrant).length = 2 ∧
    ReadGrant splitScopeEnv scopeGrant =
      (none, { scopeGrant with privileges := ["INSERT".toList], grant := false }) :=
  readGrant_last_line splitScopeEnv scopeGrant false false "app".toList
    "'app'@'localhost'".toList
    ["GRANT SELECT ON `db`.* TO 'app'@'localhost'".toList,
      "GRANT INSERT ON `db`.* TO 'app'@'localhost'".toList]
    [{ Database := "db".toList, Table := "*".toList,
       Privileges := ["SELECT".toList], Grant := false },
     { Database := "db".toList, Table := "*".toList,
       Privileges := ["INSERT".toList], Grant := false }]
    (by decide) (by decide) (by decide) (by decide) (by decide)

/-! ## Facts about failing statements -/

theorem createGrant_exec_failure (env : Env) (d : GrantData) (s : Str) (e : Error)
    (hs : s ∈ (CreateGrant env d).executed) (he : env.exec s = some e) :
    (CreateGrant env d).err =
      some ("Error running SQL (".toList ++ s ++ "): ".toList ++ e) := by
  cases h1 : supportsRoles env with
  | error err => simp [CreateGrant, h1] at hs
  | ok hasRoles =>
    cases h2 : createGrantTarget d hasRoles with
    | error err => simp [CreateGrant, h1, h2] at hs
    | ok t =>
      obtain ⟨privilegesOrRoles, hasPrivs, rolesGranted⟩ := t
      cases h3 : env.getValueFromSecret d.secret_name env.AWSRegion d.username_key with
      | error err => simp [CreateGrant, h1, h2, h3] at hs
      | ok user =>
        cases h4 : userOrRole user d.host d.role hasRoles with
        | error err => simp [CreateGrant, h1, h2, h3, h4] at hs
        | ok p =>
          obtain ⟨principal, isRole⟩ := p
          cases h5 : env.exec (createGrantSQL d hasRoles isRole privilegesOrRoles
              (createGrantOn d isRole hasPrivs rolesGranted) principal) with
          | none =>
            simp only [CreateGrant, h1, h2, h3, h4, h5, List.mem_singleton] at hs
            rw [hs, h5] at he
            exact absurd he (by simp)
          | some err =>
            simp only [CreateGrant, h1, h2, h3, h4, h5, List.mem_singleton] at hs ⊢
            rw [hs, h5] at he
            simp only [Option.some.injEq] at he
            rw [hs, he]

theorem deleteGrant_exec_failure (env : Env) (d : GrantData) (s : Str) (e : Error)
    (hs : s ∈ (DeleteGrant env d).executed) (he : env.exec s = some e) :
    (DeleteGrant env d).err =
        some ("error revoking GRANT (".toList ++ s ++ "): ".toList ++ e) ∨
      (DeleteGrant env d).err =
        some ("error revoking ALL (".toList ++ s ++ "): ".toList ++ e) := by
  cases h1 : supportsRoles env with
  | error err => simp [DeleteGrant, h1] at hs
  | ok hasRoles =>
    cases h3 : env.getValueFromSecret d.secret_name env.AWSRegion d.username_key with
    | error err => simp [DeleteGrant, h1, h3] at hs
    | ok user =>
      cases h4 : userOrRole user d.host d.role hasRoles with
      | error err => simp [DeleteGrant, h1, h3, h4] at hs
      | ok p =>
        obtain ⟨principal, isRole⟩ := p
        generalize hf : "REVOKE GRANT OPTION ON ".toList ++ formatDatabaseName d.database ++
          ".".toList ++ formatTableName d.table ++ " FROM ".toList ++ principal = first
            at hs
        generalize hg : "REVOKE ".toList ++
          deleteWhatToRevoke d (formatDatabaseName d.database) (formatTableName d.table) ++
          " FROM ".toList ++ principal = second at hs
        have hrun : DeleteGrant env d = DeleteGrant env d := rfl
        conv at hrun => rhs; unfold DeleteGrant
        simp only [h1, h3, h4, hf, hg] at hrun
        rw [hrun] at hs ⊢
        by_cases hc : (!isRole && d.roles.length == 0 && d.procedure == false) = true
        · simp only [hc, if_true] at hs ⊢
          cases h5 : env.exec first with
          | some e1 =>
            simp only [h5, List.mem_singleton] at hs ⊢
            rw [hs, h5] at he
            simp only [Option.some.injEq] at he
            rw [hs, he]
            exact Or.inl rfl
          | none =>
            simp only [h5] at hs ⊢
            cases h6 : env.exec second with
            | some e2 =>
              simp only [h6, List.singleton_append, List.mem_cons, List.mem_singleton,
                List.not_mem_nil, or_false] at hs ⊢
              rcases hs with hs | hs
              · rw [hs, h5] at he
                exact absurd he (by simp)
              · rw [hs, h6] at he
                simp only [Option.some.injEq] at he
                rw [hs, he]
                exact Or.inr rfl
            | none =>
              simp only [h6, List.singleton_append, List.mem_cons, List.mem_singleton,
                List.not_mem_nil, or_false] at hs
              rcases hs with hs | hs
              · rw [hs, h5] at he
                exact absurd he (by simp)
              · rw [hs, h6] at he
                exact absurd he (by simp)
        · simp only [hc, Bool.false_eq_true, if_false, List.nil_append] at hs ⊢
          cases h6 : env.exec second with
          | some e2 =>
            simp only [h6, List.mem_singleton] at hs ⊢
            rw [hs, h6] at he
            simp only [Option.some.injEq] at he
            rw [hs, he]
            exact Or.inr rfl
          | none =>
            simp only [h6, List.mem_singleton] at hs
            rw [hs, h6] at he
            exact absurd he (by simp)

theorem updatePrivileges_exec_failure (exec : ExecOracle) (oldPrivs newPrivs : List Str)
    (user database table s : Str) (e : Error)
    (hs : s ∈ (updatePrivileges exec oldPrivs newPrivs user database table).executed)
    (he : exec s = some e) :
    (updatePrivileges exec oldPrivs newPrivs user database table).err = some e := by
  generalize hg : updateGrantSQL (grantIfs oldPrivs newPrivs) user database table = g at hs
  generalize hr : updateRevokeSQL (revokeIfs oldPrivs newPrivs) user database table = r at hs
  have hrun : updatePrivileges exec oldPrivs newPrivs user database table =
      updatePrivileges exec oldPrivs newPrivs user database table := rfl
  conv at hrun => rhs; unfold updatePrivileges
  simp only [hg, hr] at hrun
  rw [hrun] at hs ⊢
  by_cases h1 : (grantIfs oldPrivs newPrivs).length > 0 <;>
    by_cases h2 : (revokeIfs oldPrivs newPrivs).length > 0 <;>
    cases h5 : exec g <;> cases h6 : exec r <;>
    simp only [h1, h2, h5, h6, if_true, if_false, List.singleton_append, List.nil_append,
      List.mem_cons, List.mem_singleton, List.not_mem_nil, or_false] at hs ⊢
  all_goals
    first
      | exact absurd hs id
      | (rw [hs, h5] at he; cases he <;> rfl)
      | (rw [hs, h6] at he; cases he <;> rfl)
      | (rcases hs with hs | hs
         · rw [hs, h5] at he
           cases he
         · rw [hs, h6] at he
           cases he <;> rfl)

theorem createUser_exec_failure (env : Env) (d : UserData) (s : Str) (e : Error)
    (hs : s ∈ (CreateUser env d).executed) (he : env.exec s = some e) :
    (CreateUser env d).err = some e := by
  cases h1 : env.getValueFromSecret d.secret_name env.AWSRegion d.username_key with
  | error err => simp [CreateUser, h1] at hs
  | ok username =>
    cases h2 : env.getValueFromSecret d.secret_name env.AWSRegion d.password_key with
    | error err => simp [CreateUser, h1, h2] at hs
    | ok password =>
      cases h3 : env.serverVersion with
      | error err => simp [CreateUser, h1, h2, h3] at hs
      | ok currentVersion =>
        have hrun : CreateUser env d = CreateUser env d := rfl
        conv at hrun => rhs; unfold CreateUser
        simp only [h1, h2, h3] at hrun
        rw [hrun] at hs ⊢
        split at hs
        · rename_i err hx
          simp only [List.mem_singleton] at hs
          rw [hs, hx] at he
          simp only [hx]
          exact he
        · rename_i hx
          simp only [List.mem_singleton] at hs
          rw [hs, hx] at he
          exact absurd he (by simp)

theorem deleteUser_exec_failure (env : Env) (d : UserData) (s : Str) (e : Error)
    (hs : s ∈ (DeleteUser env d).executed) (he : env.exec s = some e) :
    (DeleteUser env d).err = some e := by
  cases h1 : env.getValueFromSecret d.secret_name env.AWSRegion d.username_key with
  | error err => simp [DeleteUser, h1] at hs
  | ok username =>
    have hrun : DeleteUser env d = DeleteUser env d := rfl
    conv at hrun => rhs; unfold DeleteUser
    simp only [h1] at hrun
    rw [hrun] at hs ⊢
    split at hs
    · rename_i err hx
      simp only [List.mem_singleton] at hs
      rw [hs, hx] at he
      simp only [hx]
      exact he
    · rename_i hx
      simp only [List.mem_singleton] at hs
      rw [hs, hx] at he
      exact absurd he (by simp)

theorem updateUserPassword_exec_failure (env : Env) (d : UserData) (username newpw s : Str)
    (e : Error) (hs : s ∈ (updateUserPassword env d username newpw).executed)
    (he : env.exec s = some e) :
    (updateUserPassword env d username newpw).err = some e := by
  cases h3 : env.serverVersion with
  | error err => simp [updateUserPassword, h3] at hs
  | ok serverVersion =>
    have hrun : updateUserPassword env d username newpw =
        updateUserPassword env d username newpw := rfl
    conv at hrun => rhs; unfold updateUserPassword
    simp only [h3] at hrun
    rw [hrun] at hs ⊢
    split at hs
    · rename_i err hx
      simp only [List.mem_singleton] at hs
      rw [hs, hx] at he
      simp only [hx]
      exact he
    · rename_i hx
      simp only [List.mem_singleton] at hs
      rw [hs, hx] at he
      exact absurd he (by simp)

theorem updateUserPassword_err_none (env : Env) (d : UserData) (username newpw s : Str)
    (hs : s ∈ (updateUserPassword env d username newpw).executed)
    (hn : (updateUserPassword env d username newpw).err = none) : env.exec s = none := by
  cases he : env.exec s with
  | none => rfl
  | some e =>
    rw [updateUserPassword_exec_failure env d username newpw s e hs he] at hn
    exact absurd hn (by simp)

theorem updateUser_exec_failure (env : Env) (d : UserData) (pwChanged tlsChanged : Bool)
    (s : Str) (e : Error)
    (hs : s ∈ (UpdateUser env d pwChanged tlsChanged).executed) (he : env.exec s = some e) :
    (UpdateUser env d pwChanged tlsChanged).err = some e := by
  cases h1 : env.getValueFromSecret d.secret_name env.AWSRegion d.username_key with
  | error err => simp [UpdateUser, h1] at hs
  | ok username =>
    cases h2 : (if pwChanged = true then
        env.getValueFromSecret d.secret_name env.AWSRegion d.password_key
        else Result.ok []) with
    | error err => simp [UpdateUser, h1, h2] at hs
    | ok newpw =>
      generalize hf : (if newpw ≠ [] then updateUserPassword env d username newpw
        else ({ executed := [], err := none } : Run)) = first at hs
      have hfirst : ∀ x ∈ first.executed, ∀ e2, env.exec x = some e2 → first.err = some e2 := by
        intro x hx e2 hx2
        by_cases hp : newpw ≠ []
        · rw [if_pos hp] at hf
          subst hf
          exact updateUserPassword_exec_failure env d username newpw x e2 hx hx2
        · rw [if_neg hp] at hf
          subst hf
          simp at hx
      have hrun : UpdateUser env d pwChanged tlsChanged =
          UpdateUser env d pwChanged tlsChanged := rfl
      conv at hrun => rhs; unfold UpdateUser
      simp only [h1, h2, hf] at hrun
      rw [hrun] at hs ⊢
      cases h3 : first.err with
      | some err =>
        simp only [h3] at hs ⊢
        rw [← h3]
        exact hfirst s hs e he
      | none =>
        simp only [h3] at hs ⊢
        have hnot : s ∉ first.executed := by
          intro hx
          have := hfirst s hx e he
          rw [h3] at this
          cases this
        cases h4 : env.serverVersion with
        | error err =>
          simp only [h4] at hs
          exact absurd hs hnot
        | ok currentVersion =>
          simp only [h4] at hs ⊢
          split at hs
          · rename_i hc
            rw [if_pos hc]
            split at hs
            · rename_i err hx
              simp only [List.mem_append, List.mem_singleton] at hs
              rcases hs with hs | hs
              · exact absurd hs hnot
              · rw [hs, hx] at he
                simp only [hx]
                exact he
            · rename_i hx
              simp only [List.mem_append, List.mem_singleton] at hs
              rcases hs with hs | hs
              · exact absurd hs hnot
              · rw [hs, hx] at he
                cases he
          · exact absurd hs hnot

/-- C13, counterexample to the wrapping of every failure: when the server rejects the GRANT
of `updatePrivileges` with the message `denied`, the error returned is that message alone,
without the text of the statement. -/
theorem updatePrivileges_error_unwrapped :
    updatePrivileges denyingEnv.exec [] ["SELECT".toList] "'app'@'localhost'".toList
        "db".toList "*".toList =
      ⟨["GRANT SELECT ON db.* TO 'app'@'localhost'".toList], some "denied".toList⟩ ∧
    ¬ ("GRANT SELECT ON db.* TO 'app'@'localhost'".toList <:+: "denied".toList) := by
  decide

/-- C13, as the code has it: on every mutation path a failing statement ends the operation
with an error, never swallowed. `CreateGrant` and `DeleteGrant` return a message made of the
text of the failing statement and the server's error; `updatePrivileges`, `CreateUser`,
`UpdateUser` and `DeleteUser` return the server's error unchanged. -/
theorem exec_failure_returned (env : Env) (s : Str) (e : Error) (he : env.exec s = some e) :
    (∀ d, s ∈ (CreateGrant env d).executed →
      (CreateGrant env d).err =
        some ("Error running SQL (".toList ++ s ++ "): ".toList ++ e)) ∧
    (∀ d, s ∈ (DeleteGrant env d).executed →
      (DeleteGrant env d).err =
          some ("error revoking GRANT (".toList ++ s ++ "): ".toList ++ e) ∨
        (DeleteGrant env d).err =
          some ("error revoking ALL (".toList ++ s ++ "): ".toList ++ e)) ∧
    (∀ oldPrivs newPrivs user database table,
      s ∈ (updatePrivileges env.exec oldPrivs newPrivs user database table).executed →
      (updatePrivileges env.exec oldPrivs newPrivs user database table).err = some e) ∧
    (∀ d, s ∈ (CreateUser env d).executed → (CreateUser env d).err = some e) ∧
    (∀ d pwChanged tlsChanged, s ∈ (UpdateUser env d pwChanged tlsChanged).executed →
      (UpdateUser env d pwChanged tlsChanged).err = some e) ∧
    (∀ d, s ∈ (DeleteUser env d).executed → (DeleteUser env d).err = some e) ∧
    (∀ label : Str, s <:+: label ++ s ++ "): ".toList ++ e ∧
      e <:+: label ++ s ++ "): ".toList ++ e) :=
  ⟨fun d hs => createGrant_exec_failure env d s e hs he,
    fun d hs => deleteGrant_exec_failure env d s e hs he,
    fun o n u db t hs => updatePrivileges_exec_failure env.exec o n u db t s e hs he,
    fun d hs => createUser_exec_failure env d s e hs he,
    fun d p t hs => updateUser_exec_failure env d p t s e hs he,
    fun d hs => deleteUser_exec_failure env d s e hs he,
    fun label => ⟨⟨label, "): ".toList ++ e, by simp only [List.append_assoc]⟩,
      ⟨label ++ s ++ "): ".toList, [], List.append_nil _⟩⟩⟩

/-- The server that rejects every statement: the grant of the user `app` fails with the
statement in the message, the creation of the user with the server's message alone. -/
theorem exec_failure_returned_witness :
    (CreateGrant denyingEnv userGrant).err =
      some ("Error running SQL (GRANT SELECT, INSERT ON `db`.`tbl` TO 'app'@'localhost' " ++
        "REQUIRE NONE WITH GRANT OPTION): denied").toList ∧
    (CreateUser denyingEnv sslUser).err = some "denied".toList :=
  have h := exec_failure_returned denyingEnv
    "GRANT SELECT, INSERT ON `db`.`tbl` TO 'app'@'localhost' REQUIRE NONE WITH GRANT OPTION".toList
    "denied".toList rfl
  have h2 := exec_failure_returned denyingEnv
    "CREATE USER 'app'@'localhost' IDENTIFIED BY 'app' REQUIRE SSL".toList
    "denied".toList rfl
  ⟨h.1 userGrant (by decide), h2.2.2.2.1 sslUser (by decide)⟩

/-! ## Facts about the import identity -/

theorem stringsSplitN_succ_cases (sep : Char) (n : Nat) (s : Str) :
    ∃ h t, stringsSplitN sep (n + 1) s = h :: t := by
  induction s generalizing n with
  | nil =>
    cases n with
    | zero => exact ⟨_, _, rfl⟩
    | succ k => exact ⟨_, _, rfl⟩
  | cons c cs ih =>
    cases n with
    | zero => exact ⟨_, _, rfl⟩
    | succ k =>
      rw [stringsSplitN]
      by_cases hc : c = sep
      · rw [if_pos hc]
        exact ⟨_, _, rfl⟩
      · rw [if_neg hc]
        obtain ⟨h, t, e⟩ := ih (k + 1)
        rw [e]
        exact ⟨_, _, rfl⟩

theorem stringsSplitN_length (sep : Char) (n : Nat) (s : Str) :
    (stringsSplitN sep (n + 1) s).length = min (n + 1) (s.count sep + 1) := by
  induction s generalizing n with
  | nil =>
    cases n with
    | zero => rfl
    | succ k =>
      rw [stringsSplitN]
      simp
  | cons c cs ih =>
    cases n with
    | zero =>
      rw [stringsSplitN]
      simp
    | succ k =>
      rw [stringsSplitN]
      by_cases hc : c = sep
      · rw [if_pos hc, List.length_cons, ih k, hc, List.count_cons_self]
        omega
      · rw [if_neg hc]
        obtain ⟨h, t, e⟩ := stringsSplitN_succ_cases sep (k + 1) cs
        have := ih (k + 1)
        rw [e] at this ⊢
        rw [List.count_cons_of_ne (fun x => hc x.symm)]
        simpa using this

theorem stringsSplitN_join (sep : Char) (n : Nat) (s : Str) :
    stringsJoin [sep] (stringsSplitN sep (n + 1) s) = s := by
  induction s generalizing n with
  | nil =>
    cases n with
    | zero => rfl
    | succ k => rfl
  | cons c cs ih =>
    cases n with
    | zero => rfl
    | succ k =>
      rw [stringsSplitN]
      by_cases hc : c = sep
      · rw [if_pos hc]
        obtain ⟨h, t, e⟩ := stringsSplitN_succ_cases sep k cs
        have := ih k
        rw [e] at this ⊢
        rw [stringsJoin, this, hc]
        rfl
      · rw [if_neg hc]
        obtain ⟨h, t, e⟩ := stringsSplitN_succ_cases sep (k + 1) cs
        have := ih (k + 1)
        rw [e] at this ⊢
        cases t with
        | nil =>
          simp only [stringsJoin] at this ⊢
          rw [this]
        | cons b t =>
          simp only [stringsJoin] at this ⊢
          rw [← this]
          simp

theorem stringsSplitN_fields (sep : Char) (n : Nat) (s : Str) :
    ∀ f ∈ (stringsSplitN sep (n + 1) s).dropLast, sep ∉ f := by
  induction s generalizing n with
  | nil =>
    cases n with
    | zero => simp [stringsSplitN]
    | succ k => simp [stringsSplitN]
  | cons c cs ih =>
    cases n with
    | zero => simp [stringsSplitN]
    | succ k =>
      rw [stringsSplitN]
      by_cases hc : c = sep
      · rw [if_pos hc]
        obtain ⟨h, t, e⟩ := stringsSplitN_succ_cases sep k cs
        have := ih k
        rw [e] at this ⊢
        intro f hf
        rw [List.dropLast_cons₂] at hf
        rcases List.mem_cons.1 hf with rfl | hf
        · simp
        · exact this f hf
      · rw [if_neg hc]
        obtain ⟨h, t, e⟩ := stringsSplitN_succ_cases sep (k + 1) cs
        have := ih (k + 1)
        rw [e] at this ⊢
        intro f hf
        cases t with
        | nil => simp at hf
        | cons b t =>
          rw [List.dropLast_cons₂] at hf this
          rcases List.mem_cons.1 hf with rfl | hf
          · have h1 := this h (by simp)
            simp only [List.mem_cons, not_or]
            exact ⟨fun x => hc x.symm, h1⟩
          · exact this f (List.mem_cons_of_mem _ hf)

theorem stringsSplitN_eq_split (sep : Char) (n : Nat) (s : Str) (h : s.count sep ≤ n) :
    stringsSplitN sep (n + 1) s = stringsSplit sep s := by
  induction s generalizing n with
  | nil =>
    cases n with
    | zero => rfl
    | succ k => rfl
  | cons c cs ih =>
    by_cases hc : c = sep
    · subst hc
      rw [List.count_cons_self] at h
      cases n with
      | zero => omega
      | succ k =>
        rw [stringsSplitN, stringsSplit, if_pos rfl, if_pos rfl, ih k (by omega)]
    · rw [List.count_cons_of_ne (fun x => hc x.symm)] at h
      cases n with
      | zero =>
        rw [stringsSplit, if_neg hc, ← ih 0 h]
        cases cs <;> rfl
      | succ k =>
        rw [stringsSplitN, stringsSplit, if_neg hc, if_neg hc, ih (k + 1) h]
/-- C14, counterexample to the exact field count: the identity
`secret@userKey@extra@pwKey@localhost` has five fields, yet `ImportUser` splits it into four,
the last being `pwKey@localhost`, and accepts it. -/
theorem importUser_five_fields :
    (stringsSplit '@' fiveFieldImport.id).length = 5 ∧
    stringsSplitN '@' 4 fiveFieldImport.id =
      ["secret".toList, "userKey".toList, "extra".toList, "pwKey@localhost".toList] ∧
    (ImportUser legacyUserEnv (fun _ _ => .ok 1) fiveFieldImport).result =
      .ok [{ fiveFieldImport with
        secret_name := "secret".toList
        username_key := "userKey".toList
        password_key := "extra".toList
        host := "pwKey@localhost".toList
        tls_option := "NONE".toList }] := by
  decide

/-- C14, as the code has it: `ImportUser` splits the identity at its first three `@` into
secretName, usernameKey, passwordKey and host, the host being the whole remainder. An
identity with fewer than three `@` fails with the wrong-format error before any secret or
database access; one with exactly three is split into exactly its four fields; one with more
is accepted as well, the further `@` staying in the host. The fields are then used
unchanged. -/
theorem importUser_fields (env : Env) (countUsers : Str → Str → Result Int) (d : UserData) :
    ((stringsSplitN '@' 4 d.id).length = 4 ↔ 3 ≤ d.id.count '@') ∧
    (d.id.count '@' < 3 →
      ImportUser env countUsers d =
        ⟨[], [], .error ("wrong ID format ".toList ++ d.id ++
          " (expected SECRET_NAME@USER_KEY@PASSWORD_KEY@HOST)".toList)⟩) ∧
    (d.id.count '@' = 3 → stringsSplitN '@' 4 d.id = stringsSplit '@' d.id) ∧
    (3 ≤ d.id.count '@' →
      ∃ secretName usernameKey passwordKey host : Str,
        stringsSplitN '@' 4 d.id = [secretName, usernameKey, passwordKey, host] ∧
        d.id = secretName ++ "@".toList ++ usernameKey ++ "@".toList ++ passwordKey ++
          "@".toList ++ host ∧
        '@' ∉ secretName ∧ '@' ∉ usernameKey ∧ '@' ∉ passwordKey ∧
        (∀ (username password : Str) (count : Int),
          env.getValueFromSecret secretName env.AWSRegion usernameKey = .ok username →
          env.getValueFromSecret secretName env.AWSRegion passwordKey = .ok password →
          countUsers username host = .ok count → count ≠ 0 →
          ImportUser env countUsers d =
            ⟨[usernameKey, passwordKey], [(username, host)],
              .ok [{ d with
                secret_name := secretName
                username_key := usernameKey
                password_key := passwordKey
                host := host
                tls_option := "NONE".toList }]⟩)) ∧
    stringsSplitN '@' 4 "secret@userKey@pwKey@localhost".toList =
      ["secret".toList, "userKey".toList, "pwKey".toList, "localhost".toList] := by
  have hlen := stringsSplitN_length '@' 3 d.id
  refine ⟨?_, ?_, ?_, ?_, by decide⟩
  · rw [hlen]
    omega
  · intro h
    have h4 : (stringsSplitN '@' 4 d.id).length ≠ 4 := by
      rw [hlen]
      omega
    unfold ImportUser
    split
    · rename_i a b c e heq
      rw [heq] at h4
      exact absurd rfl h4
    · rfl
  · intro h
    exact stringsSplitN_eq_split '@' 3 d.id (by omega)
  · intro h
    have h4 : (stringsSplitN '@' 4 d.id).length = 4 := by
      rw [hlen]
      omega
    have hjoin := stringsSplitN_join '@' 3 d.id
    have hfields := stringsSplitN_fields '@' 3 d.id
    match hsplit : stringsSplitN '@' 4 d.id, h4 with
    | [a, b, c, e], _ =>
      rw [hsplit] at hjoin hfields
      refine ⟨a, b, c, e, rfl, ?_, hfields a (by simp), hfields b (by simp),
        hfields c (by simp), ?_⟩
      · rw [← hjoin]
        simp [stringsJoin]
      · intro username password count h1 h2 h3 h5
        unfold ImportUser
        rw [hsplit]
        simp only [h1, h2, h3, if_neg h5]

/-! ## Facts about UpdateUser -/

/-- A version major.minor.patch is below 5.7.6 exactly when (major, minor, patch) is
lexicographically below (5, 7, 6), or equal to it with a prerelease. -/
theorem lessThan_576 (cmp : Str → Str → Int) (major minor patch : Nat) (pre : Str) :
    Version.LessThan cmp ⟨[major, minor, patch], pre⟩ ⟨[5, 7, 6], []⟩ = true ↔
      major < 5 ∨ (major = 5 ∧ (minor < 7 ∨ (minor = 7 ∧
        (patch < 6 ∨ (patch = 6 ∧ pre ≠ []))))) := by
  unfold Version.LessThan Version.Compare
  rw [decide_eq_true_iff]
  by_cases hs : [major, minor, patch] = [5, 7, 6]
  · simp only [List.cons.injEq, and_true] at hs
    obtain ⟨rfl, rfl, rfl⟩ := hs
    by_cases hp : pre = []
    · simp [hp]
    · simp [hp]
  · rw [if_neg hs]
    simp only [List.cons.injEq, and_true, not_and] at hs
    simp only [compareSegments]
    by_cases h1 : major = 5
    · by_cases h2 : minor = 7
      · have h3 : patch ≠ 6 := hs h1 h2
        by_cases h4 : patch < 6
        · simp [h1, h2, h3, h4]
        · simp [h1, h2, h3, h4]
      · by_cases h4 : minor < 7
        · simp [h1, h2, h4]
        · simp [h1, h2, h4]
    · by_cases h4 : major < 5
      · simp [h1, h4]
      · simp [h1, h4]

theorem updateUserPassword_executed (env : Env) (d : UserData) (username newpw : Str)
    (v : Version) (hv : env.serverVersion = .ok v) :
    (updateUserPassword env d username newpw).executed =
      [if v.LessThan env.comparePrereleases ⟨[5, 7, 6], []⟩ = true then
          "SET PASSWORD FOR '".toList ++ username ++ "'@'".toList ++ d.host ++
            "' = PASSWORD('".toList ++ newpw ++ "')".toList
        else
          "ALTER USER '".toList ++ username ++ "'@'".toList ++ d.host ++
            "' IDENTIFIED BY '".toList ++ newpw ++ "'".toList] := by
  unfold updateUserPassword
  rw [hv]
  dsimp only
  split <;> rfl

theorem updateUser_executed_eq (env : Env) (d : UserData) (tlsChanged : Bool)
    (username newpw : Str)
    (huser : env.getValueFromSecret d.secret_name env.AWSRegion d.username_key = .ok username)
    (hpw : env.getValueFromSecret d.secret_name env.AWSRegion d.password_key = .ok newpw)
    (hne : newpw ≠ []) :
    ∃ rest, (UpdateUser env d true tlsChanged).executed =
      (updateUserPassword env d username newpw).executed ++ rest := by
  have hrun : UpdateUser env d true tlsChanged = UpdateUser env d true tlsChanged := rfl
  conv at hrun => rhs; unfold UpdateUser
  simp only [huser, if_true, hpw, ne_eq, hne, not_false_eq_true] at hrun
  rw [hrun]
  generalize updateUserPassword env d username newpw = first
  cases first.err with
  | some err => exact ⟨[], (List.append_nil _).symm⟩
  | none =>
    dsimp only
    cases env.serverVersion with
    | error err => exact ⟨[], (List.append_nil _).symm⟩
    | ok currentVersion =>
      dsimp only
      split
      · split
        · exact ⟨_, rfl⟩
        · exact ⟨_, rfl⟩
      · exact ⟨[], (List.append_nil _).symm⟩

/-- The first statement of `UpdateUser` after a change of password, and the versions that
are not below 5.7.6. -/
theorem updateUser_password_first (env : Env) (d : UserData) (tlsChanged : Bool)
    (username newpw : Str) (v : Version)
    (huser : env.getValueFromSecret d.secret_name env.AWSRegion d.username_key = .ok username)
    (hpw : env.getValueFromSecret d.secret_name env.AWSRegion d.password_key = .ok newpw)
    (hne : newpw ≠ [])
    (hv : env.serverVersion = .ok v) :
    let legacy := "SET PASSWORD FOR '".toList ++ username ++ "'@'".toList ++ d.host ++
      "' = PASSWORD('".toList ++ newpw ++ "')".toList
    let modern := "ALTER USER '".toList ++ username ++ "'@'".toList ++ d.host ++
      "' IDENTIFIED BY '".toList ++ newpw ++ "'".toList
    let below := v.LessThan env.comparePrereleases ⟨[5, 7, 6], []⟩
    (below = false →
      (updateUserPassword env d username newpw).executed = [modern] ∧
      (UpdateUser env d true tlsChanged).executed.head? = some modern) ∧
    (below = true →
      (updateUserPassword env d username newpw).executed = [legacy] ∧
      (UpdateUser env d true tlsChanged).executed.head? = some legacy) ∧
    (∀ (major minor patch : Nat) (pre : Str), v = ⟨[major, minor, patch], pre⟩ →
      (below = false ↔
        5 < major ∨ (major = 5 ∧ (7 < minor ∨ (minor = 7 ∧
          (6 < patch ∨ (patch = 6 ∧ pre = []))))))) ∧
    (v = ⟨[5, 7, 6], []⟩ → below = false) := by
  intro legacy modern below
  have hexec := updateUserPassword_executed env d username newpw v hv
  obtain ⟨rest, hrest⟩ := updateUser_executed_eq env d tlsChanged username newpw huser hpw hne
  refine ⟨?_, ?_, ?_, ?_⟩
  · intro hb
    have hb2 : ¬ v.LessThan env.comparePrereleases ⟨[5, 7, 6], []⟩ = true := by
      rw [show v.LessThan env.comparePrereleases ⟨[5, 7, 6], []⟩ = below from rfl, hb]
      simp
    rw [if_neg hb2] at hexec
    exact ⟨hexec, by rw [hrest, hexec]; rfl⟩
  · intro hb
    rw [if_pos hb] at hexec
    exact ⟨hexec, by rw [hrest, hexec]; rfl⟩
  · intro major minor patch pre e
    have hl := lessThan_576 env.comparePrereleases major minor patch pre
    rw [← e] at hl
    have hb : below = false ↔ ¬ (v.LessThan env.comparePrereleases ⟨[5, 7, 6], []⟩ = true) := by
      simp [below]
    rw [hb, hl]
    by_cases hp : pre = []
    · simp only [hp, ne_eq, not_true_eq_false, and_false, or_false, and_true]
      omega
    · simp only [hp, ne_eq, not_false_eq_true, and_true, and_false, or_false]
      omega
  · intro e
    have hl := lessThan_576 env.comparePrereleases 5 7 6 []
    subst e
    cases hb : below with
    | false => rfl
    | true =>
      have := hl.1 hb
      simp at this

/-- The whole run of `UpdateUser` after a change of password: the password statement, then the
statement for the TLS option when that branch is taken. -/
theorem updateUser_run (env : Env) (d : UserData) (tlsChanged : Bool)
    (username newpw : Str) (v : Version)
    (huser : env.getValueFromSecret d.secret_name env.AWSRegion d.username_key = .ok username)
    (hpw : env.getValueFromSecret d.secret_name env.AWSRegion d.password_key = .ok newpw)
    (hne : newpw ≠ [])
    (hv : env.serverVersion = .ok v) (pwSQL : Str)
    (hsql : (updateUserPassword env d username newpw).executed = [pwSQL]) :
    (∀ e, env.exec pwSQL = some e →
      UpdateUser env d true tlsChanged = ⟨[pwSQL], some e, d⟩) ∧
    (env.exec pwSQL = none →
      UpdateUser env d true tlsChanged =
        if (tlsChanged && v.GreaterThan env.comparePrereleases ⟨[5, 7, 0], []⟩) = true then
          ⟨[pwSQL, updateUserTLSSQL username d.host d.tls_option],
            env.exec (updateUserTLSSQL username d.host d.tls_option), d⟩
        else ⟨[pwSQL], none, d⟩) := by
  have hfirst : updateUserPassword env d username newpw = ⟨[pwSQL], env.exec pwSQL⟩ := by
    have hrun : updateUserPassword env d username newpw =
        updateUserPassword env d username newpw := rfl
    conv at hrun => rhs; unfold updateUserPassword
    simp only [hv] at hrun
    rw [hrun] at hsql ⊢
    split at hsql
    · rename_i err hx
      simp only [List.cons.injEq, and_true] at hsql
      subst hsql
      rw [hx]
    · rename_i hx
      simp only [List.cons.injEq, and_true] at hsql
      subst hsql
      rw [hx]
  have hrun : UpdateUser env d true tlsChanged = UpdateUser env d true tlsChanged := rfl
  conv at hrun => rhs; unfold UpdateUser
  simp only [huser, if_true, hpw, ne_eq, hne, not_false_eq_true, hfirst, hv] at hrun
  refine ⟨?_, ?_⟩
  · intro e he
    rw [hrun]
    simp only [he]
  · intro he
    rw [hrun]
    simp only [he]
    by_cases hc : (tlsChanged && v.GreaterThan env.comparePrereleases ⟨[5, 7, 0], []⟩) = true
    · simp only [hc, if_true, List.singleton_append]
      cases env.exec (updateUserTLSSQL username d.host d.tls_option) <;> rfl
    · simp only [hc, if_false, Bool.false_eq_true]

theorem passwordSQL_ne (username host newpw tls : Str) :
    let legacy := "SET PASSWORD FOR '".toList ++ username ++ "'@'".toList ++ host ++
      "' = PASSWORD('".toList ++ newpw ++ "')".toList
    let modern := "ALTER USER '".toList ++ username ++ "'@'".toList ++ host ++
      "' IDENTIFIED BY '".toList ++ newpw ++ "'".toList
    legacy ≠ modern ∧ updateUserTLSSQL username host tls ≠ legacy ∧
      updateUserTLSSQL username host tls ≠ modern := by
  intro legacy modern
  refine ⟨?_, ?_, ?_⟩
  · intro h
    have h0 := congrArg List.head? h
    simp [legacy, modern] at h0
  · intro h
    have h0 := congrArg List.head? h
    simp [legacy, updateUserTLSSQL] at h0
  · intro h
    have e1 : updateUserTLSSQL username host tls =
        ("ALTER USER '".toList ++ username ++ "'@'".toList ++ host) ++
          ("'  REQUIRE ".toList ++ (" REQUIRE ".toList ++ tls)) := by
      unfold updateUserTLSSQL
      simp only [List.append_assoc]
    have e2 : modern = ("ALTER USER '".toList ++ username ++ "'@'".toList ++ host) ++
        ("' IDENTIFIED BY '".toList ++ newpw ++ "'".toList) := by
      simp only [modern, List.append_assoc]
    rw [e1, e2] at h
    have h2 := List.append_cancel_left h
    have h3 := congrArg (fun l : Str => l.get? 2) h2
    simp at h3

/-- C15: when the password key changed and the new password is non-empty, `UpdateUser` begins
with the password statement and executes exactly one of the two forms:
`ALTER USER '<user>'@'<host>' IDENTIFIED BY '<pw>'` when the server version is at least 5.7.6
(5.7.6 included), `SET PASSWORD FOR '<user>'@'<host>' = PASSWORD('<pw>')` when it is below;
the only statement that may follow is the one for the TLS option. -/
theorem updateUser_password_statement (env : Env) (d : UserData) (tlsChanged : Bool)
    (username newpw : Str) (v : Version)
    (huser : env.getValueFromSecret d.secret_name env.AWSRegion d.username_key = .ok username)
    (hpw : env.getValueFromSecret d.secret_name env.AWSRegion d.password_key = .ok newpw)
    (hne : newpw ≠ [])
    (hv : env.serverVersion = .ok v) :
    let legacy := "SET PASSWORD FOR '".toList ++ username ++ "'@'".toList ++ d.host ++
      "' = PASSWORD('".toList ++ newpw ++ "')".toList
    let modern := "ALTER USER '".toList ++ username ++ "'@'".toList ++ d.host ++
      "' IDENTIFIED BY '".toList ++ newpw ++ "'".toList
    let below := v.LessThan env.comparePrereleases ⟨[5, 7, 6], []⟩
    let pwSQL := if below = true then legacy else modern
    let tlsSQL := updateUserTLSSQL username d.host d.tls_option
    let run := UpdateUser env d true tlsChanged
    (∀ e, env.exec pwSQL = some e → run = ⟨[pwSQL], some e, d⟩) ∧
    (env.exec pwSQL = none → run.executed = [pwSQL] ∨ run.executed = [pwSQL, tlsSQL]) ∧
    (env.exec pwSQL = none → tlsChanged = false → run = ⟨[pwSQL], none, d⟩) ∧
    run.executed.filter (fun s => decide (s = legacy ∨ s = modern)) = [pwSQL] ∧
    (below = false → modern ∈ run.executed ∧ legacy ∉ run.executed) ∧
    (below = true → legacy ∈ run.executed ∧ modern ∉ run.executed) ∧
    (∀ (major minor patch : Nat) (pre : Str), v = ⟨[major, minor, patch], pre⟩ →
      (below = false ↔
        5 < major ∨ (major = 5 ∧ (7 < minor ∨ (minor = 7 ∧
          (6 < patch ∨ (patch = 6 ∧ pre = []))))))) ∧
    (v = ⟨[5, 7, 6], []⟩ → below = false) := by
  intro legacy modern below pwSQL tlsSQL run
  obtain ⟨hne1, hne2, hne3⟩ := passwordSQL_ne username d.host newpw d.tls_option
  have hsql : (updateUserPassword env d username newpw).executed = [pwSQL] :=
    updateUserPassword_executed env d username newpw v hv
  obtain ⟨hfail, hok⟩ := updateUser_run env d tlsChanged username newpw v huser hpw hne hv
    pwSQL hsql
  obtain ⟨_, _, hver, h576⟩ :=
    updateUser_password_first env d tlsChanged username newpw v huser hpw hne hv
  have hpw2 : pwSQL = legacy ∨ pwSQL = modern := by
    by_cases hb : below = true
    · exact Or.inl (if_pos hb)
    · exact Or.inr (if_neg hb)
  have hcases : run.executed = [pwSQL] ∨ run.executed = [pwSQL, tlsSQL] := by
    cases he : env.exec pwSQL with
    | some e => exact Or.inl (by rw [show run = _ from hfail e he])
    | none =>
      have := hok he
      by_cases hc : (tlsChanged && v.GreaterThan env.comparePrereleases ⟨[5, 7, 0], []⟩) = true
      · rw [if_pos hc] at this
        exact Or.inr (by rw [show run = _ from this])
      · rw [if_neg hc] at this
        exact Or.inl (by rw [show run = _ from this])
  have hfilter : run.executed.filter (fun s => decide (s = legacy ∨ s = modern)) = [pwSQL] := by
    have hp : decide (pwSQL = legacy ∨ pwSQL = modern) = true := by simpa using hpw2
    have ht : decide (tlsSQL = legacy ∨ tlsSQL = modern) = false := by
      simp only [decide_eq_false_iff_not, not_or]
      exact ⟨hne2, hne3⟩
    rcases hcases with h | h
    · rw [h]
      simp only [List.filter_cons, hp, if_true, List.filter_nil]
    · rw [h]
      simp only [List.filter_cons, hp, ht, if_true, List.filter_nil, Bool.false_eq_true,
        if_false]
  have hmem : pwSQL ∈ run.executed := by
    rcases hcases with h | h <;> rw [h] <;> simp
  have hother : ∀ s, (s = legacy ∨ s = modern) → s ≠ pwSQL → s ∉ run.executed := by
    intro s hs hn hm
    have : s ∈ run.executed.filter (fun s => decide (s = legacy ∨ s = modern)) :=
      List.mem_filter.2 ⟨hm, by simpa using hs⟩
    rw [hfilter, List.mem_singleton] at this
    exact hn this
  refine ⟨hfail, fun _ => hcases, ?_, hfilter, ?_, ?_, hver, h576⟩
  · intro he ht
    have := hok he
    rw [if_neg (by simp [ht])] at this
    exact this
  · intro hb
    have e : pwSQL = modern := if_neg (by rw [hb]; simp)
    exact ⟨e ▸ hmem, hother legacy (Or.inl rfl) (by rw [e]; exact hne1)⟩
  · intro hb
    have e : pwSQL = legacy := if_pos hb
    exact ⟨e ▸ hmem, hother modern (Or.inr rfl) (by rw [e]; exact fun h => hne1 h.symm)⟩

/-- The change of password of the user `app`: ALTER USER on the 5.7.30 server, SET PASSWORD on
the 5.6.40 server, and nothing else. -/
theorem updateUser_password_statement_witness :
    UpdateUser legacyUserEnv sslUser true false =
      ⟨["ALTER USER 'app'@'localhost' IDENTIFIED BY 'app'".toList], none, sslUser⟩ ∧
    UpdateUser mysql56Env sslUser true false =
      ⟨["SET PASSWORD FOR 'app'@'localhost' = PASSWORD('app')".toList], none, sslUser⟩ :=
  ⟨(updateUser_password_statement legacyUserEnv sslUser false "app".toList "app".toList
      ⟨[5, 7, 30], []⟩ rfl rfl (by decide) rfl).2.2.1 rfl rfl,
    (updateUser_password_statement mysql56Env sslUser false "app".toList "app".toList
      ⟨[5, 6, 40], []⟩ rfl rfl (by decide) rfl).2.2.1 rfl rfl⟩

/-! ## Facts about SetUserPassword -/

theorem passwordPolicyVars_length (policy : List PasswordPolicy) (init : PolicyVars)
    (hne : policy ≠ []) (h : ∀ p ∈ policy, requiredPasswordLength ≤ p.length) :
    requiredPasswordLength ≤
      (policy.foldl
        (fun _ tfMap => ({
          passwordPolicyLength := tfMap.length
          passwordPolicyNumDigits := tfMap.num_digits
          passwordPolicyNumSymbols := tfMap.num_symbols
          passwordPolicyAllowRepeat := tfMap.allow_repeat } : PolicyVars))
        init).passwordPolicyLength := by
  induction policy generalizing init with
  | nil => exact absurd rfl hne
  | cons p ps ih =>
    rw [List.foldl_cons]
    by_cases hps : ps = []
    · subst hps
      exact h p (by simp)
    · exact ih _ hps (fun q hq => h q (List.mem_cons_of_mem _ hq))

/-- C16: for the configuration without a `password_policy` block, which the schema accepts,
`SetUserPassword` asks the generator for a password of length 0 and sets the empty password;
the length requested is at least 32 only when a block is present and accepted. -/
theorem setUserPassword_length_without_policy :
    acceptedBySchema basicUserPassword = true ∧
    (SetUserPassword legacyUserEnv plainPasswordEnv basicUserPassword).generated =
      { passwordPolicyLength := 0, passwordPolicyNumDigits := 0,
        passwordPolicyNumSymbols := 0, passwordPolicyAllowRepeat := false } ∧
    (SetUserPassword legacyUserEnv plainPasswordEnv basicUserPassword).executed =
      ["SET PASSWORD FOR 'jdoe'@'localhost' = PASSWORD('')".toList] ∧
    (∀ (env : Env) (penv : PasswordEnv) (d : UserPasswordData),
      d.password_policy = [] →
      (SetUserPassword env penv d).generated.passwordPolicyLength = 0) ∧
    (∀ (env : Env) (penv : PasswordEnv) (d : UserPasswordData),
      d.password_policy ≠ [] → acceptedBySchema d = true →
      requiredPasswordLength ≤ (SetUserPassword env penv d).generated.passwordPolicyLength) := by
  refine ⟨by decide, by decide, by decide, ?_, ?_⟩
  · intro env penv d hd
    have hg : (SetUserPassword env penv d).generated = passwordPolicyVars d.password_policy := by
      unfold SetUserPassword
      dsimp only
      repeat' split
      all_goals rfl
    rw [hg, hd]
    rfl
  · intro env penv d hd hacc
    have hg : (SetUserPassword env penv d).generated = passwordPolicyVars d.password_policy := by
      unfold SetUserPassword
      dsimp only
      repeat' split
      all_goals rfl
    rw [hg]
    refine passwordPolicyVars_length d.password_policy _ hd ?_
    intro p hp
    unfold acceptedBySchema at hacc
    rw [List.all_eq_true] at hacc
    have := hacc p hp
    unfold validateLength at this
    by_cases hlt : p.length < requiredPasswordLength
    · rw [if_pos hlt] at this
      exact absurd this (by decide)
    · exact not_lt.1 hlt

/-! ## Facts about occurrences of the keyword ON -/

theorem onRun_append (q : Nat) (a b : Str) : onRun q (a ++ b) = onRun (onRun q a) b := by
  unfold onRun
  rw [List.foldl_append]

theorem onRun_cons (q : Nat) (c : Char) (s : Str) : onRun q (c :: s) = onRun (onStep q c) s :=
  rfl

theorem onStep_le (q : Nat) (c : Char) : onStep q c ≤ 4 := by
  unfold onStep
  split <;> (try split) <;> (try split) <;> omega

theorem onStep_found (q : Nat) (c : Char) (h : 4 ≤ q) : onStep q c = 4 := by
  obtain ⟨k, rfl⟩ : ∃ k, q = k + 4 := ⟨q - 4, by omega⟩
  rfl

theorem onRun_found (q : Nat) (s : Str) (h : 4 ≤ q) : onRun q s = 4 ∨ (s = [] ∧ onRun q s = q) := by
  induction s generalizing q with
  | nil => exact Or.inr ⟨rfl, rfl⟩
  | cons c s ih =>
    rw [onRun_cons, onStep_found q c h]
    rcases ih 4 (le_refl 4) with h1 | ⟨_, h1⟩
    · exact Or.inl h1
    · exact Or.inl h1

theorem onRun_four (s : Str) : onRun 4 s = 4 := by
  rcases onRun_found 4 s (le_refl 4) with h | ⟨_, h⟩ <;> exact h

theorem onRun_le (q : Nat) (s : Str) (h : q ≤ 4) : onRun q s ≤ 4 := by
  induction s generalizing q with
  | nil => exact h
  | cons c s ih =>
    rw [onRun_cons]
    exact ih _ (onStep_le q c)

/-- An occurrence of ` ON ` brings the matcher to the state 4, wherever it starts. -/
theorem onRun_of_occurrence (q : Nat) (x y : Str) (hq : q ≤ 4) :
    onRun q (x ++ " ON ".toList ++ y) = 4 := by
  rw [onRun_append, onRun_append]
  have hx := onRun_le q x hq
  generalize onRun q x = p at hx
  have : onRun p " ON ".toList = 4 := by
    rcases p with _ | _ | _ | _ | _ | p
    · rfl
    · rfl
    · rfl
    · rfl
    · rfl
    · omega
  rw [this, onRun_four]

/-- What the state of the matcher says about the input read from the initial state. -/
theorem onRun_state (s : Str) :
    (onRun 0 s = 1 → " ".toList <:+ s) ∧ (onRun 0 s = 2 → " O".toList <:+ s) ∧
    (onRun 0 s = 3 → " ON".toList <:+ s) ∧ (4 ≤ onRun 0 s → " ON ".toList <:+: s) := by
  induction s using List.reverseRecOn with
  | nil => exact ⟨by decide, by decide, by decide, by decide⟩
  | append_singleton s c ih =>
    obtain ⟨i1, i2, i3, i4⟩ := ih
    have hstep : onRun 0 (s ++ [c]) = onStep (onRun 0 s) c := by
      rw [onRun_append]
      rfl
    rw [hstep]
    have hle := onRun_le 0 s (by omega)
    generalize onRun 0 s = q at i1 i2 i3 i4 hle
    interval_cases q
    · by_cases h : c = ' '
      · subst h
        rw [show onStep 0 ' ' = 1 from rfl]
        exact ⟨fun _ => ⟨s, rfl⟩, by omega, by omega, by omega⟩
      · rw [show onStep 0 c = 0 by simp [onStep, h]]
        exact ⟨by omega, by omega, by omega, by omega⟩
    · by_cases h : c = 'O'
      · subst h
        rw [show onStep 1 'O' = 2 from rfl]
        refine ⟨by omega, fun _ => ?_, by omega, by omega⟩
        obtain ⟨t, ht⟩ := i1 rfl
        exact ⟨t, by rw [← ht]; simp⟩
      · by_cases h2 : c = ' '
        · subst h2
          rw [show onStep 1 ' ' = 1 from rfl]
          exact ⟨fun _ => ⟨s, rfl⟩, by omega, by omega, by omega⟩
        · rw [show onStep 1 c = 0 by simp [onStep, h, h2]]
          exact ⟨by omega, by omega, by omega, by omega⟩
    · by_cases h : c = 'N'
      · subst h
        rw [show onStep 2 'N' = 3 from rfl]
        refine ⟨by omega, by omega, fun _ => ?_, by omega⟩
        obtain ⟨t, ht⟩ := i2 rfl
        exact ⟨t, by rw [← ht]; simp⟩
      · by_cases h2 : c = ' '
        · subst h2
          rw [show onStep 2 ' ' = 1 from rfl]
          exact ⟨fun _ => ⟨s, rfl⟩, by omega, by omega, by omega⟩
        · rw [show onStep 2 c = 0 by simp [onStep, h, h2]]
          exact ⟨by omega, by omega, by omega, by omega⟩
    · by_cases h : c = ' '
      · subst h
        rw [show onStep 3 ' ' = 4 from rfl]
        refine ⟨by omega, by omega, by omega, fun _ => ?_⟩
        obtain ⟨t, ht⟩ := i3 rfl
        exact ⟨t, [], by rw [← ht]; simp⟩
      · rw [show onStep 3 c = 0 by simp [onStep, h]]
        exact ⟨by omega, by omega, by omega, by omega⟩
    · rw [show onStep 4 c = 4 from rfl]
      refine ⟨by omega, by omega, by omega, fun _ => ?_⟩
      obtain ⟨a, b, hab⟩ := i4 (by omega)
      exact ⟨a, b ++ [c], by rw [← hab]; simp⟩

/-- Without an occurrence of ` ON ` the matcher stays below the state 4. -/
theorem onRun_lt_of_no_occurrence (s : Str) (h : ¬ (" ON ".toList <:+: s)) : onRun 0 s < 4 := by
  by_contra hn
  exact h ((onRun_state s).2.2.2 (by omega))

/-- A text without spaces leaves the matcher in its initial state. -/
theorem onRun_zero_of_no_space (s : Str) (h : ' ' ∉ s) : onRun 0 s = 0 := by
  induction s with
  | nil => rfl
  | cons c s ih =>
    simp only [List.mem_cons, not_or] at h
    rw [onRun_cons]
    have : onStep 0 c = 0 := by
      unfold onStep
      simp only [if_neg (fun e : c = ' ' => h.1 e.symm)]
    rw [this, ih h.2]

/-- A character other than the space, O and N resets the matcher, unless ` ON ` has
occurred. -/
theorem onStep_reset (q : Nat) (c : Char) (hq : q < 4) (h1 : c ≠ ' ') (h2 : c ≠ 'O')
    (h3 : c ≠ 'N') : onStep q c = 0 := by
  rcases q with _ | _ | _ | _ | q
  · simp [onStep, h1]
  · simp [onStep, h1, h2]
  · simp [onStep, h1, h3]
  · simp [onStep, h1]
  · omega

/-! ## Facts about the groups found in a rendered line -/

theorem literal_cons_ne (a c : Char) (l s : Str) (h : a ≠ c) :
    literal (a :: l) (c :: s) = none := by
  rw [literal, if_neg h]

/-- The greedy group is exactly `g` when no longer repetition can be continued. -/
theorem greedyPlus_eq {α : Type} (k : Str → Option α) (g rest : Str) (r : α)
    (hg : DotPlus g) (hk : k rest = some r) (hnone : greedyPlus k rest = none) :
    greedyPlus k (g ++ rest) = some (g, r) := by
  induction g with
  | nil => exact absurd rfl hg.1
  | cons c g ih =>
    have hc : ¬ c = '\n' := fun e => hg.2 (by simp [e])
    rw [List.cons_append, greedyPlus, if_neg hc]
    by_cases hnil : g = []
    · subst hnil
      rw [List.nil_append, hnone, hk]
    · rw [ih ⟨hnil, fun hm => hg.2 (List.mem_cons_of_mem _ hm)⟩]

/-- The lazy group is exactly `g` when the continuation fails at every character of `g`. -/
theorem lazyPlus_eq {α : Type} (k : Str → Option α) (g rest : Str) (r : α)
    (hg : DotPlus g) (hk : k rest = some r) (hno : ∀ c ∈ g, ∀ s, k (c :: s) = none) :
    lazyPlus k (g ++ rest) = some (g, r) := by
  induction g with
  | nil => exact absurd rfl hg.1
  | cons c g ih =>
    have hc : ¬ c = '\n' := fun e => hg.2 (by simp [e])
    rw [List.cons_append, lazyPlus, if_neg hc]
    cases g with
    | nil => rw [List.nil_append, hk]
    | cons b g =>
      rw [List.cons_append, hno b (by simp), ← List.cons_append,
        ih ⟨by simp, fun hm => hg.2 (List.mem_cons_of_mem _ hm)⟩
          (fun x hx => hno x (List.mem_cons_of_mem _ hx))]

/-- After ` ON ` and a text in which ` ON ` cannot start again, no longer first group is
possible. -/
theorem greedyPlus_on_none {α : Type} (k : Str → Option α) (tail : Str)
    (h : onRun 1 tail < 4) :
    greedyPlus (fun r => (literal " ON ".toList r).bind k) (" ON ".toList ++ tail) = none := by
  cases hgp : greedyPlus (fun r => (literal " ON ".toList r).bind k)
      (" ON ".toList ++ tail) with
  | none => rfl
  | some x =>
    obtain ⟨g, r⟩ := x
    obtain ⟨y, h1, h2, h3⟩ := greedyPlus_sound _ _ _ _ hgp
    cases hl : literal " ON ".toList y with
    | none =>
      rw [hl] at h3
      exact absurd h3 (by simp)
    | some z =>
      rw [literal_eq_some] at hl
      subst hl
      cases g with
      | nil => exact absurd rfl h2.1
      | cons c g =>
        have h4 : "ON ".toList ++ tail = g ++ " ON ".toList ++ z := by
          have := congrArg List.tail h1
          simpa using this
        have h5 := onRun_of_occurrence 0 g z (by omega)
        rw [← h4, onRun_append] at h5
        rw [show onRun 0 "ON ".toList = 1 from rfl] at h5
        omega

theorem formatDatabaseName_cases (d : Str) (h : backtick ∉ d) :
    (d = "*".toList ∧ formatDatabaseName d = "*".toList) ∨
      (d ≠ "*".toList ∧ formatDatabaseName d = backtick :: (d ++ [backtick])) := by
  by_cases hd : d = "*".toList
  · subst hd
    exact Or.inl ⟨rfl, rfl⟩
  · refine Or.inr ⟨hd, ?_⟩
    have hs : hasSuffix d [backtick] = false := by
      cases hx : hasSuffix d [backtick] with
      | false => rfl
      | true =>
        exact absurd (List.mem_of_getLast?_eq_some ((hasSuffix_backtick_iff d).1 hx)) h
    unfold formatDatabaseName
    rw [if_pos ⟨hd, by rw [hs]; rfl⟩]
    rfl

theorem formatTableName_cases (t : Str) (h : t ≠ []) :
    (t = "*".toList ∧ formatTableName t = "*".toList) ∨
      (t ≠ "*".toList ∧ formatTableName t = backtick :: (t ++ [backtick])) := by
  by_cases ht : t = "*".toList
  · subst ht
    exact Or.inl ⟨rfl, rfl⟩
  · refine Or.inr ⟨ht, ?_⟩
    unfold formatTableName
    rw [if_neg (by rintro (h1 | h1) <;> contradiction)]
    rfl

/-- What the two renderings share: a wrapped or wildcard name is non-empty, starts with a
backtick or a star, and has the characters of the name, backticks and stars only. -/
theorem wrapped_name_facts (n f : Str)
    (hf : (n = "*".toList ∧ f = "*".toList) ∨ (n ≠ "*".toList ∧ f = backtick :: (n ++ [backtick]))) :
    (∀ c ∈ f, c ∈ n ∨ c = backtick) ∧
    (∃ c w, f = c :: w ∧ (c = backtick ∨ c = '*')) := by
  rcases hf with ⟨h1, h2⟩ | ⟨_, h2⟩
  · subst h1 h2
    exact ⟨fun c hc => Or.inl hc, '*', [], rfl, Or.inr rfl⟩
  · subst h2
    refine ⟨?_, backtick, n ++ [backtick], rfl, Or.inl rfl⟩
    intro c hc
    simp only [List.mem_cons, List.mem_append, List.mem_singleton, List.not_mem_nil,
      or_false] at hc
    rcases hc with hc | hc | hc
    · exact Or.inr hc
    · exact Or.inl hc
    · exact Or.inr hc

theorem removeAll_wrapped (d : Str) (h : backtick ∉ d) :
    removeAll (formatDatabaseName d) backtick = d := by
  have hfilter : d.filter (fun c => c != backtick) = d := by
    rw [List.filter_eq_self]
    intro c hc
    simp only [bne_iff_ne, ne_eq]
    exact fun e => h (e ▸ hc)
  rcases formatDatabaseName_cases d h with ⟨h1, h2⟩ | ⟨_, h2⟩
  · rw [h2, h1]
    decide
  · rw [h2]
    unfold removeAll
    rw [List.filter_cons_of_neg (by simp), List.filter_append, hfilter]
    simp

theorem dropWhile_backtick (t : Str) (h : backtick ∉ t) (hne : t ≠ []) (rest : Str) :
    (t ++ rest).dropWhile (fun c => c == backtick) = t ++ rest := by
  cases t with
  | nil => exact absurd rfl hne
  | cons c t =>
    simp only [List.mem_cons, not_or] at h
    rw [List.cons_append, List.dropWhile_cons_of_neg]
    simp only [beq_iff_eq]
    exact fun e => h.1 e.symm

theorem stringsTrim_wrapped (t : Str) (h : backtick ∉ t) (hne : t ≠ []) :
    stringsTrim (formatTableName t) backtick = t := by
  rcases formatTableName_cases t hne with ⟨h1, h2⟩ | ⟨_, h2⟩
  · rw [h2, h1]
    decide
  · rw [h2]
    unfold stringsTrim trimFunc
    have hb : ∀ l : Str, List.dropWhile (fun c => c == backtick) (backtick :: l) =
        List.dropWhile (fun c => c == backtick) l := by
      intro l
      rw [List.dropWhile_cons, if_pos (by simp)]
    rw [hb, dropWhile_backtick t h hne, List.reverse_append,
      List.reverse_singleton, List.singleton_append, hb]
    have hr := dropWhile_backtick t.reverse (by simpa using h) (by simpa using hne) []
    rw [List.append_nil] at hr
    rw [hr, List.reverse_reverse]

/-! ### The privilege list -/

theorem stringsSplit_no_sep (sep : Char) (p : Str) (h : sep ∉ p) : stringsSplit sep p = [p] := by
  induction p with
  | nil => rfl
  | cons c p ih =>
    simp only [List.mem_cons, not_or] at h
    rw [stringsSplit, if_neg (fun e => h.1 e.symm), ih h.2]

theorem stringsSplit_append_sep (sep : Char) (p rest : Str) (h : sep ∉ p) :
    stringsSplit sep (p ++ sep :: rest) = p :: stringsSplit sep rest := by
  induction p with
  | nil =>
    rw [List.nil_append, stringsSplit, if_pos rfl]
  | cons c p ih =>
    simp only [List.mem_cons, not_or] at h
    rw [List.cons_append, stringsSplit, if_neg (fun e => h.1 e.symm), ih h.2]

theorem stringsSplit_join (P : List Str) (p : Str) (h : ∀ q ∈ p :: P, ',' ∉ q) :
    stringsSplit ',' (stringsJoin ", ".toList (p :: P)) =
      p :: P.map (fun q => ' ' :: q) := by
  induction P generalizing p with
  | nil =>
    rw [stringsJoin]
    exact stringsSplit_no_sep ',' p (h p (by simp))
  | cons b P ih =>
    rw [stringsJoin]
    have e : p ++ ", ".toList ++ stringsJoin ", ".toList (b :: P) =
        p ++ ',' :: (' ' :: stringsJoin ", ".toList (b :: P)) := by
      simp
    rw [e, stringsSplit_append_sep ',' p _ (h p (by simp)), stringsSplit,
      if_neg (by decide), ih b (fun q hq => h q (List.mem_cons_of_mem _ hq))]
    rfl

theorem trimSpace_cons_space (p : Str) : trimSpace (' ' :: p) = trimSpace p := by
  unfold trimSpace trimFunc
  rw [List.dropWhile_cons_of_pos (by decide)]

/-- Splitting the joined privilege list at commas and trimming gives the list back. -/
theorem privileges_roundtrip (P : List Str) (hP : P ≠ [])
    (h : ∀ q ∈ P, ',' ∉ q ∧ trimSpace q = q) :
    (stringsSplit ',' (flattenList P "%s".toList)).map trimSpace = P := by
  have hmap : P.map (sprintf1 "%s".toList) = P := by
    have : ∀ v : Str, sprintf1 "%s".toList v = v := by
      intro v
      show (if '%' = '%' ∧ 's' = 's' then v ++ [] else _) = v
      simp
    rw [List.map_congr_left (fun v _ => this v), List.map_id']
  cases P with
  | nil => exact absurd rfl hP
  | cons p P =>
    unfold flattenList
    rw [hmap, stringsSplit_join P p (fun q hq => (h q hq).1), List.map_cons, List.map_map,
      (h p (by simp)).2]
    congr 1
    have : ∀ q ∈ P, (trimSpace ∘ fun q => ' ' :: q) q = id q := by
      intro q hq
      show trimSpace (' ' :: q) = q
      rw [trimSpace_cons_space, (h q (List.mem_cons_of_mem _ hq)).2]
    rw [List.map_congr_left this, List.map_id]

theorem stringsJoin_dotPlus (P : List Str) (hP : P ≠ [])
    (h : ∀ q ∈ P, q ≠ [] ∧ '\n' ∉ q) : DotPlus (flattenList P "%s".toList) := by
  have hmap : P.map (sprintf1 "%s".toList) = P := by
    have : ∀ v : Str, sprintf1 "%s".toList v = v := by
      intro v
      show (if '%' = '%' ∧ 's' = 's' then v ++ [] else _) = v
      simp
    rw [List.map_congr_left (fun v _ => this v), List.map_id']
  unfold flattenList
  rw [hmap]
  clear hmap
  induction P with
  | nil => exact absurd rfl hP
  | cons p P ih =>
    cases P with
    | nil =>
      rw [stringsJoin]
      exact h p (by simp)
    | cons b P =>
      rw [stringsJoin]
      have ih2 := ih (by simp) (fun q hq => h q (List.mem_cons_of_mem _ hq))
      have hp := h p (by simp)
      refine ⟨by simp [hp.1], ?_⟩
      simp only [List.mem_append, not_or]
      exact ⟨⟨hp.2, by decide⟩, ih2.2⟩

/-! ### The rendered line -/

theorem rePrivileges_rendered (J D T rem : Str) (hJ : DotPlus J) (hD : DotPlus D)
    (hT : DotPlus T) (hDdot : '.' ∉ D) (hTsp : ' ' ∉ T)
    (htail : onRun 1 (D ++ (".".toList ++ (T ++ (" TO".toList ++ rem)))) < 4) :
    rePrivileges (J ++ (" ON ".toList ++ (D ++ (".".toList ++ (T ++ (" TO".toList ++ rem))))))
      = some (J, D, T) := by
  have hTable : reTable (T ++ (" TO".toList ++ rem)) = some T := by
    unfold reTable
    rw [lazyPlus_eq (literal " TO".toList) T (" TO".toList ++ rem) rem hT (literal_append _ _)
      (fun c hc s => literal_cons_ne _ _ _ _ (fun e => hTsp (e ▸ hc)))]
    rfl
  have hDb : reDatabase (D ++ (".".toList ++ (T ++ (" TO".toList ++ rem)))) = some (D, T) := by
    unfold reDatabase
    refine lazyPlus_eq _ D _ T hD ?_ ?_
    · rw [literal_append, Option.some_bind, hTable]
    · intro c hc s
      have hne : '.' ≠ c := fun e => hDdot (e ▸ hc)
      rw [show literal ".".toList (c :: s) = none from literal_cons_ne '.' c [] s hne]
      rfl
  unfold rePrivileges
  refine greedyPlus_eq _ J _ (D, T) hJ ?_ (greedyPlus_on_none reDatabase _ htail)
  rw [literal_append, Option.some_bind, hDb]

theorem onRun_rendered_tail (D T user host suffix : Str) (hDsp : ' ' ∉ D)
    (hDhead : ∃ c w, D = c :: w ∧ (c = backtick ∨ c = '*')) (hTsp : ' ' ∉ T)
    (hu : ¬ (" ON ".toList <:+: user)) (hh : ¬ (" ON ".toList <:+: host))
    (hs : onRun 0 suffix < 4) :
    onRun 1 (D ++ (".".toList ++ (T ++ (" TO".toList ++
      (" '".toList ++ (user ++ ("'@'".toList ++ (host ++ ("'".toList ++ suffix))))))))) < 4 := by
  obtain ⟨c, w, hD, hc⟩ := hDhead
  have hD1 : onRun 1 D = 0 := by
    subst hD
    simp only [List.mem_cons, not_or] at hDsp
    rw [onRun_cons, onStep_reset 1 c (by omega) (fun e => hDsp.1 e.symm)
      (by rcases hc with rfl | rfl <;> decide) (by rcases hc with rfl | rfl <;> decide)]
    exact onRun_zero_of_no_space w hDsp.2
  have hquote : ∀ q, q < 4 → ∀ s, onRun q ("'".toList ++ s) = onRun 0 s := by
    intro q hq s
    show onRun q (Char.ofNat 39 :: s) = onRun 0 s
    rw [onRun_cons, onStep_reset q _ hq (by decide) (by decide) (by decide)]
  rw [onRun_append, hD1]
  rw [show onRun 0 (".".toList ++ (T ++ (" TO".toList ++ (" '".toList ++ (user ++
      ("'@'".toList ++ (host ++ ("'".toList ++ suffix)))))))) =
    onRun 0 (T ++ (" TO".toList ++ (" '".toList ++ (user ++
      ("'@'".toList ++ (host ++ ("'".toList ++ suffix))))))) from rfl]
  rw [onRun_append, onRun_zero_of_no_space T hTsp]
  rw [show onRun 0 (" TO".toList ++ (" '".toList ++ (user ++
      ("'@'".toList ++ (host ++ ("'".toList ++ suffix)))))) =
    onRun 0 (user ++ ("'@'".toList ++ (host ++ ("'".toList ++ suffix)))) from rfl]
  rw [onRun_append]
  rw [show "'@'".toList ++ (host ++ ("'".toList ++ suffix)) =
    "'".toList ++ ("@'".toList ++ (host ++ ("'".toList ++ suffix))) from rfl]
  rw [hquote _ (onRun_lt_of_no_occurrence user hu)]
  rw [show onRun 0 ("@'".toList ++ (host ++ ("'".toList ++ suffix))) =
    onRun 0 (host ++ ("'".toList ++ suffix)) from rfl]
  rw [onRun_append, hquote _ (onRun_lt_of_no_occurrence host hh)]
  exact hs

/-- The line rendered for a list of privileges, a database, a table and a user at a host is
matched by `re` with exactly the rendered groups. -/
theorem reFindStringSubmatch_rendered (P : List Str) (d t user host suffix : Str)
    (hP : P ≠ [])
    (hp : ∀ p ∈ P, p ≠ [] ∧ '\n' ∉ p)
    (hd : backtick ∉ d ∧ '.' ∉ d ∧ ' ' ∉ d ∧ '\n' ∉ d)
    (ht : t ≠ [] ∧ ' ' ∉ t ∧ '\n' ∉ t)
    (hu : ¬ (" ON ".toList <:+: user)) (hh : ¬ (" ON ".toList <:+: host))
    (hs : onRun 0 suffix < 4) :
    ∃ whole,
      reFindStringSubmatch ("GRANT ".toList ++ flattenList P "%s".toList ++ " ON ".toList ++
        formatDatabaseName d ++ ".".toList ++ formatTableName t ++ " TO ".toList ++
        ("'".toList ++ user ++ "'@'".toList ++ host ++ "'".toList) ++ suffix) =
      [whole, flattenList P "%s".toList, formatDatabaseName d, formatTableName t] := by
  have hJ := stringsJoin_dotPlus P hP hp
  obtain ⟨hD1, hD2⟩ := wrapped_name_facts d _ (formatDatabaseName_cases d hd.1)
  obtain ⟨hT1, hT2⟩ := wrapped_name_facts t _ (formatTableName_cases t ht.1)
  have hnot : ∀ (n f : Str) (x : Char), (∀ c ∈ f, c ∈ n ∨ c = backtick) → x ∉ n →
      x ≠ backtick → x ∉ f := by
    intro n f x hf hx hb hm
    rcases hf x hm with h | h
    · exact hx h
    · exact hb h
  have hDne : formatDatabaseName d ≠ [] := by
    obtain ⟨c, w, e, _⟩ := hD2
    rw [e]
    simp
  have hTne : formatTableName t ≠ [] := by
    obtain ⟨c, w, e, _⟩ := hT2
    rw [e]
    simp
  have hDP : DotPlus (formatDatabaseName d) := ⟨hDne, hnot _ _ _ hD1 hd.2.2.2 (by decide)⟩
  have hTP : DotPlus (formatTableName t) := ⟨hTne, hnot _ _ _ hT1 ht.2.2 (by decide)⟩
  have hDdot : '.' ∉ formatDatabaseName d := hnot _ _ _ hD1 hd.2.1 (by decide)
  have hDsp : ' ' ∉ formatDatabaseName d := hnot _ _ _ hD1 hd.2.2.1 (by decide)
  have hTsp : ' ' ∉ formatTableName t := hnot _ _ _ hT1 ht.2.1 (by decide)
  have htail := onRun_rendered_tail _ _ user host suffix hDsp hD2 hTsp hu hh hs
  have hre := rePrivileges_rendered (flattenList P "%s".toList) (formatDatabaseName d)
    (formatTableName t)
    (" '".toList ++ (user ++ ("'@'".toList ++ (host ++ ("'".toList ++ suffix)))))
    hJ hDP hTP hDdot hTsp htail
  have hline : "GRANT ".toList ++ flattenList P "%s".toList ++ " ON ".toList ++
      formatDatabaseName d ++ ".".toList ++ formatTableName t ++ " TO ".toList ++
      ("'".toList ++ user ++ "'@'".toList ++ host ++ "'".toList) ++ suffix =
      "GRANT ".toList ++ (flattenList P "%s".toList ++ (" ON ".toList ++
        (formatDatabaseName d ++ (".".toList ++ (formatTableName t ++ (" TO".toList ++
        (" '".toList ++ (user ++ ("'@'".toList ++ (host ++
          ("'".toList ++ suffix))))))))))) := by
    simp only [List.append_assoc]
    rfl
  rw [hline]
  unfold reFindStringSubmatch
  rw [literal_append]
  dsimp only
  rw [hre]
  exact ⟨_, rfl⟩

/-- C17, counterexample to the roundtrip as worded: the privilege named GRANT OPTION fulfils
the conditions on privilege names, yet the line rendered for it parses with Grant = true; and
a privilege name with an inner newline fulfils them too, yet its line does not parse. -/
theorem parse_rendered_grant_option_privilege :
    parseGrantLine ("GRANT ".toList ++ flattenList ["GRANT OPTION".toList] "%s".toList ++
        " ON ".toList ++ formatDatabaseName "db".toList ++ ".".toList ++
        formatTableName "tbl".toList ++ " TO ".toList ++ "'u'@'h'".toList) =
      .ok { Database := "db".toList, Table := "tbl".toList,
            Privileges := ["GRANT OPTION".toList], Grant := true } ∧
    (trimSpace "GRANT OPTION".toList = "GRANT OPTION".toList ∧
      ',' ∉ "GRANT OPTION".toList ∧ ¬ (" ON ".toList <:+: "GRANT OPTION".toList)) ∧
    parseGrantLine ("GRANT ".toList ++ flattenList ["A\nB".toList] "%s".toList ++
        " ON ".toList ++ formatDatabaseName "db".toList ++ ".".toList ++
        formatTableName "tbl".toList ++ " TO ".toList ++ "'u'@'h'".toList) =
      .error "failed to parse grant statement: GRANT A\nB ON `db`.`tbl` TO 'u'@'h'".toList ∧
    (trimSpace "A\nB".toList = "A\nB".toList ∧
      ',' ∉ "A\nB".toList ∧ ¬ (" ON ".toList <:+: "A\nB".toList)) := by
  decide

/-- C17, as the code has it: for a non-empty list of privilege names, each non-empty, without
commas, newlines and surrounding whitespace, a database and a non-empty table without
backticks, dots (database), spaces and newlines, and a user and a host not containing ` ON `,
the line parser of `showGrants` applied to the rendered statement
`GRANT <P joined by ", "> ON <database>.<table> TO '<user>'@'<host>'` returns the database,
the table and the privileges, with Grant true exactly when the line contains GRANT OPTION as
a standalone token sequence: false when it does not, and true once ` WITH GRANT OPTION` is
appended. -/
theorem parse_rendered_grant (P : List Str) (d t user host : Str)
    (hP : P ≠ [])
    (hp : ∀ p ∈ P, p ≠ [] ∧ ',' ∉ p ∧ '\n' ∉ p ∧ trimSpace p = p)
    (hd : backtick ∉ d ∧ '.' ∉ d ∧ ' ' ∉ d ∧ '\n' ∉ d)
    (ht : t ≠ [] ∧ backtick ∉ t ∧ ' ' ∉ t ∧ '\n' ∉ t)
    (hu : ¬ (" ON ".toList <:+: user)) (hh : ¬ (" ON ".toList <:+: host)) :
    let line := "GRANT ".toList ++ flattenList P "%s".toList ++ " ON ".toList ++
      formatDatabaseName d ++ ".".toList ++ formatTableName t ++ " TO ".toList ++
      ("'".toList ++ user ++ "'@'".toList ++ host ++ "'".toList)
    parseGrantLine line =
      .ok { Database := d, Table := t, Privileges := P, Grant := reGrantMatchString line } ∧
    (¬ ContainsStandaloneGrantOption line →
      parseGrantLine line = .ok { Database := d, Table := t, Privileges := P, Grant := false }) ∧
    parseGrantLine (line ++ " WITH GRANT OPTION".toList) =
      .ok { Database := d, Table := t, Privileges := P, Grant := true } := by
  intro line
  have hfields : ∀ suffix : Str, onRun 0 suffix < 4 →
      parseGrantLine (line ++ suffix) =
        .ok { Database := d, Table := t, Privileges := P,
              Grant := reGrantMatchString (line ++ suffix) } := by
    intro suffix hs
    obtain ⟨whole, hw⟩ := reFindStringSubmatch_rendered P d t user host suffix hP
      (fun p h => ⟨(hp p h).1, (hp p h).2.2.1⟩) hd ⟨ht.1, ht.2.2⟩ hu hh hs
    rw [parseGrantLine_of_match _ _ _ _ _ hw, removeAll_wrapped d hd.1,
      stringsTrim_wrapped t ht.2.1 ht.1,
      privileges_roundtrip P hP (fun p h => ⟨(hp p h).2.1, (hp p h).2.2.2⟩)]
  have hplain := hfields [] (by decide)
  rw [List.append_nil] at hplain
  refine ⟨hplain, ?_, ?_⟩
  · intro hn
    rw [hplain]
    have : reGrantMatchString line = false := by
      cases hg : reGrantMatchString line with
      | false => rfl
      | true => exact absurd ((reGrantMatchString_iff line).1 hg) hn
    rw [this]
  · have hs : onRun 0 " WITH GRANT OPTION".toList < 4 := by
      simp [onRun, onStep]
    have h2 := hfields " WITH GRANT OPTION".toList hs
    rw [h2]
    have : reGrantMatchString (line ++ " WITH GRANT OPTION".toList) = true := by
      rw [reGrantMatchString_iff]
      refine ⟨line ++ " WITH ".toList, [], by simp, ?_, rfl⟩
      rw [List.getLast?_append]
      show isWordAt (some ' ') = false
      decide
    rw [this]

/-- The line rendered for SELECT and INSERT on `db`.`tbl` for 'u'@'h' parses back. -/
theorem parse_rendered_grant_witness :
    parseGrantLine "GRANT SELECT, INSERT ON `db`.`tbl` TO 'u'@'h'".toList =
      .ok { Database := "db".toList, Table := "tbl".toList,
            Privileges := ["SELECT".toList, "INSERT".toList], Grant := false } ∧
    parseGrantLine "GRANT SELECT, INSERT ON `db`.`tbl` TO 'u'@'h' WITH GRANT OPTION".toList =
      .ok { Database := "db".toList, Table := "tbl".toList,
            Privileges := ["SELECT".toList, "INSERT".toList], Grant := true } :=
  have h := parse_rendered_grant ["SELECT".toList, "INSERT".toList] "db".toList "tbl".toList
    "u".toList "h".toList (by decide) (by decide) (by decide) (by decide) (by decide)
    (by decide)
  ⟨h.1, h.2.2⟩

/-- Without a change of the TLS option, `UpdateUser` executes at most the password
statement. -/
theorem updateUser_without_tls_change (env : Env) (d : UserData) (pwChanged : Bool) :
    (UpdateUser env d pwChanged false).executed = [] ∨
      ∃ username newpw, (UpdateUser env d pwChanged false).executed =
        (updateUserPassword env d username newpw).executed := by
  cases h1 : env.getValueFromSecret d.secret_name env.AWSRegion d.username_key with
  | error err => exact Or.inl (by simp [UpdateUser, h1])
  | ok username =>
    cases h2 : (if pwChanged = true then
        env.getValueFromSecret d.secret_name env.AWSRegion d.password_key
        else Result.ok []) with
    | error err => exact Or.inl (by simp [UpdateUser, h1, h2])
    | ok newpw =>
      have hrun : UpdateUser env d pwChanged false = UpdateUser env d pwChanged false := rfl
      conv at hrun => rhs; unfold UpdateUser
      simp only [h1, h2, Bool.false_and, Bool.false_eq_true, if_false] at hrun
      by_cases hp : newpw = []
      · refine Or.inl ?_
        rw [hrun]
        simp only [hp, ne_eq, not_true_eq_false, if_false]
        cases env.serverVersion <;> rfl
      · refine Or.inr ⟨username, newpw, ?_⟩
        rw [hrun]
        simp only [ne_eq, hp, not_false_eq_true, if_true]
        generalize updateUserPassword env d username newpw = first
        cases first.err with
        | some err => rfl
        | none =>
          dsimp only
          cases env.serverVersion <;> rfl

/-- C18, counterexample to the statement of `UpdateUser`: on the 5.7.30 server a change of
tls_option from NONE to SSL touches a `ForceNew` attribute and is not applied by `UpdateUser`:
the user is dropped and created again, and no `ALTER USER` statement is executed. The branch
of `UpdateUser` for a changed tls_option, which this change never enters, would moreover
carry the keyword REQUIRE twice. -/
theorem updateUser_tls_statement :
    plainUser.tls_option ≠ sslUser.tls_option ∧
    ¬ ("REQUIRE".toList <:+: sslUser.tls_option) ∧
    userForceNewChanged plainUser sslUser = true ∧
    applyUserChange legacyUserEnv plainUser sslUser =
      ["DROP USER 'app'@'localhost'".toList,
        "CREATE USER 'app'@'localhost' IDENTIFIED BY 'app' REQUIRE SSL".toList] ∧
    (∀ s ∈ applyUserChange legacyUserEnv plainUser sslUser,
      ¬ ("ALTER USER".toList <+: s)) ∧
    UpdateUser legacyUserEnv sslUser false true =
      ⟨["ALTER USER 'app'@'localhost'  REQUIRE  REQUIRE SSL".toList], none, sslUser⟩ ∧
    occurrences "REQUIRE".toList
      "ALTER USER 'app'@'localhost'  REQUIRE  REQUIRE SSL".toList = 2 := by
  decide

/-- C18, as the code has it: tls_option is `ForceNew`, so a change of it replaces the user:
the statements are those of `DeleteUser` on the prior data and, when that succeeds, those of
`CreateUser` on the new data, whose statement ends in the clause ` REQUIRE <opt>`, once, when
the server version is greater than 5.7.0 and the option is non-empty. `UpdateUser` is only
reached when no `ForceNew` attribute changed, thus without a change of tls_option, and then
executes at most the password statement. -/
theorem tls_change_replaces_user (env : Env) (prior d : UserData) :
    (prior.tls_option ≠ d.tls_option →
      applyUserChange env prior d =
        (DeleteUser env prior).executed ++
          (if (DeleteUser env prior).err = none then (CreateUser env d).executed else [])) ∧
    (∀ (username password : Str) (v : Version),
      env.getValueFromSecret d.secret_name env.AWSRegion d.username_key = .ok username →
      env.getValueFromSecret d.secret_name env.AWSRegion d.password_key = .ok password →
      env.serverVersion = .ok v →
      v.GreaterThan env.comparePrereleases ⟨[5, 7, 0], []⟩ = true → d.tls_option ≠ [] →
      (CreateUser env d).executed =
        ["CREATE USER '".toList ++ username ++ "'@'".toList ++ d.host ++
          "' IDENTIFIED BY '".toList ++ password ++ "'".toList ++ " REQUIRE ".toList ++
          d.tls_option]) ∧
    (userForceNewChanged prior d = false →
      prior.tls_option = d.tls_option ∧
      applyUserChange env prior d =
        (UpdateUser env d (prior.password_key != d.password_key) false).executed ∧
      (applyUserChange env prior d = [] ∨
        ∃ username newpw, applyUserChange env prior d =
          (updateUserPassword env d username newpw).executed)) ∧
    applyUserChange legacyUserEnv plainUser sslUser =
      ["DROP USER 'app'@'localhost'".toList,
        "CREATE USER 'app'@'localhost' IDENTIFIED BY 'app' REQUIRE SSL".toList] := by
  refine ⟨?_, ?_, ?_, by decide⟩
  · intro h
    have hf : userForceNewChanged prior d = true := by
      unfold userForceNewChanged
      simp [h]
    unfold applyUserChange
    rw [if_pos hf]
    cases (DeleteUser env prior).err with
    | none => simp
    | some e => simp
  · intro username password v h1 h2 h3 h4 h5
    have hrun : CreateUser env d = CreateUser env d := rfl
    conv at hrun => rhs; unfold CreateUser
    simp only [h1, h2, h3, h4, Bool.true_and, bne_iff_ne, ne_eq, h5, not_false_eq_true,
      if_true] at hrun
    rw [hrun]
    have e : "CREATE USER '".toList ++ username ++ "'@'".toList ++ d.host ++ "'".toList ++
        (" IDENTIFIED BY '".toList ++ password ++ "'".toList) ++
        (" REQUIRE ".toList ++ d.tls_option) =
        "CREATE USER '".toList ++ username ++ "'@'".toList ++ d.host ++
          "' IDENTIFIED BY '".toList ++ password ++ "'".toList ++ " REQUIRE ".toList ++
          d.tls_option := by
      simp only [List.append_assoc]
      rfl
    rw [e]
    split <;> rfl
  · intro h
    have ht : prior.tls_option = d.tls_option := by
      unfold userForceNewChanged at h
      simp only [Bool.or_eq_false_iff, bne_eq_false_iff_eq] at h
      exact h.2
    have hflag : (prior.tls_option != d.tls_option) = false := by simp [ht]
    have happ : applyUserChange env prior d =
        (UpdateUser env d (prior.password_key != d.password_key) false).executed := by
      unfold applyUserChange
      rw [h, hflag]
      rfl
    refine ⟨ht, happ, ?_⟩
    rw [happ]
    exact updateUser_without_tls_change env d _

end MySQL
